import Mathlib

/-! # Shallow embedding of `arm_dwt_f32.c`

The three functions of `source/arm_dwt_f32.c` that take part in a decomposition
(`arm_dwt_check_f32`, `arm_dwt_1dec_f32`, `arm_dwt_f32`) are translated statement by
statement.

* `uint32_t` values are natural numbers; every `+`, `-`, `*` of the source is taken
  modulo `2 ^ 32` (`u32_add`, `u32_sub`, `u32_mul`).
* `float32_t` is an arbitrary type `α` with `0`, `+` and `*` (the theorems take the
  arithmetic to be exact).
* A pointer to an array is `Option (List α)`: `none` is `NULL`, and the list is the
  array the pointer designates, its length being the number of elements allocated.
* An access outside an array is undefined behaviour in C.  The functions return
  `Option`: `none` stands for an execution that performs such an access.
* The cells of an automatic array that nothing has written yet hold an indeterminate
  value; the embedding takes it as the argument `stack`, the same for every cell.
* An automatic array is a list of the declared length.  The amount of automatic storage
  is not bounded, except where a declared length wraps around: `preSignal` is declared
  with `filtersLength - 2` cells, which for `filtersLength < 2` is `2 ^ 32 - 2` or
  `2 ^ 32 - 1` cells, beyond the storage of a 32-bit target, and such an execution has no
  defined result either (`preSignalCells`).
-/

namespace ArmDwt

/-! ## `uint32_t` arithmetic -/

/-- Addition of two `uint32_t` values. -/
def u32_add (a b : Nat) : Nat := (a + b) % 4294967296

/-- Subtraction of two `uint32_t` values (wraps below zero). -/
def u32_sub (a b : Nat) : Nat :=
  if b % 4294967296 ≤ a % 4294967296 then a % 4294967296 - b % 4294967296
  else 4294967296 - (b % 4294967296 - a % 4294967296)

/-- Multiplication of two `uint32_t` values. -/
def u32_mul (a b : Nat) : Nat := (a * b) % 4294967296

/-! ## Types of `arm_dwt_f32.h` -/

/-- Maximum level of DWT decomposition. -/
def ARM_DWT_MAX_DEC_LEVEL : Nat := 10

/-- DWT computation status result. -/
inductive arm_dwt_status where
  | DWT_STATUS_SUCCESS
  | DWT_STATUS_ERROR
  | DWT_STATUS_INVALID_PARAMETER
  | DWT_STATUS_BUFFER_OVERFLOW
  deriving DecidableEq, Repr

open arm_dwt_status

/-- Zero padding extrapolation, first enumerator of `arm_dwt_extrapolation_flag`. -/
def ARM_DWT_EM_ZERO_PADDING : Nat := 0

/-- Symmetric padding, second enumerator of `arm_dwt_extrapolation_flag`. -/
def ARM_DWT_EM_SYMMETRIC : Nat := 1

/-- DWT instance for floating point.  The field `extrapolationFlag` is the integer
value of the C enumeration, which can hold values other than the two enumerators. -/
structure arm_dwt_instance_f32 (α : Type) where
  filtersLength : Nat
  pHighFilter : Option (List α)
  pLowFilter : Option (List α)
  extrapolationFlag : Nat
  decLevel : Nat
  pInternalBuffer : Option (List α)
  internalBufferSize : Nat
  deriving DecidableEq, Repr

/-- One-decomposition DWT output structure. -/
structure arm_dwt_1dec_out_f32 (α : Type) where
  size : Nat
  pDCoeffs : Option (List α)
  pACoeffs : Option (List α)
  deriving DecidableEq, Repr

/-- DWT coefficient array structure.  The pointer `pCoeffs` always designates a cell of
the internal buffer and is kept as the index of that cell. -/
structure arm_dwt_coeffs_f32 where
  pCoeffs : Nat
  size : Nat
  deriving DecidableEq, Repr

/-- Full DWT output structure; `coeffs` is the array of `ARM_DWT_MAX_DEC_LEVEL + 1`
entries. -/
structure arm_dwt_out_f32 where
  coeffs : List arm_dwt_coeffs_f32
  decLevel : Nat
  deriving DecidableEq, Repr

/-! ## Array primitives -/

section Code

variable {α : Type}

/-- All the values of a list of reads, or `none` when one of the reads failed. -/
def collect {β : Type} : List (Option β) → Option (List β)
  | [] => some []
  | none :: _ => none
  | some x :: r => (collect r).map (fun xs => x :: xs)

/-- Reads the cells `idx` of the array `a`, in order; `none` when an index is outside
the array. -/
def readIndices (a : List α) (idx : List Nat) : Option (List α) :=
  collect (idx.map (fun k => a[k]?))

/-- Library primitive `arm_copy_f32 (pSrc, pDst + dstOff, blockSize)`: copies the first
`blockSize` cells of `pSrc` over the cells `dstOff ..` of `pDst`, and gives the new
contents of `pDst`. -/
def arm_copy_f32 (pSrc pDst : List α) (dstOff blockSize : Nat) : Option (List α) :=
  if blockSize ≤ pSrc.length ∧ dstOff + blockSize ≤ pDst.length then
    some (pDst.take dstOff ++ pSrc.take blockSize ++ pDst.drop (dstOff + blockSize))
  else none

/-- Library primitive `arm_mult_f32 (pSrcA, pSrcB, pDst, blockSize)`: element-wise
product of the first `blockSize` cells of the two sources. -/
def arm_mult_f32 [Mul α] (pSrcA pSrcB : List α) (blockSize : Nat) : Option (List α) :=
  if blockSize ≤ pSrcA.length ∧ blockSize ≤ pSrcB.length then
    some (List.zipWith (fun a b => a * b) (pSrcA.take blockSize) (pSrcB.take blockSize))
  else none

/-! ## `arm_dwt_check_f32` -/

/-- Body of the planning loop, first statement: the next `tmpSize`,
`1 + ( ( tmpSize - 1 ) / 2 ) + ( filtersLength / 2 - 1 )`. -/
def checkStep (filtersLength tmpSize : Nat) : Nat :=
  u32_add (u32_add 1 (u32_sub tmpSize 1 / 2)) (u32_sub (filtersLength / 2) 1)

/-- The planning loop `for ( i = 0 ; i < decLevel ; i++ )`, run for `n` more iterations
from the values `tmpSize` and `dwtOutSize`; gives the final `(tmpSize, dwtOutSize)`. -/
def checkLoop (filtersLength : Nat) : Nat → Nat → Nat → Nat × Nat
  | 0, tmpSize, dwtOutSize => (tmpSize, dwtOutSize)
  | n + 1, tmpSize, dwtOutSize =>
    checkLoop filtersLength n (checkStep filtersLength tmpSize)
      (u32_add dwtOutSize (checkStep filtersLength tmpSize))

/-- Value of `dwtOutSize` that `arm_dwt_check_f32` compares with `internalBufferSize`. -/
def dwtOutSize (filtersLength decLevel blockSize : Nat) : Nat :=
  u32_add (checkLoop filtersLength decLevel blockSize 0).2
    (checkLoop filtersLength decLevel blockSize 0).1

/-- Checks that the DWT internal buffer size is big enough given an input signal size. -/
def arm_dwt_check_f32 (pDWTInstance : Option (arm_dwt_instance_f32 α)) (blockSize : Nat) :
    arm_dwt_status :=
  match pDWTInstance with
  | none => DWT_STATUS_INVALID_PARAMETER
  | some inst =>
    if dwtOutSize inst.filtersLength inst.decLevel blockSize ≤ inst.internalBufferSize then
      DWT_STATUS_SUCCESS
    else
      DWT_STATUS_BUFFER_OVERFLOW

/-! ## `arm_dwt_1dec_f32` -/

/-- Index `filtersLength - i - 1` read in a filter while flipping it. -/
def flipIndex (filtersLength i : Nat) : Nat := u32_sub (u32_sub filtersLength i) 1

/-- Loop `flipped[ i ] = pFilter[ filtersLength - i - 1 ]` for `i < filtersLength`. -/
def flipFilter (pFilter : List α) (filtersLength : Nat) : Option (List α) :=
  readIndices pFilter ((List.range filtersLength).map (flipIndex filtersLength))

/-- Index `filtersLength - 3 - i` read in the signal for `preSignal[ i ]`. -/
def preSignalIndex (filtersLength i : Nat) : Nat := u32_sub (u32_sub filtersLength 3) i

/-- Index `blockSize - 1 - i` read in the signal for `postSignal[ i ]`. -/
def postSignalIndex (blockSize i : Nat) : Nat := u32_sub (u32_sub blockSize 1) i

/-- Declaration `float32_t preSignal[ filtersLength - 2 ]`: the number of cells of the
array.  The subtraction is done in `uint32_t`; when it wraps around (`filtersLength < 2`)
the array cannot be allocated and there is no defined result. -/
def preSignalCells (filtersLength : Nat) : Option Nat :=
  if 2 ≤ filtersLength % 4294967296 then some (u32_sub filtersLength 2) else none

/-- Value of `outSize`, `( blockSize + filtersLength - 1 ) / 2`. -/
def outSize (blockSize filtersLength : Nat) : Nat :=
  u32_sub (u32_add blockSize filtersLength) 1 / 2

/-- Value of `extendedSignalSize`, `blockSize + 2 * filtersLength - 2`. -/
def extendedSignalSize (blockSize filtersLength : Nat) : Nat :=
  u32_sub (u32_add blockSize (u32_mul 2 filtersLength)) 2

/-- The statement `switch ( extrapolationFlag )` of `arm_dwt_1dec_f32`: the contents of
`extendedSignal` after it. -/
def extendSignal [Zero α] (stack : α) (extrapolationFlag filtersLength : Nat)
    (pSignal : List α) (blockSize : Nat) : Option (List α) :=
  let extendedSignal := List.replicate (extendedSignalSize blockSize filtersLength) stack
  if extrapolationFlag = ARM_DWT_EM_ZERO_PADDING then
    let zeroArray : List α := List.replicate filtersLength 0
    (arm_copy_f32 zeroArray extendedSignal 0 (u32_sub filtersLength 2)).bind fun e1 =>
    (arm_copy_f32 pSignal e1 (u32_sub filtersLength 2) blockSize).bind fun e2 =>
    arm_copy_f32 zeroArray e2 (u32_add (u32_sub filtersLength 2) blockSize) filtersLength
  else if extrapolationFlag = ARM_DWT_EM_SYMMETRIC then
    (readIndices pSignal
      ((List.range (u32_sub filtersLength 2)).map (preSignalIndex filtersLength))).bind
        fun preSignal =>
    (readIndices pSignal
      ((List.range filtersLength).map (postSignalIndex blockSize))).bind fun postSignal =>
    (arm_copy_f32 preSignal extendedSignal 0 (u32_sub filtersLength 2)).bind fun e1 =>
    (arm_copy_f32 pSignal e1 (u32_sub filtersLength 2) blockSize).bind fun e2 =>
    arm_copy_f32 postSignal e2 (u32_add (u32_sub filtersLength 2) blockSize) filtersLength
  else
    some extendedSignal

/-- One coefficient: `arm_mult_f32 ( &extendedSignal[ 2 * i ], flipped, multRes, L )`
followed by `c[ i ] = 0 ; for j : c[ i ] += multRes[ j ]`. -/
def coeffAt [Zero α] [Add α] [Mul α] (extendedSignal flipped : List α)
    (filtersLength i : Nat) : Option α :=
  (arm_mult_f32 (extendedSignal.drop (u32_mul 2 i)) flipped filtersLength).map
    fun multRes => multRes.foldl (fun acc x => acc + x) 0

/-- The loop `for ( i = 0 ; i < outSize ; i++ )` for one of the two filters. -/
def computeCoeffs [Zero α] [Add α] [Mul α] (extendedSignal flipped : List α)
    (filtersLength n : Nat) : Option (List α) :=
  collect ((List.range n).map (coeffAt extendedSignal flipped filtersLength))

/-- Performs one wavelet decomposition.  The result is the returned status and the
contents of `*pDWTOut` after the call. -/
def arm_dwt_1dec_f32 [Zero α] [Add α] [Mul α] (stack : α)
    (pSignal : Option (List α)) (blockSize : Nat)
    (pDWTOut : Option (arm_dwt_1dec_out_f32 α))
    (pDWTInstance : Option (arm_dwt_instance_f32 α)) :
    Option (arm_dwt_status × Option (arm_dwt_1dec_out_f32 α)) :=
  match pSignal, pDWTOut, pDWTInstance with
  | some sig, some out, some inst =>
    match inst.pHighFilter, inst.pLowFilter, inst.pInternalBuffer,
        out.pACoeffs, out.pDCoeffs with
    | some hi, some lo, some _, some dstA, some dstD =>
      (preSignalCells inst.filtersLength).bind fun _ =>
      (flipFilter lo inst.filtersLength).bind fun flippedLowFilter =>
      (flipFilter hi inst.filtersLength).bind fun flippedHighFilter =>
      (extendSignal stack inst.extrapolationFlag inst.filtersLength sig blockSize).bind
        fun extendedSignal =>
      (computeCoeffs extendedSignal flippedLowFilter inst.filtersLength
        (outSize blockSize inst.filtersLength)).bind fun cACoeffs =>
      (computeCoeffs extendedSignal flippedHighFilter inst.filtersLength
        (outSize blockSize inst.filtersLength)).bind fun cDCoeffs =>
      (arm_copy_f32 cACoeffs dstA 0 (outSize blockSize inst.filtersLength)).bind fun dstA2 =>
      (arm_copy_f32 cDCoeffs dstD 0 (outSize blockSize inst.filtersLength)).bind fun dstD2 =>
      some (DWT_STATUS_SUCCESS,
        some { size := outSize blockSize inst.filtersLength,
               pDCoeffs := some dstD2, pACoeffs := some dstA2 })
    | _, _, _, _, _ => some (DWT_STATUS_INVALID_PARAMETER, pDWTOut)
  | _, _, _ => some (DWT_STATUS_INVALID_PARAMETER, pDWTOut)

/-! ## `arm_dwt_f32` -/

/-- Assignment of `coeffs[ i ]` in the output structure. -/
def setCoeffs (out : arm_dwt_out_f32) (i : Nat) (c : arm_dwt_coeffs_f32) :
    Option arm_dwt_out_f32 :=
  if i < out.coeffs.length then some { out with coeffs := out.coeffs.set i c } else none

/-- Variables of `arm_dwt_f32` that its loop reads and writes, with the contents of the
internal buffer and of `*pDWTOut`. -/
structure CascadeState (α : Type) where
  i : Nat
  copyCounter : Nat
  xDecResult : arm_dwt_1dec_out_f32 α
  buffer : List α
  out : arm_dwt_out_f32
  deriving DecidableEq, Repr

/-- The three statements `arm_copy_f32 ( src, &pInternalBuffer[ copyCounter ], size )`,
`coeffs[ idx ] = { &pInternalBuffer[ copyCounter ], size }`, `copyCounter += size`. -/
def storeCoeffs (st : CascadeState α) (src : Option (List α)) (idx : Nat) :
    Option (CascadeState α) :=
  src.bind fun s =>
  (arm_copy_f32 s st.buffer st.copyCounter st.xDecResult.size).bind fun buf =>
  (setCoeffs st.out idx
    { pCoeffs := st.copyCounter, size := st.xDecResult.size }).bind fun out2 =>
  some { st with copyCounter := u32_add st.copyCounter st.xDecResult.size,
                 buffer := buf, out := out2 }

/-- The loop `for ( i = 1 ; i < decLevel ; i++ )` of `arm_dwt_f32`, with `fuel` bounding
the number of iterations; it stops when the test fails or at the `break`. -/
def cascadeLoop [Zero α] [Add α] [Mul α] (stack : α) (inst : arm_dwt_instance_f32 α) :
    Nat → CascadeState α → Option (CascadeState α)
  | 0, st => some st
  | fuel + 1, st =>
    if st.i < inst.decLevel then
      match arm_dwt_1dec_f32 stack st.xDecResult.pACoeffs st.xDecResult.size
          (some st.xDecResult) (some inst) with
      | none => none
      | some (DWT_STATUS_SUCCESS, some r) =>
        (storeCoeffs { st with xDecResult := r } r.pDCoeffs st.i).bind fun st2 =>
        cascadeLoop stack inst fuel { st2 with i := u32_add st2.i 1 }
      | some _ => some st
    else some st

/-- Value of `decOutputSize`, `1 + ( ( blockSize - 1 ) / 2 ) + ( filtersLength / 2 - 1 )`,
the number of cells of `outCA` and of `outCD`. -/
def decOutputSize (blockSize filtersLength : Nat) : Nat :=
  u32_add (u32_add 1 (u32_sub blockSize 1 / 2)) (u32_sub (filtersLength / 2) 1)

/-- The last branch of `arm_dwt_f32`, entered when no pointer is null and the check
passed: the returned status with the final values of the variables. -/
def cascade [Zero α] [Add α] [Mul α] (stack : α) (inst : arm_dwt_instance_f32 α)
    (sig : List α) (blockSize : Nat) (buffer : List α) (out : arm_dwt_out_f32) :
    Option (arm_dwt_status × CascadeState α) :=
  let outCA := List.replicate (decOutputSize blockSize inst.filtersLength) stack
  let outCD := List.replicate (decOutputSize blockSize inst.filtersLength) stack
  let xDecResult : arm_dwt_1dec_out_f32 α :=
    { size := 0, pDCoeffs := some outCD, pACoeffs := some outCA }
  let st0 : CascadeState α :=
    { i := 0, copyCounter := 0, xDecResult := xDecResult, buffer := buffer, out := out }
  match arm_dwt_1dec_f32 stack (some sig) blockSize (some xDecResult) (some inst) with
  | none => none
  | some (DWT_STATUS_SUCCESS, some r) =>
    (storeCoeffs { st0 with xDecResult := r } r.pDCoeffs 0).bind fun st1 =>
    (cascadeLoop stack inst inst.decLevel { st1 with i := 1 }).bind fun st2 =>
    if st2.i = inst.decLevel then
      (storeCoeffs st2 st2.xDecResult.pACoeffs inst.decLevel).bind fun st3 =>
      some (DWT_STATUS_SUCCESS,
        { st3 with out := { st3.out with decLevel := inst.decLevel } })
    else some (DWT_STATUS_ERROR, st2)
  | some _ => some (DWT_STATUS_ERROR, st0)

/-- Runs the DWT computation.  The result is the returned status, the contents of the
internal buffer and the contents of `*pDWTOut` after the call. -/
def arm_dwt_f32 [Zero α] [Add α] [Mul α] (stack : α)
    (pDWTInstance : Option (arm_dwt_instance_f32 α)) (pSignal : Option (List α))
    (blockSize : Nat) (pDWTOut : Option arm_dwt_out_f32) :
    Option (arm_dwt_status × Option (List α) × Option arm_dwt_out_f32) :=
  match pSignal, pDWTInstance, pDWTOut with
  | some sig, some inst, some out =>
    match inst.pHighFilter, inst.pLowFilter, inst.pInternalBuffer with
    | some _, some _, some buffer =>
      if arm_dwt_check_f32 (some inst) blockSize ≠ DWT_STATUS_SUCCESS then
        some (DWT_STATUS_INVALID_PARAMETER, some buffer, some out)
      else
        (cascade stack inst sig blockSize buffer out).map fun r =>
          (r.1, some r.2.buffer, some r.2.out)
    | _, _, _ => some (DWT_STATUS_INVALID_PARAMETER, inst.pInternalBuffer, some out)
  | _, some inst, _ => some (DWT_STATUS_INVALID_PARAMETER, inst.pInternalBuffer, pDWTOut)
  | _, none, _ => some (DWT_STATUS_INVALID_PARAMETER, none, pDWTOut)

end Code

/-! ## Vocabulary of the specification -/

/-- Planner recurrence of the specification: `size_0 = N0` and
`size_level = 1 + floor((size_{level-1} - 1) / 2) + floor(L / 2) - 1`. -/
def planSize (L N0 : Nat) : Nat → Nat
  | 0 => N0
  | k + 1 => 1 + (planSize L N0 k - 1) / 2 + L / 2 - 1

/-- Sum `size_1 + ... + size_D` of the specification. -/
def planSum (L N0 : Nat) : Nat → Nat
  | 0 => 0
  | k + 1 => planSum L N0 k + planSize L N0 (k + 1)

/-- Total of the specification, `(size_1 + ... + size_D) + size_D`. -/
def planTotal (L N0 D : Nat) : Nat := planSum L N0 D + planSize L N0 D

/-- The cells of the internal buffer that a recorded view designates. -/
def viewOf {α : Type} (buffer : List α) (v : arm_dwt_coeffs_f32) : List α :=
  (buffer.drop v.pCoeffs).take v.size

/-- The output structure of a call of `arm_dwt_1dec_f32` that returned
`DWT_STATUS_SUCCESS`. -/
def successRecord {α : Type} :
    Option (arm_dwt_status × Option (arm_dwt_1dec_out_f32 α)) → Option (arm_dwt_1dec_out_f32 α)
  | some (DWT_STATUS_SUCCESS, some r) => some r
  | _ => none

/-- The arrays `outCA` and `outCD` with which `arm_dwt_f32` starts. -/
def scratchRecord {α : Type} (stack : α) (blockSize filtersLength : Nat) :
    arm_dwt_1dec_out_f32 α :=
  { size := 0,
    pDCoeffs := some (List.replicate (decOutputSize blockSize filtersLength) stack),
    pACoeffs := some (List.replicate (decOutputSize blockSize filtersLength) stack) }

/-- Output of the successive decompositions: `levelRecord .. 0` is the output of
`arm_dwt_1dec_f32` applied to the input signal, `levelRecord .. (k + 1)` the output of
`arm_dwt_1dec_f32` applied to the approximation coefficients of `levelRecord .. k`
(the array `pACoeffs` with the length `size`). -/
def levelRecord {α : Type} [Zero α] [Add α] [Mul α] (stack : α)
    (inst : arm_dwt_instance_f32 α) (sig : List α) (blockSize : Nat) :
    Nat → Option (arm_dwt_1dec_out_f32 α)
  | 0 =>
    successRecord (arm_dwt_1dec_f32 stack (some sig) blockSize
      (some (scratchRecord stack blockSize inst.filtersLength)) (some inst))
  | k + 1 =>
    (levelRecord stack inst sig blockSize k).bind fun r =>
      successRecord (arm_dwt_1dec_f32 stack r.pACoeffs r.size (some r) (some inst))

/-- Approximation coefficients held by an output structure: the first `size` cells of
`pACoeffs`. -/
def approxOf {α : Type} (r : arm_dwt_1dec_out_f32 α) : List α :=
  (r.pACoeffs.getD []).take r.size

/-- Detail coefficients held by an output structure: the first `size` cells of
`pDCoeffs`. -/
def detailOf {α : Type} (r : arm_dwt_1dec_out_f32 α) : List α :=
  (r.pDCoeffs.getD []).take r.size

/-- Number of coefficients of each array of `levelRecord .. k` (`0` when there is no such
output). -/
def levelSize {α : Type} [Zero α] [Add α] [Mul α] (stack : α)
    (inst : arm_dwt_instance_f32 α) (sig : List α) (blockSize k : Nat) : Nat :=
  ((levelRecord stack inst sig blockSize k).map fun r => r.size).getD 0

/-- Sum of the sizes of the outputs `levelRecord .. 0`, ..., `levelRecord .. (k - 1)`. -/
def levelOffset {α : Type} [Zero α] [Add α] [Mul α] (stack : α)
    (inst : arm_dwt_instance_f32 α) (sig : List α) (blockSize : Nat) : Nat → Nat
  | 0 => 0
  | k + 1 => levelOffset stack inst sig blockSize k + levelSize stack inst sig blockSize k

/-- What the internal buffer and the output structure hold after `st.i` decompositions:
the views `coeffs[0 .. i-1]` are consecutive slices of the internal buffer, they hold the
detail coefficients of the first `i` decompositions, and `copyCounter` is the sum of their
sizes. -/
structure CascadeViews {α : Type} [Zero α] [Add α] [Mul α] (stack : α)
    (inst : arm_dwt_instance_f32 α) (sig : List α) (blockSize : Nat)
    (bufLen outLen : Nat) (st : CascadeState α) : Prop where
  counter : st.copyCounter = levelOffset stack inst sig blockSize st.i
  counter_le : st.copyCounter ≤ st.buffer.length
  buffer_len : st.buffer.length = bufLen
  out_len : st.out.coeffs.length = outLen
  views : ∀ j, j < st.i → ∃ r, levelRecord stack inst sig blockSize j = some r ∧
    st.out.coeffs[j]? = some ⟨levelOffset stack inst sig blockSize j, r.size⟩ ∧
    viewOf st.buffer ⟨levelOffset stack inst sig blockSize j, r.size⟩ = detailOf r

/-- Invariant of the loop of `arm_dwt_f32`: `CascadeViews`, and `xDecResult` is the output
of the last decomposition done. -/
structure CascadeInv {α : Type} [Zero α] [Add α] [Mul α] (stack : α)
    (inst : arm_dwt_instance_f32 α) (sig : List α) (blockSize : Nat)
    (bufLen outLen : Nat) (st : CascadeState α) : Prop where
  held : CascadeViews stack inst sig blockSize bufLen outLen st
  i_pos : 1 ≤ st.i
  record : levelRecord stack inst sig blockSize (st.i - 1) = some st.xDecResult

/-- Size of the arrays produced at each level as the cascade computes it: `N` for the
input, then `floor((size + L - 1) / 2)`. -/
def cascadeSize (L N : Nat) : Nat → Nat
  | 0 => N
  | k + 1 => (cascadeSize L N k + L - 1) / 2

/-- Both arrays of a one-level output structure are allocated, with `S` cells each. -/
def ScratchShape {α : Type} (S : Nat) (r : arm_dwt_1dec_out_f32 α) : Prop :=
  ∃ A D, r.pACoeffs = some A ∧ r.pDCoeffs = some D ∧ A.length = S ∧ D.length = S

/-- The required inputs of `arm_dwt_1dec_f32` are all present: the signal, the instance
and the output structure are not null, and neither are the two filters, the internal
buffer and the two coefficient arrays of the output structure. -/
def inputsPresent {α : Type} (pSignal : Option (List α))
    (pDWTOut : Option (arm_dwt_1dec_out_f32 α))
    (pDWTInstance : Option (arm_dwt_instance_f32 α)) : Bool :=
  match pSignal, pDWTOut, pDWTInstance with
  | some _, some out, some inst =>
    inst.pHighFilter.isSome && inst.pLowFilter.isSome && inst.pInternalBuffer.isSome &&
      out.pACoeffs.isSome && out.pDCoeffs.isSome
  | _, _, _ => false

/-- The first `size` cells of both arrays of a one-level output structure hold `0`. -/
def ZeroRecord {α : Type} [Zero α] (r : arm_dwt_1dec_out_f32 α) : Prop :=
  ∀ j, j < r.size →
    (r.pACoeffs.getD [])[j]? = some 0 ∧ (r.pDCoeffs.getD [])[j]? = some 0

/-- Value of `xDecResult.size` after `k` decompositions of `arm_dwt_f32`, which is the
`blockSize` of the next one: the signal length to start with, then the `outSize` that
`arm_dwt_1dec_f32` computes from the previous value. -/
def sizeAfter (filtersLength blockSize : Nat) : Nat → Nat
  | 0 => blockSize
  | k + 1 => outSize (sizeAfter filtersLength blockSize k) filtersLength

/-! ## Example inputs -/

/-- Example instance over the integers: the filters `[1, 1]` and `[1, -1]` of length 2,
zero padding, two levels and an internal buffer of eight cells. -/
def sumDiffInstance : arm_dwt_instance_f32 Int :=
  { filtersLength := 2, pHighFilter := some [1, -1], pLowFilter := some [1, 1],
    extrapolationFlag := ARM_DWT_EM_ZERO_PADDING, decLevel := 2,
    pInternalBuffer := some [7, 7, 7, 7, 7, 7, 7, 7], internalBufferSize := 8 }

/-- Instance of the concrete scenario of the specification: `lowPass = [0.5, 0.5]`,
`highPass = [0.5, -0.5]`, zero padding, one level, over the rationals. -/
def haarQ (buffer : List ℚ) (cap : Nat) : arm_dwt_instance_f32 ℚ :=
  { filtersLength := 2, pHighFilter := some [1/2, -1/2], pLowFilter := some [1/2, 1/2],
    extrapolationFlag := ARM_DWT_EM_ZERO_PADDING, decLevel := 1,
    pInternalBuffer := some buffer, internalBufferSize := cap }

/-- An output structure whose eleven entries are all `{ 0, 0 }`. -/
def blankOut : arm_dwt_out_f32 :=
  { coeffs := List.replicate (ARM_DWT_MAX_DEC_LEVEL + 1) { pCoeffs := 0, size := 0 },
    decLevel := 0 }

/-- Output structure expected for `sumDiffInstance` and the signal `[1, 2, 3, 4]`: three
views of sizes 2, 1, 1 at the offsets 0, 2, 3. -/
def sumDiffOut : arm_dwt_out_f32 :=
  { coeffs := [⟨0, 2⟩, ⟨2, 1⟩, ⟨3, 1⟩, ⟨0, 0⟩, ⟨0, 0⟩, ⟨0, 0⟩, ⟨0, 0⟩, ⟨0, 0⟩,
      ⟨0, 0⟩, ⟨0, 0⟩, ⟨0, 0⟩],
    decLevel := 2 }

/-- Example instance with filters of odd length 3, zero padding, two levels and a
declared capacity of eight samples, for an internal buffer `buffer`. -/
def oddInstance (buffer : List Int) : arm_dwt_instance_f32 Int :=
  { filtersLength := 3, pHighFilter := some [1, 0, -1], pLowFilter := some [1, 1, 1],
    extrapolationFlag := ARM_DWT_EM_ZERO_PADDING, decLevel := 2,
    pInternalBuffer := some buffer, internalBufferSize := 8 }

/-- Example instance: `sumDiffInstance` with a declared capacity of three samples, one
less than the total of four that the planner computes for a signal of four samples. -/
def shortInstance : arm_dwt_instance_f32 Int :=
  { filtersLength := 2, pHighFilter := some [1, -1], pLowFilter := some [1, 1],
    extrapolationFlag := ARM_DWT_EM_ZERO_PADDING, decLevel := 2,
    pInternalBuffer := some [7, 7, 7, 7, 7, 7, 7, 7], internalBufferSize := 3 }

/-- Example instance with `filtersLength = 0`: two empty filters, one level, an internal
buffer of four cells, and the extension policy `flag`. -/
def noTapsInstance (flag : Nat) : arm_dwt_instance_f32 Int :=
  { filtersLength := 0, pHighFilter := some [], pLowFilter := some [],
    extrapolationFlag := flag, decLevel := 1,
    pInternalBuffer := some [7, 7, 7, 7], internalBufferSize := 4 }

/-- Example instance with a level count of 0: the filters `[1, 1]` and `[1, -1]`, zero
padding, an internal buffer of eight cells. -/
def noLevelInstance : arm_dwt_instance_f32 Int :=
  { filtersLength := 2, pHighFilter := some [1, -1], pLowFilter := some [1, 1],
    extrapolationFlag := ARM_DWT_EM_ZERO_PADDING, decLevel := 0,
    pInternalBuffer := some [7, 7, 7, 7, 7, 7, 7, 7], internalBufferSize := 8 }

/-- Example instance with a level count of 11, one more than `ARM_DWT_MAX_DEC_LEVEL`:
the filters `[1, 1]` and `[1, -1]`, zero padding, an internal buffer of sixteen cells. -/
def elevenLevelInstance : arm_dwt_instance_f32 Int :=
  { filtersLength := 2, pHighFilter := some [1, -1], pLowFilter := some [1, 1],
    extrapolationFlag := ARM_DWT_EM_ZERO_PADDING, decLevel := 11,
    pInternalBuffer := some [7, 7, 7, 7, 7, 7, 7, 7, 7, 7, 7, 7, 7, 7, 7, 7],
    internalBufferSize := 16 }

/-- Example instance under symmetric padding: filters of length 4, one level, an internal
buffer of eight cells. -/
def symmetricInstance : arm_dwt_instance_f32 Int :=
  { filtersLength := 4, pHighFilter := some [1, -1, 1, -1], pLowFilter := some [1, 1, 1, 1],
    extrapolationFlag := ARM_DWT_EM_SYMMETRIC, decLevel := 1,
    pInternalBuffer := some [7, 7, 7, 7, 7, 7, 7, 7], internalBufferSize := 8 }

/-- Example instance whose `extrapolationFlag` is 2, neither of the two enumerators: the
filters `[1, 1]` and `[1, -1]`, two levels, an internal buffer of eight cells. -/
def strayPolicyInstance : arm_dwt_instance_f32 Int :=
  { filtersLength := 2, pHighFilter := some [1, -1], pLowFilter := some [1, 1],
    extrapolationFlag := 2, decLevel := 2,
    pInternalBuffer := some [7, 7, 7, 7, 7, 7, 7, 7], internalBufferSize := 8 }

/-- Example instance under symmetric padding with the filters `[1, 1]` and `[1, -1]` of
length 2, `D` levels and an internal buffer of eight cells. -/
def symmetricPairInstance (D : Nat) : arm_dwt_instance_f32 Int :=
  { filtersLength := 2, pHighFilter := some [1, -1], pLowFilter := some [1, 1],
    extrapolationFlag := ARM_DWT_EM_SYMMETRIC, decLevel := D,
    pInternalBuffer := some [7, 7, 7, 7, 7, 7, 7, 7], internalBufferSize := 8 }

/-! ## Theorems -/

section Proofs

variable {α : Type}

/-! ### Machine arithmetic and the capacity planner -/

theorem u32_add_eq (a b : Nat) (h : a + b < 4294967296) : u32_add a b = a + b := by
  unfold u32_add; omega

theorem u32_sub_eq (a b : Nat) (ha : a < 4294967296) (h : b ≤ a) : u32_sub a b = a - b := by
  unfold u32_sub; split <;> omega

theorem u32_mul_eq (a b : Nat) (h : a * b < 4294967296) : u32_mul a b = a * b := by
  unfold u32_mul; exact Nat.mod_eq_of_lt h

theorem planSize_one (L t : Nat) : planSize L t 1 = 1 + (t - 1) / 2 + L / 2 - 1 := rfl

theorem planSize_shift (L N0 : Nat) (k : Nat) :
    planSize L (planSize L N0 1) k = planSize L N0 (k + 1) := by
  induction k with
  | zero => rfl
  | succ k ih => rw [planSize, ih]; rfl

theorem planSum_shift (L N0 n : Nat) :
    planSum L N0 (n + 1) = planSize L N0 1 + planSum L (planSize L N0 1) n := by
  induction n with
  | zero => simp [planSum]
  | succ n ih =>
    rw [planSum, ih, planSum, planSize_shift]
    omega

theorem checkStep_eq (L t : Nat) (hL : 2 ≤ L) (hLu : L < 4294967296) (ht : 1 ≤ t)
    (htu : t < 4294967296) : checkStep L t = planSize L t 1 := by
  rw [planSize_one]
  rw [checkStep, u32_sub_eq t 1 htu ht, u32_sub_eq (L / 2) 1 (by omega) (by omega),
    u32_add_eq 1 _ (by omega), u32_add_eq _ _ (by omega)]
  omega

theorem checkLoop_eq (L : Nat) (hL : 2 ≤ L) (hLu : L < 4294967296) :
    ∀ (n t acc : Nat), 1 ≤ t → t < 4294967296 →
      acc + planSum L t n + planSize L t n < 4294967296 →
      checkLoop L n t acc = (planSize L t n, acc + planSum L t n) := by
  intro n
  induction n with
  | zero =>
    intro t acc _ _ _
    rw [checkLoop, planSize, planSum, add_zero]
  | succ n ih =>
    intro t acc ht htu hfit
    have hpos : 1 ≤ planSize L t 1 := by rw [planSize_one]; omega
    have hs := planSum_shift L t n
    have hsh := planSize_shift L t n
    have hih := ih (planSize L t 1) (acc + planSize L t 1)
    have hstep := checkStep_eq L t hL hLu ht htu
    rw [hs] at hfit ⊢
    rw [← hsh] at hfit ⊢
    rw [checkLoop]
    generalize planSum L (planSize L t 1) n = a at *
    generalize planSize L (planSize L t 1) n = b at *
    generalize planSize L t 1 = c at *
    rw [hstep, u32_add_eq _ _ (by omega), hih hpos (by omega) (by omega), add_assoc]

theorem planTotal_le_succ (L N0 k : Nat) (hL : 2 ≤ L) :
    planTotal L N0 k ≤ planTotal L N0 (k + 1) := by
  unfold planTotal
  rw [planSum, planSize]
  generalize planSize L N0 k = s
  generalize planSum L N0 k = a
  omega

theorem planTotal_mono (L N0 : Nat) (hL : 2 ≤ L) {k D : Nat} (h : k ≤ D) :
    planTotal L N0 k ≤ planTotal L N0 D := by
  induction D with
  | zero => have : k = 0 := by omega
            subst this; exact le_refl _
  | succ D ih =>
    rcases Nat.lt_or_ge k (D + 1) with hlt | hge
    · exact le_trans (ih (by omega)) (planTotal_le_succ L N0 D hL)
    · have : k = D + 1 := by omega
      subst this; exact le_refl _

theorem planSize_one_bounds (L t : Nat) (hL : 2 ≤ L) (hLu : L < 4294967296)
    (htu : t < 4294967296) : 1 ≤ planSize L t 1 ∧ planSize L t 1 < 4294967296 := by
  rw [planSize_one]; omega

theorem checkLoop_mod (L : Nat) (hL : 2 ≤ L) (hLu : L < 4294967296) :
    ∀ (n t acc : Nat), 1 ≤ t → t < 4294967296 → acc < 4294967296 →
      checkLoop L n t acc = (planSize L t n, (acc + planSum L t n) % 4294967296) := by
  intro n
  induction n with
  | zero =>
    intro t acc _ _ hacc
    rw [checkLoop, planSize, planSum, add_zero, Nat.mod_eq_of_lt hacc]
  | succ n ih =>
    intro t acc ht htu hacc
    obtain ⟨hpos, hlt⟩ := planSize_one_bounds L t hL hLu htu
    have hs := planSum_shift L t n
    have hsh := planSize_shift L t n
    have hstep := checkStep_eq L t hL hLu ht htu
    have hih := ih (planSize L t 1) (u32_add acc (planSize L t 1)) hpos hlt
      (by unfold u32_add; omega)
    rw [checkLoop, hstep, hih, hs, ← hsh]
    unfold u32_add
    generalize planSum L (planSize L t 1) n = a
    generalize planSize L (planSize L t 1) n = b
    generalize planSize L t 1 = c
    congr 1
    omega

/-- C3: for a non-null instance with `N0 ≥ 1` and `L ≥ 2`, the planning loop of
`arm_dwt_check_f32` holds `size_k` in `tmpSize` after `k` iterations, `dwtOutSize` is the
total `(size_1 + ... + size_D) + size_D` of the specification reduced modulo `2 ^ 32`,
and whenever that total fits in 32 bits the function returns `DWT_STATUS_SUCCESS` if the
total is at most `internalBufferSize` and `DWT_STATUS_BUFFER_OVERFLOW` if it is larger. -/
theorem arm_dwt_check_f32_plan (inst : arm_dwt_instance_f32 α) (N0 : Nat)
    (hN : 1 ≤ N0) (hNu : N0 < 4294967296)
    (hL : 2 ≤ inst.filtersLength) (hLu : inst.filtersLength < 4294967296) :
    (∀ k, (checkLoop inst.filtersLength k N0 0).1 = planSize inst.filtersLength N0 k) ∧
    dwtOutSize inst.filtersLength inst.decLevel N0
      = planTotal inst.filtersLength N0 inst.decLevel % 4294967296 ∧
    (planTotal inst.filtersLength N0 inst.decLevel < 4294967296 →
      dwtOutSize inst.filtersLength inst.decLevel N0
        = planTotal inst.filtersLength N0 inst.decLevel ∧
      (planTotal inst.filtersLength N0 inst.decLevel ≤ inst.internalBufferSize →
        arm_dwt_check_f32 (some inst) N0 = DWT_STATUS_SUCCESS) ∧
      (inst.internalBufferSize < planTotal inst.filtersLength N0 inst.decLevel →
        arm_dwt_check_f32 (some inst) N0 = DWT_STATUS_BUFFER_OVERFLOW)) := by
  have hloop := fun k => checkLoop_mod inst.filtersLength hL hLu k N0 0 hN hNu (by omega)
  have htot : dwtOutSize inst.filtersLength inst.decLevel N0
      = planTotal inst.filtersLength N0 inst.decLevel % 4294967296 := by
    unfold dwtOutSize planTotal u32_add
    rw [hloop inst.decLevel, Nat.zero_add]
    generalize planSum inst.filtersLength N0 inst.decLevel = a
    generalize planSize inst.filtersLength N0 inst.decLevel = b
    omega
  refine ⟨fun k => by rw [hloop k], htot, fun hfit => ?_⟩
  rw [Nat.mod_eq_of_lt hfit] at htot
  refine ⟨htot, ?_, ?_⟩
  · intro h
    simp only [arm_dwt_check_f32]
    rw [htot, if_pos h]
  · intro h
    simp only [arm_dwt_check_f32]
    rw [htot, if_neg (by omega)]

/-- Witness for C3 -/
theorem arm_dwt_check_f32_plan_witness :
    dwtOutSize 4 2 9 = planTotal 4 9 2 ∧ planTotal 4 9 2 = 14 ∧
    arm_dwt_check_f32
      (some ({ filtersLength := 4, pHighFilter := none, pLowFilter := none,
               extrapolationFlag := 0, decLevel := 2, pInternalBuffer := none,
               internalBufferSize := 14 } : arm_dwt_instance_f32 Int)) 9
      = DWT_STATUS_SUCCESS :=
  have h := (arm_dwt_check_f32_plan
    ({ filtersLength := 4, pHighFilter := none, pLowFilter := none,
       extrapolationFlag := 0, decLevel := 2, pInternalBuffer := none,
       internalBufferSize := 14 } : arm_dwt_instance_f32 Int) 9
    (by decide) (by decide) (by decide) (by decide)).2.2 (by decide)
  ⟨h.1, by decide, h.2.1 (by decide)⟩

/-! ### Array primitives -/

theorem collect_map_some {β : Type} (l : List β) : collect (l.map some) = some l := by
  induction l with
  | nil => rfl
  | cons x r ih => simp [collect, ih]

theorem collect_eq_some {β : Type} : ∀ (l : List (Option β)) (r : List β),
    collect l = some r → l = r.map some := by
  intro l
  induction l with
  | nil => intro r h; simp [collect] at h; subst h; rfl
  | cons x xs ih =>
    intro r h
    cases x with
    | none => simp [collect] at h
    | some v =>
      simp only [collect, Option.map_eq_some'] at h
      obtain ⟨r2, h1, h2⟩ := h
      subst h2
      simp [ih r2 h1]

theorem readIndices_range (a : List α) (n : Nat) (f : Nat → Nat) (r : List α)
    (h : readIndices a ((List.range n).map f) = some r) :
    r.length = n ∧ ∀ i, i < n → f i < a.length ∧ r[i]? = a[f i]? := by
  unfold readIndices at h
  have h2 := collect_eq_some _ _ h
  have hlen : r.length = n := by
    have := congrArg List.length h2
    simpa using this.symm
  refine ⟨hlen, fun i hi => ?_⟩
  have h3 := congrArg (fun l => l[i]?) h2
  simp only [List.map_map, List.getElem?_map, List.getElem?_range hi, Option.map_some',
    Function.comp] at h3
  have hr : i < r.length := by omega
  rw [List.getElem?_eq_getElem hr] at h3 ⊢
  simp only [Option.map_some'] at h3
  have hlt : f i < a.length := by
    by_contra hc
    rw [List.getElem?_eq_none (by omega)] at h3
    exact absurd h3 (by simp)
  exact ⟨hlt, (Option.some.inj h3).symm⟩

theorem readIndices_range_isSome (a : List α) (n : Nat) (f : Nat → Nat)
    (h : ∀ i, i < n → f i < a.length) :
    ∃ r, readIndices a ((List.range n).map f) = some r := by
  induction n with
  | zero => exact ⟨[], rfl⟩
  | succ n ih =>
    obtain ⟨r, hr⟩ := ih (fun i hi => h i (by omega))
    have hn := h n (by omega)
    refine ⟨r ++ [a[f n]], ?_⟩
    unfold readIndices at hr ⊢
    have hr2 := collect_eq_some _ _ hr
    rw [List.range_succ, List.map_append, List.map_append, hr2]
    simp only [List.map_cons, List.map_nil, List.getElem?_eq_getElem hn]
    rw [← List.map_singleton (f := some), ← List.map_append, collect_map_some]

theorem arm_copy_f32_some (s d d2 : List α) (off n : Nat)
    (h : arm_copy_f32 s d off n = some d2) :
    n ≤ s.length ∧ off + n ≤ d.length ∧ d2 = d.take off ++ s.take n ++ d.drop (off + n) := by
  unfold arm_copy_f32 at h
  split at h
  · rename_i hc
    simp only [Option.some.injEq] at h
    exact ⟨hc.1, hc.2, h.symm⟩
  · exact absurd h (by simp)

theorem arm_copy_f32_length (s d d2 : List α) (off n : Nat)
    (h : arm_copy_f32 s d off n = some d2) : d2.length = d.length := by
  obtain ⟨h1, h2, h3⟩ := arm_copy_f32_some s d d2 off n h
  subst h3
  simp only [List.length_append, List.length_take, List.length_drop]
  omega

theorem arm_copy_f32_append (s p r d2 : List α) (off n : Nat) (hp : p.length = off)
    (h : arm_copy_f32 s (p ++ r) off n = some d2) :
    n ≤ s.length ∧ n ≤ r.length ∧ d2 = p ++ s.take n ++ r.drop n := by
  obtain ⟨h1, h2, h3⟩ := arm_copy_f32_some s (p ++ r) d2 off n h
  subst hp
  rw [List.length_append] at h2
  refine ⟨h1, by omega, ?_⟩
  rw [h3, List.take_left, List.drop_append]

/-! ### Boundary extension -/

theorem extendedSignalSize_lt (N L : Nat) : extendedSignalSize N L < 4294967296 := by
  unfold extendedSignalSize u32_sub
  split <;> omega

theorem extendedSignalSize_eq (N L : Nat) (hL2 : 2 ≤ L) (h : N + 2 * L - 2 < 4294967296) :
    extendedSignalSize N L = N + 2 * L - 2 := by
  unfold extendedSignalSize u32_sub u32_add u32_mul
  split <;> omega

theorem extendedSignalSize_fits (N L : Nat) (h : N + 2 * L - 2 ≤ extendedSignalSize N L) :
    N + 2 * L - 2 < 4294967296 := by
  unfold extendedSignalSize u32_sub u32_add u32_mul at h
  split at h <;> omega

theorem three_copies (stack : α) (L N : Nat) (sig pre post E : List α)
    (hL2 : 2 ≤ L) (hLu : L < 4294967296) (hpre : L - 2 ≤ pre.length)
    (h : ((arm_copy_f32 pre (List.replicate (extendedSignalSize N L) stack) 0
            (u32_sub L 2)).bind fun e1 =>
          (arm_copy_f32 sig e1 (u32_sub L 2) N).bind fun e2 =>
          arm_copy_f32 post e2 (u32_add (u32_sub L 2) N) L) = some E) :
    N ≤ sig.length ∧ N + 2 * L - 2 < 4294967296 ∧
      E = pre.take (L - 2) ++ sig.take N ++ post.take L := by
  have ha : u32_sub L 2 = L - 2 := u32_sub_eq L 2 hLu hL2
  rw [ha] at h
  obtain ⟨e1, h1, h⟩ := Option.bind_eq_some.mp h
  obtain ⟨e2, h2, h3⟩ := Option.bind_eq_some.mp h
  have hext := extendedSignalSize_lt N L
  obtain ⟨_, g1, he1⟩ := arm_copy_f32_append pre [] _ e1 0 (L - 2) rfl
    (by simpa using h1)
  rw [List.length_replicate] at g1
  rw [List.nil_append] at he1
  have hp1 : (pre.take (L - 2)).length = L - 2 := by
    rw [List.length_take]; omega
  rw [he1] at h2
  obtain ⟨gN, g2, he2⟩ := arm_copy_f32_append sig _ _ e2 (L - 2) N hp1 h2
  rw [List.length_drop, List.length_replicate] at g2
  have hb : u32_add (L - 2) N = L - 2 + N := u32_add_eq _ _ (by omega)
  rw [hb, he2, List.append_assoc] at h3
  rw [← List.append_assoc] at h3
  have hp2 : (pre.take (L - 2) ++ sig.take N).length = L - 2 + N := by
    rw [List.length_append, hp1, List.length_take]; omega
  obtain ⟨_, g3, he3⟩ := arm_copy_f32_append post _ _ E (L - 2 + N) L hp2 h3
  rw [List.length_drop, List.length_drop, List.length_replicate] at g3
  have hfit := extendedSignalSize_fits N L (by omega)
  have hE := extendedSignalSize_eq N L hL2 hfit
  refine ⟨gN, hfit, ?_⟩
  rw [he3]
  have hnil : List.drop L (List.drop N (List.drop (L - 2)
      (List.replicate (extendedSignalSize N L) stack))) = [] := by
    apply List.eq_nil_of_length_eq_zero
    rw [List.length_drop, List.length_drop, List.length_drop, List.length_replicate]
    omega
  rw [hnil, List.append_nil]

theorem three_copies_isSome (stack : α) (L N : Nat) (sig pre post : List α)
    (hL2 : 2 ≤ L) (hfit : N + 2 * L - 2 < 4294967296)
    (hpre : L - 2 ≤ pre.length) (hpost : L ≤ post.length) (hsig : N ≤ sig.length) :
    ∃ E, ((arm_copy_f32 pre (List.replicate (extendedSignalSize N L) stack) 0
            (u32_sub L 2)).bind fun e1 =>
          (arm_copy_f32 sig e1 (u32_sub L 2) N).bind fun e2 =>
          arm_copy_f32 post e2 (u32_add (u32_sub L 2) N) L) = some E := by
  have ha : u32_sub L 2 = L - 2 := u32_sub_eq L 2 (by omega) hL2
  have hb : u32_add (L - 2) N = L - 2 + N := u32_add_eq _ _ (by omega)
  have hE := extendedSignalSize_eq N L hL2 hfit
  rw [ha, hb, hE]
  have c1 : ∃ e1, arm_copy_f32 pre (List.replicate (N + 2 * L - 2) stack) 0 (L - 2) = some e1
      ∧ e1.length = N + 2 * L - 2 := by
    unfold arm_copy_f32
    rw [if_pos ⟨hpre, by rw [List.length_replicate]; omega⟩]
    refine ⟨_, rfl, ?_⟩
    simp only [List.length_append, List.length_take, List.length_drop, List.length_replicate]
    omega
  obtain ⟨e1, h1, l1⟩ := c1
  have c2 : ∃ e2, arm_copy_f32 sig e1 (L - 2) N = some e2 ∧ e2.length = N + 2 * L - 2 := by
    unfold arm_copy_f32
    rw [if_pos ⟨hsig, by omega⟩]
    refine ⟨_, rfl, ?_⟩
    simp only [List.length_append, List.length_take, List.length_drop]
    omega
  obtain ⟨e2, h2, l2⟩ := c2
  have c3 : ∃ e3, arm_copy_f32 post e2 (L - 2 + N) L = some e3 := by
    unfold arm_copy_f32
    rw [if_pos ⟨hpost, by omega⟩]
    exact ⟨_, rfl⟩
  obtain ⟨e3, h3⟩ := c3
  exact ⟨e3, by rw [h1, Option.some_bind, h2, Option.some_bind, h3]⟩

theorem getElem?_three (A B C : List α) :
    (∀ i, i < A.length → (A ++ B ++ C)[i]? = A[i]?) ∧
    (∀ j, j < B.length → (A ++ B ++ C)[A.length + j]? = B[j]?) ∧
    (∀ i, (A ++ B ++ C)[A.length + B.length + i]? = C[i]?) := by
  refine ⟨fun i hi => ?_, fun j hj => ?_, fun i => ?_⟩
  · rw [List.append_assoc, List.getElem?_append_left hi]
  · rw [List.append_assoc, List.getElem?_append_right (by omega),
      List.getElem?_append_left (by omega)]
    congr 1; omega
  · rw [List.getElem?_append_right (by rw [List.length_append]; omega)]
    congr 1; rw [List.length_append]; omega

theorem extendSignal_zero [Zero α] (stack : α) (L N : Nat) (sig E : List α)
    (hL2 : 2 ≤ L) (hLu : L < 4294967296)
    (h : extendSignal stack ARM_DWT_EM_ZERO_PADDING L sig N = some E) :
    N ≤ sig.length ∧ N + 2 * L - 2 < 4294967296 ∧
      E = List.replicate (L - 2) 0 ++ sig.take N ++ List.replicate L 0 := by
  unfold extendSignal at h
  simp only [if_true] at h
  obtain ⟨h1, h2, h3⟩ := three_copies stack L N sig _ _ E hL2 hLu
    (by rw [List.length_replicate]; omega) h
  refine ⟨h1, h2, ?_⟩
  rw [h3, List.take_replicate, List.take_replicate, Nat.min_eq_left (by omega), Nat.min_self]

theorem extendSignal_symmetric [Zero α] (stack : α) (L N : Nat) (sig E : List α)
    (hL2 : 2 ≤ L) (hLu : L < 4294967296) (hLN : L ≤ N)
    (h : extendSignal stack ARM_DWT_EM_SYMMETRIC L sig N = some E) :
    N ≤ sig.length ∧ N + 2 * L - 2 < 4294967296 ∧
      ∃ pre post, E = pre ++ sig.take N ++ post ∧ pre.length = L - 2 ∧ post.length = L ∧
        (∀ i, i < L - 2 → pre[i]? = sig[L - 3 - i]?) ∧
        (∀ i, i < L → post[i]? = sig[N - 1 - i]?) := by
  unfold extendSignal at h
  have hne : ¬ (ARM_DWT_EM_SYMMETRIC = ARM_DWT_EM_ZERO_PADDING) := by decide
  simp only [if_neg hne, if_true] at h
  obtain ⟨pre, hpre, h⟩ := Option.bind_eq_some.mp h
  obtain ⟨post, hpost, h⟩ := Option.bind_eq_some.mp h
  have ha : u32_sub L 2 = L - 2 := u32_sub_eq L 2 hLu hL2
  rw [ha] at hpre
  obtain ⟨lpre, ipre⟩ := readIndices_range sig _ _ pre hpre
  obtain ⟨lpost, ipost⟩ := readIndices_range sig _ _ post hpost
  obtain ⟨h1, h2, h3⟩ := three_copies stack L N sig pre post E hL2 hLu (by omega) h
  refine ⟨h1, h2, pre, post, ?_, lpre, lpost, fun i hi => ?_, fun i hi => ?_⟩
  · have e1 : pre.take (L - 2) = pre := List.take_of_length_le (by omega)
    have e2 : post.take L = post := List.take_of_length_le (by omega)
    rw [h3, e1, e2]
  · have := (ipre i hi).2
    rw [this]
    congr 1
    unfold preSignalIndex
    rw [u32_sub_eq L 3 hLu (by omega), u32_sub_eq (L - 3) i (by omega) (by omega)]
  · have := (ipost i hi).2
    rw [this]
    congr 1
    unfold postSignalIndex
    rw [u32_sub_eq N 1 (by omega) (by omega), u32_sub_eq (N - 1) i (by omega) (by omega)]

theorem extendSignal_zero_isSome [Zero α] (stack : α) (L N : Nat) (sig : List α)
    (hL2 : 2 ≤ L) (hfit : N + 2 * L - 2 < 4294967296) (hsig : N ≤ sig.length) :
    ∃ E, extendSignal stack ARM_DWT_EM_ZERO_PADDING L sig N = some E := by
  unfold extendSignal
  simp only [if_true]
  exact three_copies_isSome stack L N sig _ _ hL2 hfit
    (by rw [List.length_replicate]; omega) (by rw [List.length_replicate]) hsig

theorem extendSignal_symmetric_isSome [Zero α] (stack : α) (L N : Nat) (sig : List α)
    (hL2 : 2 ≤ L) (hfit : N + 2 * L - 2 < 4294967296) (hLN : L ≤ N)
    (hsig : N ≤ sig.length) :
    ∃ E, extendSignal stack ARM_DWT_EM_SYMMETRIC L sig N = some E := by
  unfold extendSignal
  have hne : ¬ (ARM_DWT_EM_SYMMETRIC = ARM_DWT_EM_ZERO_PADDING) := by decide
  simp only [if_neg hne, if_true]
  have ha : u32_sub L 2 = L - 2 := u32_sub_eq L 2 (by omega) hL2
  obtain ⟨pre, hpre⟩ := readIndices_range_isSome sig (u32_sub L 2) (preSignalIndex L)
    (by
      intro i hi
      rw [ha] at hi
      unfold preSignalIndex
      rw [u32_sub_eq L 3 (by omega) (by omega), u32_sub_eq (L - 3) i (by omega) (by omega)]
      omega)
  obtain ⟨post, hpost⟩ := readIndices_range_isSome sig L (postSignalIndex N)
    (by
      intro i hi
      unfold postSignalIndex
      rw [u32_sub_eq N 1 (by omega) (by omega), u32_sub_eq (N - 1) i (by omega) (by omega)]
      omega)
  rw [hpre, Option.some_bind, hpost, Option.some_bind]
  have lpre := (readIndices_range sig _ _ pre hpre).1
  have lpost := (readIndices_range sig _ _ post hpost).1
  exact three_copies_isSome stack L N sig pre post hL2 hfit (by omega) (by omega) hsig

/-- C5: under zero padding, for a signal of length `N` and `L ≥ 2`, the extended signal is
built whenever its length `N + 2L - 2` is a `uint32_t` value, and when it is built it has
length `N + 2L - 2`, its first `L - 2` entries are `0`, the entries `L - 2 + j` for
`j < N` are the samples `signal[j]`, and its last `L` entries are `0`. -/
theorem extendSignal_zero_padding_layout [Zero α] (stack : α) (L N : Nat) (sig : List α)
    (hL2 : 2 ≤ L) (hLu : L < 4294967296) (hlen : sig.length = N) :
    (N + 2 * L - 2 < 4294967296 →
      ∃ E, extendSignal stack ARM_DWT_EM_ZERO_PADDING L sig N = some E) ∧
    ∀ E, extendSignal stack ARM_DWT_EM_ZERO_PADDING L sig N = some E →
      E.length = N + 2 * L - 2 ∧
      (∀ i, i < L - 2 → E[i]? = some 0) ∧
      (∀ j, j < N → E[L - 2 + j]? = sig[j]?) ∧
      (∀ i, i < L → E[L - 2 + N + i]? = some 0) := by
  refine ⟨fun hfit => extendSignal_zero_isSome stack L N sig hL2 hfit (by omega), ?_⟩
  intro E hE
  obtain ⟨_, _, h3⟩ := extendSignal_zero stack L N sig E hL2 hLu hE
  rw [List.take_of_length_le (by omega)] at h3
  obtain ⟨k1, k2, k3⟩ := getElem?_three (List.replicate (L - 2) (0 : α)) sig
    (List.replicate L (0 : α))
  rw [List.length_replicate] at k1 k2 k3
  rw [hlen] at k2 k3
  subst h3
  refine ⟨?_, fun i hi => ?_, fun j hj => k2 j hj, fun i hi => ?_⟩
  · simp only [List.length_append, List.length_replicate]; omega
  · rw [k1 i hi, List.getElem?_replicate, if_pos hi]
  · rw [k3 i, List.getElem?_replicate, if_pos hi]

/-- Witness for C5 -/
theorem extendSignal_zero_padding_layout_witness :
    extendSignal (99 : Int) ARM_DWT_EM_ZERO_PADDING 4 [10, 20, 30, 40] 4
      = some [0, 0, 10, 20, 30, 40, 0, 0, 0, 0] ∧
    ([0, 0, 10, 20, 30, 40, 0, 0, 0, 0] : List Int).length = 4 + 2 * 4 - 2 ∧
    (∀ i, i < 4 - 2 → ([0, 0, 10, 20, 30, 40, 0, 0, 0, 0] : List Int)[i]? = some 0) ∧
    (∀ j, j < 4 →
      ([0, 0, 10, 20, 30, 40, 0, 0, 0, 0] : List Int)[4 - 2 + j]?
        = ([10, 20, 30, 40] : List Int)[j]?) ∧
    (∀ i, i < 4 →
      ([0, 0, 10, 20, 30, 40, 0, 0, 0, 0] : List Int)[4 - 2 + 4 + i]? = some 0) :=
  ⟨by decide,
    (extendSignal_zero_padding_layout (99 : Int) 4 4 [10, 20, 30, 40]
      (by decide) (by decide) rfl).2 _ (by decide)⟩

/-- C10 as stated fails: with `signal = [10, 20, 30, 40]` and `L = 4` the symmetric
extension is built and its right pad (the last four entries) is `[40, 30, 20, 10]`, not
`[40, 30, 40, 30]`. -/
theorem symmetric_right_pad_not_40_30_40_30 :
    ¬ ∃ E, extendSignal (0 : Int) ARM_DWT_EM_SYMMETRIC 4 [10, 20, 30, 40] 4 = some E ∧
      E.take 2 = [20, 10] ∧ E.drop 6 = [40, 30, 40, 30] := by
  decide

/-- C10, amended: with `signal = [10, 20, 30, 40]` and `L = 4`, whatever the former
contents of the stack, the symmetric extension is `[20, 10] ++ signal ++ [40, 30, 20, 10]`:
left pad `[20, 10]`, right pad `[40, 30, 20, 10]`. -/
theorem symmetric_pads_example (stack : Int) :
    extendSignal stack ARM_DWT_EM_SYMMETRIC 4 [10, 20, 30, 40] 4
      = some ([20, 10] ++ [10, 20, 30, 40] ++ [40, 30, 20, 10]) := by
  rfl

/-! ### One level of decomposition -/

theorem flipFilter_some (f fl : List α) (L : Nat) (hLu : L < 4294967296)
    (h : flipFilter f L = some fl) :
    fl.length = L ∧ ∀ k, k < L → L - 1 - k < f.length ∧ fl[k]? = f[L - 1 - k]? := by
  unfold flipFilter at h
  obtain ⟨hl, hi⟩ := readIndices_range f L (flipIndex L) fl h
  refine ⟨hl, fun k hk => ?_⟩
  have e : flipIndex L k = L - 1 - k := by
    unfold flipIndex
    rw [u32_sub_eq L k hLu (by omega), u32_sub_eq (L - k) 1 (by omega) (by omega)]
    omega
  have := hi k hk
  rw [e] at this
  exact this

theorem flipFilter_isSome (f : List α) (L : Nat) (hLu : L < 4294967296)
    (hf : L ≤ f.length) : ∃ fl, flipFilter f L = some fl := by
  unfold flipFilter
  apply readIndices_range_isSome
  intro k hk
  unfold flipIndex
  rw [u32_sub_eq L k hLu (by omega), u32_sub_eq (L - k) 1 (by omega) (by omega)]
  omega

theorem outSize_lt (N L : Nat) : outSize N L < 2147483648 := by
  unfold outSize u32_sub
  split <;> omega

theorem outSize_eq (N L : Nat) (hL : 1 ≤ L) (h : N + L < 4294967296) :
    outSize N L = (N + L - 1) / 2 := by
  unfold outSize
  rw [u32_add_eq N L h, u32_sub_eq (N + L) 1 h (by omega)]

theorem foldl_zipWith_eq_sum [Semiring α] (A B : List α) :
    ∀ L, L ≤ A.length → L ≤ B.length →
      (List.zipWith (fun a b => a * b) (A.take L) (B.take L)).foldl (fun acc x => acc + x) 0
        = ∑ k ∈ Finset.range L, A.getD k 0 * B.getD k 0 := by
  intro L
  induction L with
  | zero => intro _ _; simp
  | succ n ih =>
    intro hA hB
    have hA2 : n < A.length := by omega
    have hB2 : n < B.length := by omega
    rw [List.take_succ, List.take_succ, List.getElem?_eq_getElem hA2,
      List.getElem?_eq_getElem hB2]
    simp only [Option.toList_some]
    rw [List.zipWith_append _ _ _ _ _ (by
      rw [List.length_take, List.length_take]; omega)]
    rw [List.foldl_append, ih (by omega) (by omega), Finset.sum_range_succ]
    simp only [List.zipWith_cons_cons, List.zipWith_nil_right, List.foldl_cons, List.foldl_nil]
    rw [List.getD_eq_getElem?_getD, List.getD_eq_getElem?_getD,
      List.getElem?_eq_getElem hA2, List.getElem?_eq_getElem hB2]
    rfl

theorem computeCoeffs_some [Zero α] [Add α] [Mul α] (E f cs : List α) (L n : Nat)
    (h : computeCoeffs E f L n = some cs) :
    cs.length = n ∧ ∀ i, i < n → cs[i]? = coeffAt E f L i := by
  unfold computeCoeffs at h
  have h2 := collect_eq_some _ _ h
  have hlen : cs.length = n := by
    have := congrArg List.length h2
    simpa using this.symm
  refine ⟨hlen, fun i hi => ?_⟩
  have h3 := congrArg (fun l => l[i]?) h2
  simp only [List.getElem?_map, List.getElem?_range hi, Option.map_some'] at h3
  have hc : i < cs.length := by omega
  rw [List.getElem?_eq_getElem hc] at h3 ⊢
  simp only [Option.map_some'] at h3
  exact (Option.some.inj h3).symm

theorem coeffAt_eq_sum [Semiring α] (E f fl : List α) (L i : Nat) (v : α)
    (hL : 1 ≤ L) (hi : 2 * i < 4294967296)
    (hfl : ∀ k, k < L → fl[k]? = f[L - 1 - k]?)
    (h : coeffAt E fl L i = some v) :
    2 * i + L ≤ E.length ∧
      v = ∑ k ∈ Finset.range L, E.getD (2 * i + k) 0 * f.getD (L - 1 - k) 0 := by
  unfold coeffAt arm_mult_f32 at h
  rw [u32_mul_eq 2 i hi] at h
  split at h
  · rename_i hc
    simp only [Option.map_some', Option.some.injEq] at h
    rw [List.length_drop] at hc
    rw [foldl_zipWith_eq_sum _ _ L (by rw [List.length_drop]; exact hc.1) hc.2] at h
    constructor
    · omega
    · rw [← h]
      apply Finset.sum_congr rfl
      intro k hk
      rw [Finset.mem_range] at hk
      rw [List.getD_eq_getElem?_getD, List.getD_eq_getElem?_getD, List.getD_eq_getElem?_getD,
        List.getD_eq_getElem?_getD, List.getElem?_drop, hfl k hk]
  · exact absurd h (by simp)

theorem preSignalCells_eq (L : Nat) (hL2 : 2 ≤ L) (hLu : L < 4294967296) :
    preSignalCells L = some (u32_sub L 2) := by
  unfold preSignalCells
  rw [if_pos (by omega)]

theorem arm_dwt_1dec_f32_inv [Zero α] [Add α] [Mul α] (stack : α) (sig : List α) (N : Nat)
    (out r : arm_dwt_1dec_out_f32 α) (inst : arm_dwt_instance_f32 α)
    (h : arm_dwt_1dec_f32 stack (some sig) N (some out) (some inst)
      = some (DWT_STATUS_SUCCESS, some r)) :
    ∃ hi lo dstA dstD fLo fHi E cA cD dstA2 dstD2,
      inst.pHighFilter = some hi ∧ inst.pLowFilter = some lo ∧
      out.pACoeffs = some dstA ∧ out.pDCoeffs = some dstD ∧
      flipFilter lo inst.filtersLength = some fLo ∧
      flipFilter hi inst.filtersLength = some fHi ∧
      extendSignal stack inst.extrapolationFlag inst.filtersLength sig N = some E ∧
      computeCoeffs E fLo inst.filtersLength (outSize N inst.filtersLength) = some cA ∧
      computeCoeffs E fHi inst.filtersLength (outSize N inst.filtersLength) = some cD ∧
      arm_copy_f32 cA dstA 0 (outSize N inst.filtersLength) = some dstA2 ∧
      arm_copy_f32 cD dstD 0 (outSize N inst.filtersLength) = some dstD2 ∧
      r = { size := outSize N inst.filtersLength,
            pDCoeffs := some dstD2, pACoeffs := some dstA2 } := by
  simp only [arm_dwt_1dec_f32] at h
  split at h
  · rename_i hi lo buf dstA dstD e1 e2 e3 e4 e5
    obtain ⟨_, _, h⟩ := Option.bind_eq_some.mp h
    obtain ⟨fLo, h1, h⟩ := Option.bind_eq_some.mp h
    obtain ⟨fHi, h2, h⟩ := Option.bind_eq_some.mp h
    obtain ⟨E, h3, h⟩ := Option.bind_eq_some.mp h
    obtain ⟨cA, h4, h⟩ := Option.bind_eq_some.mp h
    obtain ⟨cD, h5, h⟩ := Option.bind_eq_some.mp h
    obtain ⟨dstA2, h6, h⟩ := Option.bind_eq_some.mp h
    obtain ⟨dstD2, h7, h⟩ := Option.bind_eq_some.mp h
    simp only [Option.some.injEq, Prod.mk.injEq, true_and] at h
    exact ⟨hi, lo, dstA, dstD, fLo, fHi, E, cA, cD, dstA2, dstD2,
      e1, e2, e4, e5, h1, h2, h3, h4, h5, h6, h7, h.symm⟩
  · simp at h

theorem arm_dwt_1dec_f32_size [Zero α] [Add α] [Mul α] (stack : α) (sig : List α) (N : Nat)
    (out r : arm_dwt_1dec_out_f32 α) (inst : arm_dwt_instance_f32 α)
    (h : arm_dwt_1dec_f32 stack (some sig) N (some out) (some inst)
      = some (DWT_STATUS_SUCCESS, some r)) :
    r.size = outSize N inst.filtersLength := by
  obtain ⟨_, _, _, _, _, _, _, _, _, _, _, _, _, _, _, _, _, _, _, _, _, _, hr⟩ :=
    arm_dwt_1dec_f32_inv stack sig N out r inst h
  rw [hr]

theorem extendSignal_recognised [Zero α] (stack : α) (flag L N : Nat) (sig E : List α)
    (hL2 : 2 ≤ L) (hLu : L < 4294967296)
    (hflag : flag = ARM_DWT_EM_ZERO_PADDING ∨ (flag = ARM_DWT_EM_SYMMETRIC ∧ L ≤ N))
    (h : extendSignal stack flag L sig N = some E) :
    N ≤ sig.length ∧ N + 2 * L - 2 < 4294967296 ∧ E.length = N + 2 * L - 2 := by
  rcases hflag with hz | ⟨hs, hLN⟩
  · subst hz
    obtain ⟨h1, h2, h3⟩ := extendSignal_zero stack L N sig E hL2 hLu h
    refine ⟨h1, h2, ?_⟩
    rw [h3]
    simp only [List.length_append, List.length_replicate, List.length_take]
    omega
  · subst hs
    obtain ⟨h1, h2, pre, post, h3, lpre, lpost, _, _⟩ :=
      extendSignal_symmetric stack L N sig E hL2 hLu hLN h
    refine ⟨h1, h2, ?_⟩
    rw [h3]
    simp only [List.length_append, List.length_take, lpre, lpost]
    omega

theorem copied_coeff [Semiring α] (E f fl cs dst dst2 : List α) (L n : Nat)
    (hL : 1 ≤ L) (hLu : L < 4294967296) (hn : n < 2147483648)
    (hfl : flipFilter f L = some fl) (hc : computeCoeffs E fl L n = some cs)
    (hcopy : arm_copy_f32 cs dst 0 n = some dst2) :
    ∀ i, i < n →
      dst2[i]? = some (∑ k ∈ Finset.range L, E.getD (2 * i + k) 0 * f.getD (L - 1 - k) 0) := by
  intro i hi
  obtain ⟨lfl, ifl⟩ := flipFilter_some f fl L hLu hfl
  obtain ⟨lcs, ics⟩ := computeCoeffs_some E fl cs L n hc
  obtain ⟨_, _, hd⟩ := arm_copy_f32_some cs dst dst2 0 n hcopy
  have e1 : cs.take n = cs := List.take_of_length_le (by omega)
  rw [List.take_zero, List.nil_append, e1] at hd
  have hi2 : i < cs.length := by omega
  rw [hd, List.getElem?_append_left hi2]
  have hv := ics i hi
  rw [List.getElem?_eq_getElem hi2] at hv ⊢
  obtain ⟨_, hsum⟩ := coeffAt_eq_sum E f fl L i _ hL (by omega)
    (fun k hk => (ifl k hk).2) hv.symm
  rw [hsum]

theorem collect_isSome {β : Type} (l : List (Option β))
    (h : ∀ x, x ∈ l → ∃ v, x = some v) : ∃ r, collect l = some r := by
  induction l with
  | nil => exact ⟨[], rfl⟩
  | cons x xs ih =>
    obtain ⟨v, hv⟩ := h x (List.mem_cons_self x xs)
    obtain ⟨r, hr⟩ := ih (fun y hy => h y (List.mem_cons_of_mem x hy))
    subst hv
    exact ⟨v :: r, by simp [collect, hr]⟩

theorem computeCoeffs_isSome [Zero α] [Add α] [Mul α] (E f : List α) (L n : Nat)
    (hn : n < 2147483648) (hf : L ≤ f.length) (hE : ∀ i, i < n → 2 * i + L ≤ E.length) :
    ∃ cs, computeCoeffs E f L n = some cs := by
  unfold computeCoeffs
  apply collect_isSome
  intro x hx
  obtain ⟨i, hi, rfl⟩ := List.mem_map.mp hx
  rw [List.mem_range] at hi
  unfold coeffAt arm_mult_f32
  rw [u32_mul_eq 2 i (by omega), if_pos ⟨by rw [List.length_drop]; have := hE i hi; omega, hf⟩]
  exact ⟨_, rfl⟩

/-- The call succeeds whenever its arguments are well formed: no null pointer, filters
of `L ≥ 2` taps, a recognised extension policy (with `N ≥ L` under the symmetric one), a
signal of at least `N` samples, an extended length `N + 2L - 2` that is a `uint32_t` value
and output arrays of at least `outSize` cells. -/
theorem arm_dwt_1dec_f32_succeeds [Zero α] [Add α] [Mul α] (stack : α) (sig : List α)
    (N : Nat) (out : arm_dwt_1dec_out_f32 α) (inst : arm_dwt_instance_f32 α)
    (lo hi buffer dstA dstD : List α)
    (hlo : inst.pLowFilter = some lo) (hhi : inst.pHighFilter = some hi)
    (hbuf : inst.pInternalBuffer = some buffer)
    (hA : out.pACoeffs = some dstA) (hDc : out.pDCoeffs = some dstD)
    (hL2 : 2 ≤ inst.filtersLength)
    (hlol : inst.filtersLength ≤ lo.length) (hhil : inst.filtersLength ≤ hi.length)
    (hflag : inst.extrapolationFlag = ARM_DWT_EM_ZERO_PADDING ∨
      (inst.extrapolationFlag = ARM_DWT_EM_SYMMETRIC ∧ inst.filtersLength ≤ N))
    (hsig : N ≤ sig.length) (hfit : N + 2 * inst.filtersLength - 2 < 4294967296)
    (hdA : (N + inst.filtersLength - 1) / 2 ≤ dstA.length)
    (hdD : (N + inst.filtersLength - 1) / 2 ≤ dstD.length) :
    ∃ r, arm_dwt_1dec_f32 stack (some sig) N (some out) (some inst)
      = some (DWT_STATUS_SUCCESS, some r) := by
  have hLu : inst.filtersLength < 4294967296 := by omega
  obtain ⟨fLo, h1⟩ := flipFilter_isSome lo inst.filtersLength hLu hlol
  obtain ⟨fHi, h2⟩ := flipFilter_isSome hi inst.filtersLength hLu hhil
  have hE : ∃ E, extendSignal stack inst.extrapolationFlag inst.filtersLength sig N
      = some E := by
    rcases hflag with hz | ⟨hs, hLN⟩
    · rw [hz]; exact extendSignal_zero_isSome stack _ N sig hL2 hfit hsig
    · rw [hs]; exact extendSignal_symmetric_isSome stack _ N sig hL2 hfit hLN hsig
  obtain ⟨E, h3⟩ := hE
  obtain ⟨_, _, hElen⟩ := extendSignal_recognised stack _ _ N sig E hL2 hLu hflag h3
  have hsz := outSize_eq N inst.filtersLength (by omega) (by omega)
  have hlt := outSize_lt N inst.filtersLength
  have hidx : ∀ i, i < outSize N inst.filtersLength → 2 * i + inst.filtersLength ≤ E.length := by
    intro i hi
    rw [hsz] at hi
    rw [hElen]
    omega
  obtain ⟨cA, h4⟩ := computeCoeffs_isSome E fLo inst.filtersLength _ hlt
    (by rw [(flipFilter_some lo fLo _ hLu h1).1]) hidx
  obtain ⟨cD, h5⟩ := computeCoeffs_isSome E fHi inst.filtersLength _ hlt
    (by rw [(flipFilter_some hi fHi _ hLu h2).1]) hidx
  have lA := (computeCoeffs_some E fLo cA _ _ h4).1
  have lD := (computeCoeffs_some E fHi cD _ _ h5).1
  have h6 : ∃ d, arm_copy_f32 cA dstA 0 (outSize N inst.filtersLength) = some d := by
    unfold arm_copy_f32
    rw [if_pos ⟨by omega, by omega⟩]
    exact ⟨_, rfl⟩
  have h7 : ∃ d, arm_copy_f32 cD dstD 0 (outSize N inst.filtersLength) = some d := by
    unfold arm_copy_f32
    rw [if_pos ⟨by omega, by omega⟩]
    exact ⟨_, rfl⟩
  obtain ⟨dA, h6⟩ := h6
  obtain ⟨dD, h7⟩ := h7
  refine ⟨{ size := outSize N inst.filtersLength, pDCoeffs := some dD, pACoeffs := some dA }, ?_⟩
  simp only [arm_dwt_1dec_f32, hhi, hlo, hbuf, hA, hDc,
    preSignalCells_eq inst.filtersLength hL2 hLu, h1, h2, h3, h4, h5, h6, h7,
    Option.some_bind]

/-- C4: for filters of length `L ≥ 2` and a recognised extension policy (`N ≥ L` under
the symmetric one), `arm_dwt_1dec_f32` returns `DWT_STATUS_SUCCESS` whenever its arrays
are large enough and `N + 2L - 2` is a `uint32_t` value, and every call that returns
`DWT_STATUS_SUCCESS` sets `size` to `floor((N + L - 1) / 2)` and, with `E` the extended
signal, of length `N + 2L - 2`, writes `pACoeffs[i] = Σ_{k < L} E[2i+k] * pLowFilter[L-1-k]`
and `pDCoeffs[i] = Σ_{k < L} E[2i+k] * pHighFilter[L-1-k]` for every `i < size`. -/
theorem arm_dwt_1dec_f32_coefficients [Semiring α] (stack : α) (sig : List α) (N : Nat)
    (out : arm_dwt_1dec_out_f32 α) (inst : arm_dwt_instance_f32 α) (lo hi : List α)
    (hlo : inst.pLowFilter = some lo) (hhi : inst.pHighFilter = some hi)
    (hL2 : 2 ≤ inst.filtersLength) (hLu : inst.filtersLength < 4294967296)
    (hflag : inst.extrapolationFlag = ARM_DWT_EM_ZERO_PADDING ∨
      (inst.extrapolationFlag = ARM_DWT_EM_SYMMETRIC ∧ inst.filtersLength ≤ N)) :
    (∀ buffer dstA dstD, inst.pInternalBuffer = some buffer →
      out.pACoeffs = some dstA → out.pDCoeffs = some dstD →
      inst.filtersLength ≤ lo.length → inst.filtersLength ≤ hi.length →
      N ≤ sig.length → N + 2 * inst.filtersLength - 2 < 4294967296 →
      (N + inst.filtersLength - 1) / 2 ≤ dstA.length →
      (N + inst.filtersLength - 1) / 2 ≤ dstD.length →
      ∃ r, arm_dwt_1dec_f32 stack (some sig) N (some out) (some inst)
        = some (DWT_STATUS_SUCCESS, some r)) ∧
    ∀ r, arm_dwt_1dec_f32 stack (some sig) N (some out) (some inst)
        = some (DWT_STATUS_SUCCESS, some r) →
      r.size = (N + inst.filtersLength - 1) / 2 ∧
      ∃ E A D,
        extendSignal stack inst.extrapolationFlag inst.filtersLength sig N = some E ∧
        E.length = N + 2 * inst.filtersLength - 2 ∧
        r.pACoeffs = some A ∧ r.pDCoeffs = some D ∧
        ∀ i, i < (N + inst.filtersLength - 1) / 2 →
          A[i]? = some (∑ k ∈ Finset.range inst.filtersLength,
            E.getD (2 * i + k) 0 * lo.getD (inst.filtersLength - 1 - k) 0) ∧
          D[i]? = some (∑ k ∈ Finset.range inst.filtersLength,
            E.getD (2 * i + k) 0 * hi.getD (inst.filtersLength - 1 - k) 0) := by
  refine ⟨fun buffer dstA dstD hbuf hA hDc hlol hhil hsig hfit hdA hdD =>
    arm_dwt_1dec_f32_succeeds stack sig N out inst lo hi buffer dstA dstD hlo hhi hbuf hA hDc
      hL2 hlol hhil hflag hsig hfit hdA hdD, ?_⟩
  intro r h
  obtain ⟨hi2, lo2, dstA, dstD, fLo, fHi, E, cA, cD, dstA2, dstD2,
      e1, e2, _, _, h1, h2, h3, h4, h5, h6, h7, hr⟩ :=
    arm_dwt_1dec_f32_inv stack sig N out r inst h
  rw [hhi] at e1
  rw [hlo] at e2
  obtain rfl : hi = hi2 := Option.some.inj e1
  obtain rfl : lo = lo2 := Option.some.inj e2
  obtain ⟨_, hfit, hElen⟩ := extendSignal_recognised stack _ _ N sig E hL2 hLu hflag h3
  have hsz := outSize_eq N inst.filtersLength (by omega) (by omega)
  have hlt := outSize_lt N inst.filtersLength
  refine ⟨by rw [hr, hsz], E, dstA2, dstD2, h3, hElen, by rw [hr], by rw [hr], ?_⟩
  intro i hlti
  rw [← hsz] at hlti
  exact ⟨copied_coeff E lo fLo cA dstA dstA2 _ _ (by omega) hLu hlt h1 h4 h6 i hlti,
    copied_coeff E hi fHi cD dstD dstD2 _ _ (by omega) hLu hlt h2 h5 h7 i hlti⟩

/-- Witness for C4 -/
theorem arm_dwt_1dec_f32_coefficients_witness :
    arm_dwt_1dec_f32 (7 : Int) (some [1, 2, 3, 4]) 4
        (some { size := 0, pDCoeffs := some [7, 7, 7], pACoeffs := some [7, 7, 7] })
        (some sumDiffInstance)
      = some (DWT_STATUS_SUCCESS,
          some { size := 2, pDCoeffs := some [1, 1, 7], pACoeffs := some [3, 7, 7] }) ∧
    (2 : Nat) = (4 + 2 - 1) / 2 ∧
    ∃ E A D,
      extendSignal (7 : Int) 0 2 [1, 2, 3, 4] 4 = some E ∧
      E.length = 4 + 2 * 2 - 2 ∧
      some [3, 7, 7] = some A ∧ some [1, 1, 7] = some D ∧
      ∀ i, i < (4 + 2 - 1) / 2 →
        A[i]? = some (∑ k ∈ Finset.range 2,
          E.getD (2 * i + k) 0 * ([1, 1] : List Int).getD (2 - 1 - k) 0) ∧
        D[i]? = some (∑ k ∈ Finset.range 2,
          E.getD (2 * i + k) 0 * ([1, -1] : List Int).getD (2 - 1 - k) 0) :=
  ⟨by decide,
    (arm_dwt_1dec_f32_coefficients (7 : Int) [1, 2, 3, 4] 4
      { size := 0, pDCoeffs := some [7, 7, 7], pACoeffs := some [7, 7, 7] }
      sumDiffInstance [1, 1] [1, -1] rfl rfl (by decide) (by decide)
      (Or.inl rfl)).2
      { size := 2, pDCoeffs := some [1, 1, 7], pACoeffs := some [3, 7, 7] } (by decide)⟩

/-! ### The eight-sample scenario -/

theorem flipFilter_pair (a b : ℚ) : flipFilter [a, b] 2 = some [b, a] := by
  simp [flipFilter, readIndices, flipIndex, u32_sub, collect, List.range_succ]

theorem extendSignal_zero_eight (stack : ℚ) (x1 x2 x3 x4 x5 x6 x7 x8 : ℚ) :
    extendSignal stack ARM_DWT_EM_ZERO_PADDING 2 [x1, x2, x3, x4, x5, x6, x7, x8] 8
      = some [x1, x2, x3, x4, x5, x6, x7, x8, 0, 0] := by
  simp [extendSignal, extendedSignalSize, arm_copy_f32, u32_sub, u32_add, u32_mul,
    List.replicate]

theorem haar_1dec (stack : ℚ) (buffer : List ℚ) (cap : Nat) :
    arm_dwt_1dec_f32 stack (some [1, 2, 3, 4, 5, 6, 7, 8]) 8
      (some { size := 0, pDCoeffs := some (List.replicate 4 stack),
              pACoeffs := some (List.replicate 4 stack) })
      (some (haarQ buffer cap))
    = some (DWT_STATUS_SUCCESS,
        some { size := 4, pDCoeffs := some [1/2, 1/2, 1/2, 1/2],
               pACoeffs := some [3/2, 7/2, 11/2, 15/2] }) := by
  have hp : preSignalCells 2 = some 0 := by decide
  simp only [arm_dwt_1dec_f32, haarQ, hp, flipFilter_pair, extendSignal_zero_eight,
    Option.some_bind]
  have hs : outSize 8 2 = 4 := by decide
  rw [hs]
  simp [computeCoeffs, coeffAt, arm_mult_f32, u32_mul, collect, List.range_succ, arm_copy_f32]
  norm_num

theorem haar_cascade (stack : ℚ) (buffer : List ℚ) (cap : Nat) (out : arm_dwt_out_f32)
    (hbuf : 8 ≤ buffer.length) (hout : 2 ≤ out.coeffs.length) :
    cascade stack (haarQ buffer cap) [1, 2, 3, 4, 5, 6, 7, 8] 8 buffer out
      = some (DWT_STATUS_SUCCESS,
          { i := 1, copyCounter := 8,
            xDecResult := { size := 4, pDCoeffs := some [1/2, 1/2, 1/2, 1/2],
                            pACoeffs := some [3/2, 7/2, 11/2, 15/2] },
            buffer := [1/2, 1/2, 1/2, 1/2, 3/2, 7/2, 11/2, 15/2] ++ buffer.drop 8,
            out := { coeffs := (out.coeffs.set 0 ⟨0, 4⟩).set 1 ⟨4, 4⟩, decLevel := 1 } }) := by
  have hdo : decOutputSize 8 2 = 4 := by decide
  have hflt : (haarQ buffer cap).filtersLength = 2 := rfl
  have hD : (haarQ buffer cap).decLevel = 1 := rfl
  have hc1 : arm_copy_f32 [1/2, 1/2, 1/2, (1:ℚ)/2] buffer 0 4
      = some ([1/2, 1/2, 1/2, 1/2] ++ buffer.drop 4) := by
    simp [arm_copy_f32]; omega
  have hc2 : arm_copy_f32 [3/2, 7/2, 11/2, (15:ℚ)/2] ([1/2, 1/2, 1/2, 1/2] ++ buffer.drop 4) 4 4
      = some ([1/2, 1/2, 1/2, 1/2, 3/2, 7/2, 11/2, 15/2] ++ buffer.drop 8) := by
    simp [arm_copy_f32]; omega
  have hu : u32_add 0 4 = 4 := by decide
  have hu1 : u32_add 4 4 = 8 := by decide
  have h0 : 0 < out.coeffs.length := by omega
  have h1 : 1 < out.coeffs.length := by omega
  simp only [cascade, hflt, hdo, haar_1dec, storeCoeffs, Option.some_bind, hc1, setCoeffs, hD,
    cascadeLoop, hu, if_pos h0, lt_irrefl, if_false, if_true, hc2, List.length_set,
    if_pos h1, hu1]

theorem haar_run (stack : ℚ) (buffer : List ℚ) (cap : Nat) (out : arm_dwt_out_f32)
    (hbuf : 8 ≤ buffer.length) (hcap : 8 ≤ cap) (hout : 2 ≤ out.coeffs.length) :
    arm_dwt_f32 stack (some (haarQ buffer cap)) (some [1, 2, 3, 4, 5, 6, 7, 8]) 8 (some out)
      = some (DWT_STATUS_SUCCESS,
          some ([1/2, 1/2, 1/2, 1/2, 3/2, 7/2, 11/2, 15/2] ++ buffer.drop 8),
          some { coeffs := (out.coeffs.set 0 ⟨0, 4⟩).set 1 ⟨4, 4⟩, decLevel := 1 }) := by
  have hchk : arm_dwt_check_f32 (some (haarQ buffer cap)) 8 = DWT_STATUS_SUCCESS := by
    have hd : dwtOutSize 2 1 8 = 8 := by decide
    simp only [arm_dwt_check_f32, haarQ, hd, if_pos hcap]
  have hhi : (haarQ buffer cap).pHighFilter = some [1/2, -1/2] := rfl
  have hlo : (haarQ buffer cap).pLowFilter = some [1/2, 1/2] := rfl
  have hpb : (haarQ buffer cap).pInternalBuffer = some buffer := rfl
  simp only [arm_dwt_f32, hhi, hlo, hpb, hchk, ne_eq, not_true_eq_false, if_false,
    haar_cascade stack buffer cap out hbuf hout, Option.map_some']

/-- C9 as stated fails: in the scenario `signal = [1..8]`, `lowPass = [0.5, 0.5]`,
`highPass = [0.5, -0.5]`, zero padding, `D = 1`, with an internal buffer of eight cells,
no successful call leaves the detail coefficients `[-0.5, -0.5, -0.5, -0.5]` in
`coeffs[0]`. -/
theorem haar_detail_not_minus_half :
    ¬ ∃ buf res,
      arm_dwt_f32 (0 : ℚ) (some (haarQ (List.replicate 8 0) 8))
          (some [1, 2, 3, 4, 5, 6, 7, 8]) 8 (some blankOut)
        = some (DWT_STATUS_SUCCESS, some buf, some res) ∧
      res.coeffs[0]?.map (viewOf buf) = some [-1/2, -1/2, -1/2, -1/2] := by
  rintro ⟨buf, res, h, hd⟩
  rw [haar_run 0 (List.replicate 8 0) 8 blankOut (by simp) (le_refl _) (by decide)] at h
  simp only [Option.some.injEq, Prod.mk.injEq, true_and] at h
  obtain ⟨hb, hr⟩ := h
  subst hb hr
  simp [viewOf, blankOut, ARM_DWT_MAX_DEC_LEVEL, List.replicate] at hd
  norm_num at hd

/-- C9, amended: in the scenario `signal = [1..8]`, `lowPass = [0.5, 0.5]`,
`highPass = [0.5, -0.5]` (`L = 2`), zero padding, `D = 1`, with an internal buffer of at
least eight cells and a declared capacity of at least eight, `arm_dwt_f32` succeeds with
approximation coefficients `[1.5, 3.5, 5.5, 7.5]` in `coeffs[1]`, detail coefficients
`[0.5, 0.5, 0.5, 0.5]` in `coeffs[0]`, eight samples of the buffer occupied (the final
`copyCounter`, the cells beyond them unchanged) and output `decLevel = 1`. -/
theorem arm_dwt_f32_haar_scenario (stack : ℚ) (buffer : List ℚ) (cap : Nat)
    (out : arm_dwt_out_f32) (hbuf : 8 ≤ buffer.length) (hcap : 8 ≤ cap)
    (hout : out.coeffs.length = ARM_DWT_MAX_DEC_LEVEL + 1) :
    ∃ buf res st,
      arm_dwt_f32 stack (some (haarQ buffer cap)) (some [1, 2, 3, 4, 5, 6, 7, 8]) 8 (some out)
        = some (DWT_STATUS_SUCCESS, some buf, some res) ∧
      cascade stack (haarQ buffer cap) [1, 2, 3, 4, 5, 6, 7, 8] 8 buffer out
        = some (DWT_STATUS_SUCCESS, st) ∧
      res.coeffs[1]?.map (viewOf buf) = some [3/2, 7/2, 11/2, 15/2] ∧
      res.coeffs[0]?.map (viewOf buf) = some [1/2, 1/2, 1/2, 1/2] ∧
      st.copyCounter = 8 ∧ buf.drop 8 = buffer.drop 8 ∧
      res.decLevel = 1 := by
  have hout2 : 2 ≤ out.coeffs.length := by rw [hout]; decide
  refine ⟨_, _, _, haar_run stack buffer cap out hbuf hcap hout2,
    haar_cascade stack buffer cap out hbuf hout2, ?_, ?_, rfl, ?_, rfl⟩
  · rw [List.getElem?_set_self (by rw [List.length_set]; omega)]
    simp [viewOf]
  · rw [List.getElem?_set_ne (by decide), List.getElem?_set_self (by omega)]
    simp [viewOf]
  · simp

/-- Witness for C9 (amended) -/
theorem arm_dwt_f32_haar_scenario_witness :
    ∃ buf res st,
      arm_dwt_f32 (0 : ℚ) (some (haarQ (List.replicate 8 0) 8))
          (some [1, 2, 3, 4, 5, 6, 7, 8]) 8 (some blankOut)
        = some (DWT_STATUS_SUCCESS, some buf, some res) ∧
      cascade (0 : ℚ) (haarQ (List.replicate 8 0) 8) [1, 2, 3, 4, 5, 6, 7, 8] 8
          (List.replicate 8 0) blankOut
        = some (DWT_STATUS_SUCCESS, st) ∧
      res.coeffs[1]?.map (viewOf buf) = some [3/2, 7/2, 11/2, 15/2] ∧
      res.coeffs[0]?.map (viewOf buf) = some [1/2, 1/2, 1/2, 1/2] ∧
      st.copyCounter = 8 ∧ buf.drop 8 = (List.replicate 8 (0 : ℚ)).drop 8 ∧
      res.decLevel = 1 :=
  arm_dwt_f32_haar_scenario 0 (List.replicate 8 0) 8 blankOut (by simp) (le_refl _) rfl

/-! ### The cascade and its views -/

theorem successRecord_eq_some (x : Option (arm_dwt_status × Option (arm_dwt_1dec_out_f32 α)))
    (r : arm_dwt_1dec_out_f32 α) :
    successRecord x = some r ↔ x = some (DWT_STATUS_SUCCESS, some r) := by
  constructor
  · intro h
    unfold successRecord at h
    split at h
    · simp only [Option.some.injEq] at h; rw [h]
    · exact absurd h (by simp)
  · intro h
    rw [h]; rfl

theorem storeCoeffs_some (st st2 : CascadeState α) (src : Option (List α)) (idx : Nat)
    (h : storeCoeffs st src idx = some st2) :
    ∃ s buf, src = some s ∧
      arm_copy_f32 s st.buffer st.copyCounter st.xDecResult.size = some buf ∧
      idx < st.out.coeffs.length ∧
      st2 = { st with
        copyCounter := u32_add st.copyCounter st.xDecResult.size
        buffer := buf
        out := { st.out with
          coeffs := st.out.coeffs.set idx ⟨st.copyCounter, st.xDecResult.size⟩ } } := by
  unfold storeCoeffs at h
  obtain ⟨s, h1, h⟩ := Option.bind_eq_some.mp h
  obtain ⟨buf, h2, h⟩ := Option.bind_eq_some.mp h
  obtain ⟨out2, h3, h⟩ := Option.bind_eq_some.mp h
  unfold setCoeffs at h3
  split at h3
  · rename_i hlt
    simp only [Option.some.injEq] at h3 h
    exact ⟨s, buf, h1, h2, hlt, by rw [← h, ← h3]⟩
  · exact absurd h3 (by simp)

theorem take_drop_append (A B : List α) (off len : Nat) (h : off + len ≤ A.length) :
    ((A ++ B).drop off).take len = (A.drop off).take len := by
  rw [List.drop_append_of_le_length (by omega),
    List.take_append_of_le_length (by rw [List.length_drop]; omega)]

theorem viewOf_copy_below (s buf buf2 : List α) (cc n off len : Nat)
    (h : arm_copy_f32 s buf cc n = some buf2) (hle : off + len ≤ cc) :
    viewOf buf2 ⟨off, len⟩ = viewOf buf ⟨off, len⟩ := by
  obtain ⟨h1, h2, h3⟩ := arm_copy_f32_some s buf buf2 cc n h
  unfold viewOf
  simp only
  have hA : off + len ≤ (buf.take cc).length := by rw [List.length_take]; omega
  rw [h3, List.append_assoc, take_drop_append _ _ off len hA]
  conv_rhs => rw [← List.take_append_drop cc buf]
  rw [take_drop_append _ _ off len hA]

theorem viewOf_copy_at (s buf buf2 : List α) (cc n : Nat)
    (h : arm_copy_f32 s buf cc n = some buf2) :
    viewOf buf2 ⟨cc, n⟩ = s.take n := by
  obtain ⟨h1, h2, h3⟩ := arm_copy_f32_some s buf buf2 cc n h
  unfold viewOf
  simp only
  have hA : (buf.take cc).length = cc := by rw [List.length_take]; omega
  rw [h3, List.append_assoc, List.drop_left' hA]
  exact List.take_left' (by rw [List.length_take]; omega)

section Cascade

variable [Zero α] [Add α] [Mul α] (stack : α) (inst : arm_dwt_instance_f32 α)
  (sig : List α) (blockSize : Nat)

theorem levelSize_of_record (k : Nat) (r : arm_dwt_1dec_out_f32 α)
    (h : levelRecord stack inst sig blockSize k = some r) :
    levelSize stack inst sig blockSize k = r.size := by
  unfold levelSize
  rw [h]
  rfl

theorem levelOffset_mono {j i : Nat} (h : j ≤ i) :
    levelOffset stack inst sig blockSize j ≤ levelOffset stack inst sig blockSize i := by
  induction i with
  | zero =>
    have : j = 0 := by omega
    subst this
    exact le_refl _
  | succ i ih =>
    rcases Nat.lt_or_ge j (i + 1) with hlt | hge
    · have := ih (by omega)
      rw [levelOffset]
      omega
    · have : j = i + 1 := by omega
      subst this
      exact le_refl _

theorem levelOffset_end_le {j i : Nat} (h : j < i) :
    levelOffset stack inst sig blockSize j + levelSize stack inst sig blockSize j
      ≤ levelOffset stack inst sig blockSize i := by
  have h1 : levelOffset stack inst sig blockSize (j + 1)
      ≤ levelOffset stack inst sig blockSize i :=
    levelOffset_mono stack inst sig blockSize (by omega)
  rw [levelOffset] at h1
  exact h1

/-- Effect of the three statements that store one array of coefficients. -/
theorem storeCoeffs_views (bufLen outLen : Nat) (st st2 : CascadeState α)
    (src : Option (List α)) (hbl : bufLen < 4294967296)
    (hv : CascadeViews stack inst sig blockSize bufLen outLen st)
    (h : storeCoeffs st src st.i = some st2) :
    ∃ s, src = some s ∧
      st2.i = st.i ∧ st2.xDecResult = st.xDecResult ∧
      st2.out.decLevel = st.out.decLevel ∧
      st2.copyCounter = st.copyCounter + st.xDecResult.size ∧
      st2.copyCounter ≤ st2.buffer.length ∧
      st2.buffer.length = bufLen ∧ st2.out.coeffs.length = outLen ∧ st.i < outLen ∧
      st2.out.coeffs[st.i]? = some ⟨st.copyCounter, st.xDecResult.size⟩ ∧
      viewOf st2.buffer ⟨st.copyCounter, st.xDecResult.size⟩ = s.take st.xDecResult.size ∧
      ∀ j, j < st.i → ∃ r, levelRecord stack inst sig blockSize j = some r ∧
        st2.out.coeffs[j]? = some ⟨levelOffset stack inst sig blockSize j, r.size⟩ ∧
        viewOf st2.buffer ⟨levelOffset stack inst sig blockSize j, r.size⟩ = detailOf r := by
  obtain ⟨s, buf, hs, hcopy, hidx, hst2⟩ := storeCoeffs_some st st2 src st.i h
  obtain ⟨g1, g2, _⟩ := arm_copy_f32_some s st.buffer buf _ _ hcopy
  have hlen := arm_copy_f32_length s st.buffer buf _ _ hcopy
  have hbuf := hv.buffer_len
  have hadd : u32_add st.copyCounter st.xDecResult.size
      = st.copyCounter + st.xDecResult.size := u32_add_eq _ _ (by omega)
  subst hst2
  refine ⟨s, hs, rfl, rfl, rfl, hadd, ?_, ?_, ?_, ?_, ?_, ?_, ?_⟩
  · show u32_add st.copyCounter st.xDecResult.size ≤ buf.length
    rw [hadd, hlen]; exact g2
  · show buf.length = bufLen
    rw [hlen]; exact hbuf
  · show (st.out.coeffs.set st.i _).length = outLen
    rw [List.length_set]; exact hv.out_len
  · rw [← hv.out_len]; exact hidx
  · show (st.out.coeffs.set st.i _)[st.i]? = _
    rw [List.getElem?_set_self hidx]
  · exact viewOf_copy_at s st.buffer buf _ _ hcopy
  · intro j hj
    obtain ⟨r, hr, hc, hview⟩ := hv.views j hj
    refine ⟨r, hr, ?_, ?_⟩
    · show (st.out.coeffs.set st.i _)[j]? = _
      rw [List.getElem?_set_ne (by omega)]
      exact hc
    · show viewOf buf _ = _
      rw [← hview]
      apply viewOf_copy_below s st.buffer buf _ _ _ _ hcopy
      have := levelOffset_end_le stack inst sig blockSize hj
      rw [levelSize_of_record stack inst sig blockSize j r hr] at this
      rw [hv.counter]
      exact this

/-- One more decomposition stored: from the views of `st` to the invariant of the next
state of the loop. -/
theorem cascade_step (bufLen outLen : Nat) (st st2 : CascadeState α)
    (r : arm_dwt_1dec_out_f32 α) (hbl : bufLen < 4294967296) (hol : outLen < 4294967296)
    (hv : CascadeViews stack inst sig blockSize bufLen outLen st)
    (hr : levelRecord stack inst sig blockSize st.i = some r)
    (h : storeCoeffs { st with xDecResult := r } r.pDCoeffs st.i = some st2) :
    CascadeInv stack inst sig blockSize bufLen outLen { st2 with i := u32_add st2.i 1 } := by
  have hv2 : CascadeViews stack inst sig blockSize bufLen outLen
      { st with xDecResult := r } :=
    ⟨hv.counter, hv.counter_le, hv.buffer_len, hv.out_len, hv.views⟩
  obtain ⟨s, hs, hi, hx, _, hcc, hle, hbuf, hout, hidx, hnew, hview, hold⟩ :=
    storeCoeffs_views stack inst sig blockSize bufLen outLen _ st2 r.pDCoeffs hbl hv2 h
  simp only at hi hx hcc hidx hnew hview hold
  have hu : u32_add st2.i 1 = st.i + 1 := by
    rw [hi]; exact u32_add_eq _ _ (by omega)
  have hsz := levelSize_of_record stack inst sig blockSize st.i r hr
  refine ⟨⟨?_, hle, hbuf, hout, ?_⟩, ?_, ?_⟩
  · show st2.copyCounter = levelOffset stack inst sig blockSize (u32_add st2.i 1)
    rw [hu, levelOffset, hsz, hcc, hv.counter]
  · show ∀ j, j < u32_add st2.i 1 → _
    intro j hj
    rw [hu] at hj
    rcases Nat.lt_or_ge j st.i with hlt | hge
    · exact hold j hlt
    · have hj2 : j = st.i := by omega
      subst hj2
      refine ⟨r, hr, ?_, ?_⟩
      · show st2.out.coeffs[st.i]? = _
        rw [hnew, hv.counter]
      · show viewOf st2.buffer _ = _
        rw [← hv.counter, hview]
        unfold detailOf
        rw [hs]
        rfl
  · show 1 ≤ u32_add st2.i 1
    rw [hu]; omega
  · show levelRecord stack inst sig blockSize (u32_add st2.i 1 - 1) = some st2.xDecResult
    rw [hu, hx, Nat.add_sub_cancel]
    exact hr

theorem cascadeLoop_inv (bufLen outLen : Nat) (hbl : bufLen < 4294967296)
    (hol : outLen < 4294967296) :
    ∀ (fuel : Nat) (st st2 : CascadeState α),
      CascadeInv stack inst sig blockSize bufLen outLen st →
      cascadeLoop stack inst fuel st = some st2 →
      CascadeInv stack inst sig blockSize bufLen outLen st2 := by
  intro fuel
  induction fuel with
  | zero =>
    intro st st2 hinv h
    simp only [cascadeLoop, Option.some.injEq] at h
    rw [← h]; exact hinv
  | succ fuel ih =>
    intro st st2 hinv h
    rw [cascadeLoop] at h
    split at h
    · split at h
      · exact absurd h (by simp)
      · rename_i r hcall
        obtain ⟨stA, hstore, hrest⟩ := Option.bind_eq_some.mp h
        have hr : levelRecord stack inst sig blockSize st.i = some r := by
          have hpos := hinv.i_pos
          have e : st.i = (st.i - 1) + 1 := by omega
          rw [e, levelRecord, hinv.record, Option.some_bind]
          exact (successRecord_eq_some _ r).mpr hcall
        exact ih _ st2
          (cascade_step stack inst sig blockSize bufLen outLen st stA r hbl hol
            hinv.held hr hstore) hrest
      · simp only [Option.some.injEq] at h
        rw [← h]; exact hinv
    · simp only [Option.some.injEq] at h
      rw [← h]; exact hinv

/-- What a successful run of the last branch of `arm_dwt_f32` leaves in the internal
buffer and in the output structure. -/
theorem cascade_layout (buffer : List α) (out : arm_dwt_out_f32) (st : CascadeState α)
    (hbl : buffer.length < 4294967296) (hol : out.coeffs.length < 4294967296)
    (h : cascade stack inst sig blockSize buffer out = some (DWT_STATUS_SUCCESS, st)) :
    1 ≤ inst.decLevel ∧ st.out.decLevel = inst.decLevel ∧
    st.buffer.length = buffer.length ∧ st.out.coeffs.length = out.coeffs.length ∧
    inst.decLevel < out.coeffs.length ∧
    (∀ j, j < inst.decLevel → ∃ r, levelRecord stack inst sig blockSize j = some r ∧
      st.out.coeffs[j]? = some ⟨levelOffset stack inst sig blockSize j, r.size⟩ ∧
      viewOf st.buffer ⟨levelOffset stack inst sig blockSize j, r.size⟩ = detailOf r) ∧
    ∃ r, levelRecord stack inst sig blockSize (inst.decLevel - 1) = some r ∧
      st.out.coeffs[inst.decLevel]?
        = some ⟨levelOffset stack inst sig blockSize inst.decLevel, r.size⟩ ∧
      viewOf st.buffer ⟨levelOffset stack inst sig blockSize inst.decLevel, r.size⟩
        = approxOf r ∧
      st.copyCounter = levelOffset stack inst sig blockSize inst.decLevel + r.size ∧
      st.copyCounter ≤ buffer.length := by
  unfold cascade at h
  simp only at h
  split at h
  · exact absurd h (by simp)
  · rename_i r hcall
    obtain ⟨st1, hstore, h⟩ := Option.bind_eq_some.mp h
    obtain ⟨st2, hloop, h⟩ := Option.bind_eq_some.mp h
    have hr0 : levelRecord stack inst sig blockSize 0 = some r := by
      rw [levelRecord]
      exact (successRecord_eq_some _ r).mpr hcall
    have hinv1 := cascade_step stack inst sig blockSize buffer.length out.coeffs.length
      (⟨0, 0, r, buffer, out⟩ : CascadeState α) st1 r hbl hol
      ⟨rfl, Nat.zero_le _, rfl, rfl, fun j hj => absurd hj (Nat.not_lt_zero j)⟩ hr0 hstore
    have hi1 : st1.i = 0 := by
      obtain ⟨_, _, _, _, _, e⟩ := storeCoeffs_some _ st1 _ _ hstore
      rw [e]
    have hone : u32_add st1.i 1 = 1 := by rw [hi1]; rfl
    rw [hone] at hinv1
    have hinv2 := cascadeLoop_inv stack inst sig blockSize buffer.length out.coeffs.length
      hbl hol _ _ st2 hinv1 hloop
    split at h
    · rename_i hD
      obtain ⟨st3, hfin, h⟩ := Option.bind_eq_some.mp h
      simp only [Option.some.injEq, Prod.mk.injEq, true_and] at h
      rw [← hD] at hfin
      obtain ⟨s, hs, _, _, _, hcc, hle, hbuf, hout, hidx, hnew, hview, hold⟩ :=
        storeCoeffs_views stack inst sig blockSize buffer.length out.coeffs.length st2 st3
          st2.xDecResult.pACoeffs hbl hinv2.held hfin
      have hpos := hinv2.i_pos
      subst h
      rw [← hD]
      refine ⟨hpos, rfl, hbuf, hout, hidx, hold, st2.xDecResult, hinv2.record, ?_, ?_, ?_, ?_⟩
      · show st3.out.coeffs[st2.i]? = _
        rw [hnew, hinv2.held.counter]
      · show viewOf st3.buffer _ = _
        rw [← hinv2.held.counter, hview]
        unfold approxOf
        rw [hs]
        rfl
      · show st3.copyCounter = _
        rw [hcc, hinv2.held.counter]
      · show st3.copyCounter ≤ buffer.length
        rw [← hbuf]; exact hle
    · simp at h
  · simp at h

end Cascade

theorem arm_dwt_f32_success [Zero α] [Add α] [Mul α] (stack : α)
    (inst : arm_dwt_instance_f32 α) (sig : List α) (blockSize : Nat) (out : arm_dwt_out_f32)
    (buf : List α) (res : arm_dwt_out_f32)
    (h : arm_dwt_f32 stack (some inst) (some sig) blockSize (some out)
      = some (DWT_STATUS_SUCCESS, some buf, some res)) :
    ∃ buffer st, inst.pInternalBuffer = some buffer ∧
      arm_dwt_check_f32 (some inst) blockSize = DWT_STATUS_SUCCESS ∧
      cascade stack inst sig blockSize buffer out = some (DWT_STATUS_SUCCESS, st) ∧
      st.buffer = buf ∧ st.out = res := by
  simp only [arm_dwt_f32] at h
  split at h
  · rename_i hi lo buffer e1 e2 e3
    split at h
    · simp at h
    · rename_i hchk
      obtain ⟨x, hx, h⟩ := Option.map_eq_some'.mp h
      obtain ⟨status, st⟩ := x
      simp only [Option.some.injEq, Prod.mk.injEq] at h
      obtain ⟨h1, h2, h3⟩ := h
      subst h1
      exact ⟨buffer, st, e3, by simpa using hchk, hx, h2, h3⟩
  · simp at h

theorem sum_sizes (coeffs : List arm_dwt_coeffs_f32) (f : Nat → Nat) :
    ∀ n, (∀ j, j < n → ∃ c, coeffs[j]? = some c ∧ c.size = f j) →
      ((coeffs.take n).map fun c => c.size).sum = ∑ j ∈ Finset.range n, f j := by
  intro n
  induction n with
  | zero => intro _; simp
  | succ n ih =>
    intro h
    obtain ⟨c, hc, hsz⟩ := h n (by omega)
    rw [List.take_succ, hc, List.map_append, List.sum_append, ih (fun j hj => h j (by omega)),
      Finset.sum_range_succ]
    simp [hsz]

theorem levelOffset_eq_sum [Zero α] [Add α] [Mul α] (stack : α)
    (inst : arm_dwt_instance_f32 α) (sig : List α) (blockSize : Nat) (n : Nat) :
    levelOffset stack inst sig blockSize n
      = ∑ j ∈ Finset.range n, levelSize stack inst sig blockSize j := by
  induction n with
  | zero => rfl
  | succ n ih => rw [levelOffset, ih, Finset.sum_range_succ]

theorem viewOf_length (buf : List α) (off n : Nat) (h : off + n ≤ buf.length) :
    (viewOf buf ⟨off, n⟩).length = n := by
  unfold viewOf
  simp only [List.length_take, List.length_drop]
  omega

theorem storeCoeffs_i (st st2 : CascadeState α) (src : Option (List α)) (idx : Nat)
    (h : storeCoeffs st src idx = some st2) : st2.i = st.i := by
  obtain ⟨_, _, _, _, _, e⟩ := storeCoeffs_some st st2 src idx h
  rw [e]

theorem cascadeLoop_succ [Zero α] [Add α] [Mul α] (stack : α)
    (inst : arm_dwt_instance_f32 α) (fuel : Nat) (st : CascadeState α) :
    cascadeLoop stack inst (fuel + 1) st =
      if st.i < inst.decLevel then
        match arm_dwt_1dec_f32 stack st.xDecResult.pACoeffs st.xDecResult.size
            (some st.xDecResult) (some inst) with
        | none => none
        | some (DWT_STATUS_SUCCESS, some r) =>
          (storeCoeffs { st with xDecResult := r } r.pDCoeffs st.i).bind fun st2 =>
          cascadeLoop stack inst fuel { st2 with i := u32_add st2.i 1 }
        | some _ => some st
      else some st := by
  rw [cascadeLoop]

/-- The fuel given to the loop of `arm_dwt_f32` is enough: once `fuel` covers the
iterations left, `decLevel - i`, more fuel does not change the result. -/
theorem cascadeLoop_fuel_enough [Zero α] [Add α] [Mul α] (stack : α)
    (inst : arm_dwt_instance_f32 α) (hD : inst.decLevel < 4294967296) :
    ∀ (fuel : Nat) (st : CascadeState α), inst.decLevel - st.i ≤ fuel →
      cascadeLoop stack inst (fuel + 1) st = cascadeLoop stack inst fuel st := by
  intro fuel
  induction fuel with
  | zero =>
    intro st h
    have hge : ¬ st.i < inst.decLevel := by omega
    rw [cascadeLoop_succ, if_neg hge, cascadeLoop]
  | succ fuel ih =>
    intro st h
    rw [cascadeLoop_succ stack inst (fuel + 1) st, cascadeLoop_succ stack inst fuel st]
    split
    · rename_i hlt
      split
      · rfl
      · rename_i r _
        cases hs : storeCoeffs { st with xDecResult := r } r.pDCoeffs st.i with
        | none => rfl
        | some st2 =>
          simp only [Option.some_bind]
          have hi := storeCoeffs_i _ st2 _ _ hs
          simp only at hi
          apply ih
          show inst.decLevel - u32_add st2.i 1 ≤ fuel
          rw [hi, u32_add_eq _ _ (by omega)]
          omega
      · rfl
    · rfl

theorem cascadeLoop_more_fuel [Zero α] [Add α] [Mul α] (stack : α)
    (inst : arm_dwt_instance_f32 α) (hD : inst.decLevel < 4294967296)
    (st : CascadeState α) :
    ∀ extra, cascadeLoop stack inst (inst.decLevel + extra) st
      = cascadeLoop stack inst inst.decLevel st := by
  intro extra
  induction extra with
  | zero => rfl
  | succ extra ih =>
    rw [← ih, ← Nat.add_assoc]
    exact cascadeLoop_fuel_enough stack inst hD _ st (by omega)

/-- C7: after a call of `arm_dwt_f32` that returns `DWT_STATUS_SUCCESS`, with `a_0` the
input signal and `(a_k, d_k)` the outputs of `arm_dwt_1dec_f32` applied to `a_{k-1}`, the
view `coeffs[k-1]` holds exactly `d_k` (same length, same values) for every `k` in
`1..D`, the view `coeffs[D]` holds exactly `a_D`, and the output `decLevel` is `D` (which
is at least 1). -/
theorem arm_dwt_f32_views_hold_levels [Zero α] [Add α] [Mul α] (stack : α)
    (inst : arm_dwt_instance_f32 α) (sig : List α) (blockSize : Nat) (out : arm_dwt_out_f32)
    (buffer buf : List α) (res : arm_dwt_out_f32)
    (hb : inst.pInternalBuffer = some buffer) (hbl : buffer.length < 4294967296)
    (hout : out.coeffs.length = ARM_DWT_MAX_DEC_LEVEL + 1)
    (h : arm_dwt_f32 stack (some inst) (some sig) blockSize (some out)
      = some (DWT_STATUS_SUCCESS, some buf, some res)) :
    1 ≤ inst.decLevel ∧ res.decLevel = inst.decLevel ∧
    (∀ k, 1 ≤ k → k ≤ inst.decLevel →
      ∃ r c, levelRecord stack inst sig blockSize (k - 1) = some r ∧
        res.coeffs[k - 1]? = some c ∧ c.size = r.size ∧
        (detailOf r).length = r.size ∧ viewOf buf c = detailOf r) ∧
    ∃ r c, levelRecord stack inst sig blockSize (inst.decLevel - 1) = some r ∧
      res.coeffs[inst.decLevel]? = some c ∧ c.size = r.size ∧
      (approxOf r).length = r.size ∧ viewOf buf c = approxOf r := by
  obtain ⟨buffer2, st, e1, _, hrun, hbuf, hres⟩ :=
    arm_dwt_f32_success stack inst sig blockSize out buf res h
  rw [hb] at e1
  obtain rfl : buffer = buffer2 := Option.some.inj e1
  have hol : out.coeffs.length < 4294967296 := by rw [hout]; decide
  obtain ⟨hD, hdl, hlen, _, _, hviews, r, hr, hc, hv, hcc, hle⟩ :=
    cascade_layout stack inst sig blockSize buffer out st hbl hol hrun
  subst hbuf hres
  refine ⟨hD, hdl, fun k hk1 hk2 => ?_, r, _, hr, hc, rfl, ?_, hv⟩
  · obtain ⟨r2, hr2, hc2, hv2⟩ := hviews (k - 1) (by omega)
    refine ⟨r2, _, hr2, hc2, rfl, ?_, hv2⟩
    rw [← hv2]
    apply viewOf_length
    have h1 : k - 1 < inst.decLevel := by omega
    have h2 := levelOffset_end_le stack inst sig blockSize h1
    rw [levelSize_of_record stack inst sig blockSize (k - 1) r2 hr2] at h2
    omega
  · rw [← hv]
    apply viewOf_length
    omega

/-- Witness for C7 -/
theorem arm_dwt_f32_views_hold_levels_witness :
    arm_dwt_f32 (7 : Int) (some sumDiffInstance) (some [1, 2, 3, 4]) 4 (some blankOut)
      = some (DWT_STATUS_SUCCESS, some [1, 1, 4, 10, 7, 7, 7, 7],
          some sumDiffOut) ∧
    levelRecord (7 : Int) sumDiffInstance [1, 2, 3, 4] 4 1
      = some { size := 1, pDCoeffs := some [4, 1], pACoeffs := some [10, 7] } ∧
    ∃ r c, levelRecord (7 : Int) sumDiffInstance [1, 2, 3, 4] 4 (sumDiffInstance.decLevel - 1)
        = some r ∧
      sumDiffOut.coeffs[sumDiffInstance.decLevel]?
        = some c ∧
      c.size = r.size ∧ (approxOf r).length = r.size ∧
      viewOf ([1, 1, 4, 10, 7, 7, 7, 7] : List Int) c = approxOf r :=
  ⟨by decide, by decide,
    (arm_dwt_f32_views_hold_levels (7 : Int) sumDiffInstance [1, 2, 3, 4] 4 blankOut
      [7, 7, 7, 7, 7, 7, 7, 7] [1, 1, 4, 10, 7, 7, 7, 7] sumDiffOut rfl (by decide) rfl
      (by decide)).2.2.2⟩

/-- The views recorded by a successful run, entry by entry: offset and size. -/
theorem cascade_views_table [Zero α] [Add α] [Mul α] (stack : α)
    (inst : arm_dwt_instance_f32 α) (sig : List α) (blockSize : Nat) (buffer : List α)
    (out : arm_dwt_out_f32) (st : CascadeState α)
    (hbl : buffer.length < 4294967296) (hol : out.coeffs.length < 4294967296)
    (h : cascade stack inst sig blockSize buffer out = some (DWT_STATUS_SUCCESS, st)) :
    ∀ j, j ≤ inst.decLevel → ∃ c, st.out.coeffs[j]? = some c ∧
      c.pCoeffs = levelOffset stack inst sig blockSize j ∧
      c.size = levelSize stack inst sig blockSize (min j (inst.decLevel - 1)) := by
  obtain ⟨hD, _, _, _, _, hviews, r, hr, hc, _, _, _⟩ :=
    cascade_layout stack inst sig blockSize buffer out st hbl hol h
  have hrsz := levelSize_of_record stack inst sig blockSize _ r hr
  intro j hj
  rcases Nat.lt_or_ge j inst.decLevel with hlt | hge
  · obtain ⟨r2, hr2, hc2, _⟩ := hviews j hlt
    refine ⟨_, hc2, rfl, ?_⟩
    rw [Nat.min_eq_left (by omega), levelSize_of_record stack inst sig blockSize j r2 hr2]
  · have hj2 : j = inst.decLevel := by omega
    subst hj2
    refine ⟨_, hc, rfl, ?_⟩
    rw [Nat.min_eq_right (by omega), hrsz]

/-- The sizes of the `D + 1` views recorded by a successful run sum to the final
`copyCounter`. -/
theorem cascade_sizes_sum [Zero α] [Add α] [Mul α] (stack : α)
    (inst : arm_dwt_instance_f32 α) (sig : List α) (blockSize : Nat) (buffer : List α)
    (out : arm_dwt_out_f32) (st : CascadeState α)
    (hbl : buffer.length < 4294967296) (hol : out.coeffs.length < 4294967296)
    (h : cascade stack inst sig blockSize buffer out = some (DWT_STATUS_SUCCESS, st)) :
    ((st.out.coeffs.take (inst.decLevel + 1)).map fun c => c.size).sum = st.copyCounter := by
  have hall := cascade_views_table stack inst sig blockSize buffer out st hbl hol h
  obtain ⟨hD, _, _, _, _, _, r, hr, _, _, hcc, _⟩ :=
    cascade_layout stack inst sig blockSize buffer out st hbl hol h
  have hrsz := levelSize_of_record stack inst sig blockSize _ r hr
  rw [sum_sizes st.out.coeffs
    (fun j => levelSize stack inst sig blockSize (min j (inst.decLevel - 1)))
    (inst.decLevel + 1)
    (fun j hj => by
      obtain ⟨c, hcj, _, hsz⟩ := hall j (by omega)
      exact ⟨c, hcj, hsz⟩)]
  rw [Finset.sum_range_succ, hcc, levelOffset_eq_sum, Nat.min_eq_right (by omega), hrsz]
  congr 1
  apply Finset.sum_congr rfl
  intro j hj
  rw [Finset.mem_range] at hj
  rw [Nat.min_eq_left (by omega)]

/-- C8: after a call of `arm_dwt_f32` that returns `DWT_STATUS_SUCCESS`, the `D + 1`
recorded views are contiguous slices of the internal buffer: `coeffs[0]` starts at
offset 0, `coeffs[i+1]` starts where `coeffs[i]` ends for every `i < D` (so a view ends
before any later view starts: increasing order, no overlap), the sizes of the views sum
to the final `copyCounter`, which does not exceed the length of the buffer, and
`coeffs[D].size = coeffs[D-1].size`. -/
theorem arm_dwt_f32_views_contiguous [Zero α] [Add α] [Mul α] (stack : α)
    (inst : arm_dwt_instance_f32 α) (sig : List α) (blockSize : Nat) (out : arm_dwt_out_f32)
    (buffer buf : List α) (res : arm_dwt_out_f32)
    (hb : inst.pInternalBuffer = some buffer) (hbl : buffer.length < 4294967296)
    (hout : out.coeffs.length = ARM_DWT_MAX_DEC_LEVEL + 1)
    (h : arm_dwt_f32 stack (some inst) (some sig) blockSize (some out)
      = some (DWT_STATUS_SUCCESS, some buf, some res)) :
    ∃ st, cascade stack inst sig blockSize buffer out = some (DWT_STATUS_SUCCESS, st) ∧
      st.out = res ∧ st.buffer = buf ∧
      (∃ c, res.coeffs[0]? = some c ∧ c.pCoeffs = 0) ∧
      (∀ i, i < inst.decLevel → ∃ c c2, res.coeffs[i]? = some c ∧
        res.coeffs[i + 1]? = some c2 ∧ c2.pCoeffs = c.pCoeffs + c.size) ∧
      (∀ i j, i < j → j ≤ inst.decLevel → ∃ c c2, res.coeffs[i]? = some c ∧
        res.coeffs[j]? = some c2 ∧ c.pCoeffs + c.size ≤ c2.pCoeffs) ∧
      ((res.coeffs.take (inst.decLevel + 1)).map fun c => c.size).sum = st.copyCounter ∧
      st.copyCounter ≤ buf.length ∧
      (∃ c c2, res.coeffs[inst.decLevel]? = some c ∧
        res.coeffs[inst.decLevel - 1]? = some c2 ∧ c.size = c2.size) := by
  obtain ⟨buffer2, st, e1, _, hrun, hbuf, hres⟩ :=
    arm_dwt_f32_success stack inst sig blockSize out buf res h
  rw [hb] at e1
  obtain rfl : buffer = buffer2 := Option.some.inj e1
  have hol : out.coeffs.length < 4294967296 := by rw [hout]; decide
  obtain ⟨hD, _, hlen, _, _, _, _, _, _, _, _, hle⟩ :=
    cascade_layout stack inst sig blockSize buffer out st hbl hol hrun
  have hall := cascade_views_table stack inst sig blockSize buffer out st hbl hol hrun
  have hsum := cascade_sizes_sum stack inst sig blockSize buffer out st hbl hol hrun
  subst hbuf hres
  refine ⟨st, hrun, rfl, rfl, ?_, ?_, ?_, hsum, ?_, ?_⟩
  · obtain ⟨c, hc0, hoff, _⟩ := hall 0 (by omega)
    exact ⟨c, hc0, by rw [hoff]; rfl⟩
  · intro i hi
    obtain ⟨c, hci, hoff, hsz⟩ := hall i (by omega)
    obtain ⟨c2, hci2, hoff2, _⟩ := hall (i + 1) (by omega)
    refine ⟨c, c2, hci, hci2, ?_⟩
    rw [hoff2, hoff, hsz, Nat.min_eq_left (by omega), levelOffset]
  · intro i j hij hj
    obtain ⟨c, hci, hoff, hsz⟩ := hall i (by omega)
    obtain ⟨c2, hcj, hoff2, _⟩ := hall j hj
    refine ⟨c, c2, hci, hcj, ?_⟩
    rw [hoff2, hoff, hsz, Nat.min_eq_left (by omega)]
    exact levelOffset_end_le stack inst sig blockSize hij
  · rw [hlen]; exact hle
  · obtain ⟨c, hcD, _, hsz⟩ := hall inst.decLevel (le_refl _)
    obtain ⟨c2, hcD2, _, hsz2⟩ := hall (inst.decLevel - 1) (by omega)
    refine ⟨c, c2, hcD, hcD2, ?_⟩
    rw [hsz, hsz2, Nat.min_eq_right (by omega), Nat.min_eq_left (by omega)]

/-- Witness for C8 -/
theorem arm_dwt_f32_views_contiguous_witness :
    ∃ st, cascade (7 : Int) sumDiffInstance [1, 2, 3, 4] 4 [7, 7, 7, 7, 7, 7, 7, 7] blankOut
        = some (DWT_STATUS_SUCCESS, st) ∧
      st.out = sumDiffOut ∧
      st.buffer = [1, 1, 4, 10, 7, 7, 7, 7] ∧ st.copyCounter = 4 :=
  have h := arm_dwt_f32_views_contiguous (7 : Int) sumDiffInstance [1, 2, 3, 4] 4 blankOut
    [7, 7, 7, 7, 7, 7, 7, 7] [1, 1, 4, 10, 7, 7, 7, 7]
    sumDiffOut
    rfl (by decide) rfl (by decide)
  h.elim fun st hst =>
    ⟨st, hst.1, hst.2.1, hst.2.2.1, by
      have e := hst.2.2.2.2.2.2.1
      rw [← e]
      decide⟩

/-! ### The planner against the cascade -/

/-- C1 fails on the code for an odd filter length.  With `L = 3`, `D = 2`, `N = 7` and a
declared capacity of 8 samples, `arm_dwt_check_f32` returns `DWT_STATUS_SUCCESS` (its
total is 4 + 2 + 2 = 8); the call on a buffer of exactly 8 cells writes outside the
buffer (no defined result), and on a buffer of 12 cells it returns `DWT_STATUS_SUCCESS`
with a final `copyCounter` of 4 + 3 + 3 = 10 samples, more than the declared capacity. -/
theorem arm_dwt_f32_overruns_declared_capacity :
    arm_dwt_check_f32 (some (oddInstance [0, 0, 0, 0, 0, 0, 0, 0])) 7 = DWT_STATUS_SUCCESS ∧
    arm_dwt_f32 (0 : Int) (some (oddInstance [0, 0, 0, 0, 0, 0, 0, 0]))
      (some [1, 2, 3, 4, 5, 6, 7]) 7 (some blankOut) = none ∧
    (arm_dwt_f32 (0 : Int) (some (oddInstance [0, 0, 0, 0, 0, 0, 0, 0, 0, 0, 0, 0]))
      (some [1, 2, 3, 4, 5, 6, 7]) 7 (some blankOut)).map (fun r => r.1)
        = some DWT_STATUS_SUCCESS ∧
    (cascade (0 : Int) (oddInstance [0, 0, 0, 0, 0, 0, 0, 0, 0, 0, 0, 0])
        [1, 2, 3, 4, 5, 6, 7] 7 [0, 0, 0, 0, 0, 0, 0, 0, 0, 0, 0, 0] blankOut).map
          (fun r => (r.1, r.2.copyCounter, r.2.out.coeffs.take 3))
        = some (DWT_STATUS_SUCCESS, 10, [⟨0, 4⟩, ⟨4, 3⟩, ⟨7, 3⟩]) ∧
    (oddInstance [0, 0, 0, 0, 0, 0, 0, 0, 0, 0, 0, 0]).internalBufferSize < 10 := by
  decide

theorem cascadeSize_shift (L N k : Nat) :
    cascadeSize L (cascadeSize L N 1) k = cascadeSize L N (k + 1) := by
  induction k with
  | zero => rfl
  | succ k ih => rw [cascadeSize, ih]; rfl

theorem planSize_eq_cascadeSize (L N : Nat) (hL : 2 ≤ L) (heven : L % 2 = 0) (hN : 1 ≤ N) :
    ∀ k, planSize L N k = cascadeSize L N k ∧ 1 ≤ cascadeSize L N k := by
  intro k
  induction k with
  | zero => exact ⟨rfl, hN⟩
  | succ k ih =>
    obtain ⟨h1, h2⟩ := ih
    rw [planSize, cascadeSize, h1]
    generalize cascadeSize L N k = s at *
    constructor <;> omega

theorem cascadeSize_bound (L N : Nat) (hLN : L ≤ N) (hfit : N + L < 4294967296) :
    ∀ k, cascadeSize L N k + L < 4294967296 := by
  intro k
  induction k with
  | zero => exact hfit
  | succ k ih =>
    rw [cascadeSize]
    generalize cascadeSize L N k = s at *
    omega

theorem successRecord_size [Zero α] [Add α] [Mul α] (stack : α)
    (pSignal : Option (List α)) (n : Nat) (out r : arm_dwt_1dec_out_f32 α)
    (inst : arm_dwt_instance_f32 α)
    (h : successRecord (arm_dwt_1dec_f32 stack pSignal n (some out) (some inst)) = some r) :
    r.size = outSize n inst.filtersLength := by
  rw [successRecord_eq_some] at h
  cases pSignal with
  | none => simp [arm_dwt_1dec_f32] at h
  | some sig => exact arm_dwt_1dec_f32_size stack sig n out r inst h

/-- Size of the output of each decomposition, when `blockSize + filtersLength` does not
wrap around. -/
theorem levelRecord_size [Zero α] [Add α] [Mul α] (stack : α)
    (inst : arm_dwt_instance_f32 α) (sig : List α) (N : Nat)
    (hL : 1 ≤ inst.filtersLength) (hLN : inst.filtersLength ≤ N)
    (hfit : N + inst.filtersLength < 4294967296) :
    ∀ k r, levelRecord stack inst sig N k = some r →
      r.size = cascadeSize inst.filtersLength N (k + 1) := by
  intro k
  induction k with
  | zero =>
    intro r h
    rw [levelRecord] at h
    rw [successRecord_size stack _ _ _ r inst h, outSize_eq N _ hL hfit]
    rfl
  | succ k ih =>
    intro r h
    rw [levelRecord] at h
    obtain ⟨r2, h2, h3⟩ := Option.bind_eq_some.mp h
    have hb := cascadeSize_bound inst.filtersLength N hLN hfit (k + 1)
    rw [successRecord_size stack _ _ _ r inst h3, ih r2 h2, outSize_eq _ _ hL hb]
    rfl

/-- Offsets of the levels in terms of the planner's sum, when every level up to `n`
produced an output. -/
theorem levelOffset_eq_planSum [Zero α] [Add α] [Mul α] (stack : α)
    (inst : arm_dwt_instance_f32 α) (sig : List α) (N : Nat)
    (hL2 : 2 ≤ inst.filtersLength) (heven : inst.filtersLength % 2 = 0)
    (hLN : inst.filtersLength ≤ N) (hfit : N + inst.filtersLength < 4294967296) :
    ∀ n, (∀ j, j < n → ∃ r, levelRecord stack inst sig N j = some r) →
      levelOffset stack inst sig N n = planSum inst.filtersLength N n := by
  intro n
  induction n with
  | zero => intro _; rfl
  | succ n ih =>
    intro h
    obtain ⟨r, hr⟩ := h n (by omega)
    rw [levelOffset, planSum, ih (fun j hj => h j (by omega)),
      levelSize_of_record stack inst sig N n r hr,
      levelRecord_size stack inst sig N (by omega) hLN hfit n r hr,
      (planSize_eq_cascadeSize inst.filtersLength N hL2 heven (by omega) (n + 1)).1]

/-- C2: for an even `L ≥ 2`, `N ≥ L` and either extension policy, after a call of
`arm_dwt_f32` that returns `DWT_STATUS_SUCCESS` the level count is in `1..10`, the total
`dwtOutSize` of `arm_dwt_check_f32` is the number of samples written (the sum of
`coeffs[0..D].size`), and at each level `k` in `1..D` the planner's `size_k` is the size
produced by `arm_dwt_1dec_f32`, `floor((size_{k-1} + L - 1) / 2)` (`cascadeSize`). -/
theorem arm_dwt_check_f32_total_eq_written [Zero α] [Add α] [Mul α] (stack : α)
    (inst : arm_dwt_instance_f32 α) (sig : List α) (N : Nat) (out : arm_dwt_out_f32)
    (buffer buf : List α) (res : arm_dwt_out_f32)
    (hb : inst.pInternalBuffer = some buffer) (hbl : buffer.length < 4294967296)
    (hout : out.coeffs.length = ARM_DWT_MAX_DEC_LEVEL + 1)
    (hL2 : 2 ≤ inst.filtersLength) (heven : inst.filtersLength % 2 = 0)
    (hLu : inst.filtersLength < 4294967296) (hLN : inst.filtersLength ≤ N)
    (hflag : inst.extrapolationFlag = ARM_DWT_EM_ZERO_PADDING ∨
      inst.extrapolationFlag = ARM_DWT_EM_SYMMETRIC)
    (h : arm_dwt_f32 stack (some inst) (some sig) N (some out)
      = some (DWT_STATUS_SUCCESS, some buf, some res)) :
    1 ≤ inst.decLevel ∧ inst.decLevel ≤ ARM_DWT_MAX_DEC_LEVEL ∧
    dwtOutSize inst.filtersLength inst.decLevel N
      = ((res.coeffs.take (inst.decLevel + 1)).map fun c => c.size).sum ∧
    ∀ k, 1 ≤ k → k ≤ inst.decLevel →
      ∃ r c, levelRecord stack inst sig N (k - 1) = some r ∧
        res.coeffs[k - 1]? = some c ∧ c.size = r.size ∧
        r.size = cascadeSize inst.filtersLength N k ∧
        (checkLoop inst.filtersLength k N 0).1 = r.size := by
  obtain ⟨buffer2, st, e1, _, hrun, hbuf, hres⟩ :=
    arm_dwt_f32_success stack inst sig N out buf res h
  rw [hb] at e1
  obtain rfl : buffer = buffer2 := Option.some.inj e1
  have hol : out.coeffs.length < 4294967296 := by rw [hout]; decide
  obtain ⟨hD, _, _, _, hDlt, hviews, r, hr, _, _, hcc, hle⟩ :=
    cascade_layout stack inst sig N buffer out st hbl hol hrun
  have hsum := cascade_sizes_sum stack inst sig N buffer out st hbl hol hrun
  subst hres
  have hfit : N + inst.filtersLength < 4294967296 := by
    obtain ⟨r0, hr0, _⟩ := hviews 0 (by omega)
    rw [levelRecord, successRecord_eq_some] at hr0
    obtain ⟨_, _, _, _, _, _, E, _, _, _, _, _, _, _, _, _, _, h3, _⟩ :=
      arm_dwt_1dec_f32_inv stack sig N _ r0 inst hr0
    obtain ⟨_, hf, _⟩ := extendSignal_recognised stack _ _ N sig E hL2 hLu
      (hflag.imp id (fun hs => ⟨hs, hLN⟩)) h3
    omega
  have hoff := levelOffset_eq_planSum stack inst sig N hL2 heven hLN hfit inst.decLevel
    (fun j hj => by
      obtain ⟨r2, hr2, _⟩ := hviews j hj
      exact ⟨r2, hr2⟩)
  have hrsz : r.size = planSize inst.filtersLength N inst.decLevel := by
    have e := levelRecord_size stack inst sig N (by omega) hLN hfit _ r hr
    rw [e, Nat.sub_add_cancel hD]
    exact (planSize_eq_cascadeSize inst.filtersLength N hL2 heven (by omega) _).1.symm
  have htot : planTotal inst.filtersLength N inst.decLevel = st.copyCounter := by
    unfold planTotal
    rw [hcc, hoff, hrsz]
  have hloop : ∀ k, k ≤ inst.decLevel →
      checkLoop inst.filtersLength k N 0
        = (planSize inst.filtersLength N k, planSum inst.filtersLength N k) := by
    intro k hk
    have hm := planTotal_mono inst.filtersLength N hL2 hk
    have e := checkLoop_eq inst.filtersLength hL2 hLu k N 0 (by omega) (by omega)
      (by unfold planTotal at hm htot; omega)
    rw [e, Nat.zero_add]
  refine ⟨hD, ?_, ?_, ?_⟩
  · rw [hout] at hDlt; omega
  · unfold dwtOutSize
    rw [hloop _ (le_refl _), hsum]
    exact (u32_add_eq _ _ (by unfold planTotal at htot; omega)).trans htot
  · intro k hk1 hk2
    obtain ⟨r2, hr2, hc2, _⟩ := hviews (k - 1) (by omega)
    have e := levelRecord_size stack inst sig N (by omega) hLN hfit _ r2 hr2
    rw [Nat.sub_add_cancel hk1] at e
    refine ⟨r2, _, hr2, hc2, rfl, e, ?_⟩
    rw [hloop k hk2, e]
    exact (planSize_eq_cascadeSize inst.filtersLength N hL2 heven (by omega) k).1

/-- Witness for C2 -/
theorem arm_dwt_check_f32_total_eq_written_witness :
    arm_dwt_f32 (7 : Int) (some sumDiffInstance) (some [1, 2, 3, 4]) 4 (some blankOut)
      = some (DWT_STATUS_SUCCESS, some [1, 1, 4, 10, 7, 7, 7, 7], some sumDiffOut) ∧
    dwtOutSize sumDiffInstance.filtersLength sumDiffInstance.decLevel 4
      = ((sumDiffOut.coeffs.take (sumDiffInstance.decLevel + 1)).map fun c => c.size).sum ∧
    dwtOutSize sumDiffInstance.filtersLength sumDiffInstance.decLevel 4 = 4 :=
  ⟨by decide,
    (arm_dwt_check_f32_total_eq_written (7 : Int) sumDiffInstance [1, 2, 3, 4] 4 blankOut
      [7, 7, 7, 7, 7, 7, 7, 7] [1, 1, 4, 10, 7, 7, 7, 7] sumDiffOut rfl (by decide) rfl
      (by decide) (by decide) (by decide) (by decide) (Or.inl rfl) (by decide)).2.2.1,
    by decide⟩

/-! ### Runs that succeed under zero padding -/

/-- The planner's sizes for an even `L` and a signal of at least `max 1 (L - 2)` samples:
they are the sizes `floor((size + L - 1) / 2)` of the decomposition, at least `L - 2` and
at least 1, at most `N`, and none exceeds the first. -/
theorem planSize_facts (L N : Nat) (hL2 : 2 ≤ L) (heven : L % 2 = 0) (hN : 1 ≤ N)
    (hLN : L ≤ N + 2) :
    ∀ k, L - 2 ≤ planSize L N k ∧ 1 ≤ planSize L N k ∧ planSize L N k ≤ N ∧
      planSize L N (k + 1) ≤ planSize L N 1 ∧
      planSize L N (k + 1) = (planSize L N k + L - 1) / 2 := by
  intro k
  induction k with
  | zero =>
    rw [planSize_one]
    simp only [planSize]
    omega
  | succ k ih =>
    obtain ⟨h1, h2, h3, h4, h5⟩ := ih
    have e : planSize L N (k + 1 + 1) = 1 + (planSize L N (k + 1) - 1) / 2 + L / 2 - 1 := rfl
    rw [planSize_one] at h4 ⊢
    rw [e]
    generalize planSize L N (k + 1) = s at *
    generalize planSize L N k = t at *
    omega

theorem planSum_le_planTotal (L N : Nat) (hL : 2 ≤ L) {k D : Nat} (h : k ≤ D) :
    planSum L N k + planSize L N k ≤ planTotal L N D :=
  planTotal_mono L N hL h

theorem dwtOutSize_eq_planTotal (L D N : Nat) (hN : 1 ≤ N) (hNu : N < 4294967296)
    (hL : 2 ≤ L) (hLu : L < 4294967296) (hfit : planTotal L N D < 4294967296) :
    dwtOutSize L D N = planTotal L N D := by
  unfold dwtOutSize
  rw [checkLoop_eq L hL hLu D N 0 hN hNu (by unfold planTotal at hfit; omega), Nat.zero_add]
  exact u32_add_eq _ _ hfit

/-- One decomposition on well-shaped scratch arrays succeeds under zero padding and
leaves well-shaped arrays. -/
theorem arm_dwt_1dec_f32_step [Zero α] [Add α] [Mul α] (stack : α) (sig : List α)
    (n S : Nat) (out : arm_dwt_1dec_out_f32 α) (inst : arm_dwt_instance_f32 α)
    (lo hi buffer : List α)
    (hlo : inst.pLowFilter = some lo) (hhi : inst.pHighFilter = some hi)
    (hbuf : inst.pInternalBuffer = some buffer)
    (hL2 : 2 ≤ inst.filtersLength)
    (hlol : inst.filtersLength ≤ lo.length) (hhil : inst.filtersLength ≤ hi.length)
    (hflag : inst.extrapolationFlag = ARM_DWT_EM_ZERO_PADDING)
    (hsig : n ≤ sig.length) (hfit : n + 2 * inst.filtersLength - 2 < 4294967296)
    (hsh : ScratchShape S out) (hS : (n + inst.filtersLength - 1) / 2 ≤ S) :
    ∃ r, arm_dwt_1dec_f32 stack (some sig) n (some out) (some inst)
        = some (DWT_STATUS_SUCCESS, some r) ∧
      r.size = (n + inst.filtersLength - 1) / 2 ∧ ScratchShape S r := by
  obtain ⟨A, D, hA, hD, lA, lD⟩ := hsh
  obtain ⟨r, hr⟩ := arm_dwt_1dec_f32_succeeds stack sig n out inst lo hi buffer A D
    hlo hhi hbuf hA hD hL2 hlol hhil (Or.inl hflag) hsig hfit (by omega) (by omega)
  refine ⟨r, hr, ?_, ?_⟩
  · rw [arm_dwt_1dec_f32_size stack sig n out r inst hr]
    exact outSize_eq n inst.filtersLength (by omega) (by omega)
  · obtain ⟨_, _, dstA, dstD, _, _, _, cA, cD, dstA2, dstD2, _, _, e3, e4, _, _, _, _, _,
      h6, h7, hrr⟩ := arm_dwt_1dec_f32_inv stack sig n out r inst hr
    rw [hA] at e3
    rw [hD] at e4
    obtain rfl : A = dstA := Option.some.inj e3
    obtain rfl : D = dstD := Option.some.inj e4
    refine ⟨dstA2, dstD2, by rw [hrr], by rw [hrr], ?_, ?_⟩
    · rw [arm_copy_f32_length _ _ _ _ _ h6, lA]
    · rw [arm_copy_f32_length _ _ _ _ _ h7, lD]

/-- The three statements that store one array of coefficients succeed when the array
holds `size` cells, the internal buffer has room for them and the index is inside
`coeffs`. -/
theorem storeCoeffs_succeeds (st : CascadeState α) (s : List α) (idx : Nat)
    (hs : st.xDecResult.size ≤ s.length)
    (hroom : st.copyCounter + st.xDecResult.size ≤ st.buffer.length)
    (hbl : st.buffer.length < 4294967296)
    (hidx : idx < st.out.coeffs.length) :
    ∃ st2, storeCoeffs st (some s) idx = some st2 ∧ st2.i = st.i ∧
      st2.xDecResult = st.xDecResult ∧
      st2.copyCounter = st.copyCounter + st.xDecResult.size ∧
      st2.buffer.length = st.buffer.length ∧
      st2.out.coeffs.length = st.out.coeffs.length := by
  have hc : ∃ buf, arm_copy_f32 s st.buffer st.copyCounter st.xDecResult.size = some buf := by
    unfold arm_copy_f32
    rw [if_pos ⟨hs, hroom⟩]
    exact ⟨_, rfl⟩
  obtain ⟨buf, hc⟩ := hc
  refine ⟨(⟨st.i, u32_add st.copyCounter st.xDecResult.size, st.xDecResult, buf,
    ⟨st.out.coeffs.set idx ⟨st.copyCounter, st.xDecResult.size⟩, st.out.decLevel⟩⟩ :
      CascadeState α), ?_, ?_⟩
  · unfold storeCoeffs setCoeffs
    rw [Option.some_bind, hc, Option.some_bind, if_pos hidx, Option.some_bind]
  · refine ⟨rfl, rfl, ?_, ?_, ?_⟩
    · exact u32_add_eq _ _ (by omega)
    · exact arm_copy_f32_length _ _ _ _ _ hc
    · simp only [List.length_set]

/-- Under zero padding, with an even `L` and room for the planner's total in the internal
buffer, the loop of `arm_dwt_f32` runs every remaining level and ends with `i = decLevel`. -/
theorem cascadeLoop_succeeds [Zero α] [Add α] [Mul α] (stack : α)
    (inst : arm_dwt_instance_f32 α) (N B : Nat) (lo hi buffer0 : List α)
    (hlo : inst.pLowFilter = some lo) (hhi : inst.pHighFilter = some hi)
    (hbuf0 : inst.pInternalBuffer = some buffer0)
    (hL2 : 2 ≤ inst.filtersLength) (heven : inst.filtersLength % 2 = 0)
    (hlol : inst.filtersLength ≤ lo.length) (hhil : inst.filtersLength ≤ hi.length)
    (hflag : inst.extrapolationFlag = ARM_DWT_EM_ZERO_PADDING)
    (hN : 1 ≤ N) (hLN : inst.filtersLength ≤ N + 2)
    (hfit : N + 2 * inst.filtersLength - 2 < 4294967296)
    (hD : inst.decLevel ≤ ARM_DWT_MAX_DEC_LEVEL)
    (hroom : planTotal inst.filtersLength N inst.decLevel ≤ B) (hB : B < 4294967296) :
    ∀ fuel (st : CascadeState α), 1 ≤ st.i → st.i ≤ inst.decLevel →
      inst.decLevel - st.i ≤ fuel →
      ScratchShape (planSize inst.filtersLength N 1) st.xDecResult →
      st.xDecResult.size = planSize inst.filtersLength N st.i →
      st.copyCounter = planSum inst.filtersLength N st.i →
      st.buffer.length = B → st.out.coeffs.length = ARM_DWT_MAX_DEC_LEVEL + 1 →
      ∃ st2, cascadeLoop stack inst fuel st = some st2 ∧ st2.i = inst.decLevel ∧
        ScratchShape (planSize inst.filtersLength N 1) st2.xDecResult ∧
        st2.xDecResult.size = planSize inst.filtersLength N inst.decLevel ∧
        st2.copyCounter = planSum inst.filtersLength N inst.decLevel ∧
        st2.buffer.length = B ∧ st2.out.coeffs.length = ARM_DWT_MAX_DEC_LEVEL + 1 := by
  have hD10 : inst.decLevel ≤ 10 := hD
  intro fuel
  induction fuel with
  | zero =>
    intro st h1 h2 h3 hsh hsz hcc hbl hol
    have e : st.i = inst.decLevel := by omega
    rw [e] at hsz hcc
    exact ⟨st, rfl, e, hsh, hsz, hcc, hbl, hol⟩
  | succ fuel ih =>
    intro st h1 h2 h3 hsh hsz hcc hbl hol
    rw [cascadeLoop_succ]
    by_cases hlt : st.i < inst.decLevel
    · rw [if_pos hlt]
      obtain ⟨k, hk⟩ : ∃ k, st.i = k + 1 := ⟨st.i - 1, by omega⟩
      rw [hk] at hsz hcc
      obtain ⟨f1, f2, f3, f4, f5⟩ := planSize_facts inst.filtersLength N hL2 heven hN hLN k
      obtain ⟨g1, g2, g3, g4, g5⟩ :=
        planSize_facts inst.filtersLength N hL2 heven hN hLN (k + 1)
      have htot := planTotal_mono inst.filtersLength N hL2
        (show k + 1 + 1 ≤ inst.decLevel by omega)
      have hps : planSum inst.filtersLength N (k + 1 + 1)
          = planSum inst.filtersLength N (k + 1) + planSize inst.filtersLength N (k + 1 + 1) :=
        rfl
      unfold planTotal at htot hroom
      obtain ⟨A, D, hA, hDc, lA, lD⟩ := hsh
      obtain ⟨r, hr, hrsz, hrsh⟩ := arm_dwt_1dec_f32_step stack A st.xDecResult.size
        (planSize inst.filtersLength N 1) st.xDecResult inst lo hi buffer0 hlo hhi hbuf0 hL2
        hlol hhil hflag (by rw [hsz, lA]; exact f4) (by rw [hsz]; omega)
        ⟨A, D, hA, hDc, lA, lD⟩ (by rw [hsz, ← g5]; exact g4)
      rw [hsz, ← g5] at hrsz
      rw [hA, hr]
      simp only []
      obtain ⟨Ar, Dr, hAr, hDr, lAr, lDr⟩ := hrsh
      obtain ⟨st2, hst, hi2, hx2, hc2, hb2, ho2⟩ := storeCoeffs_succeeds
        ({ st with xDecResult := r } : CascadeState α) Dr st.i
        (by show r.size ≤ Dr.length; rw [hrsz, lDr]; exact g4)
        (by show st.copyCounter + r.size ≤ st.buffer.length; rw [hcc, hrsz, hbl]; omega)
        (by show st.buffer.length < 4294967296; omega)
        (by show st.i < st.out.coeffs.length; rw [hol]
            have : ARM_DWT_MAX_DEC_LEVEL = 10 := rfl
            omega)
      rw [hDr, hst, Option.some_bind]
      have hi3 : u32_add st2.i 1 = k + 1 + 1 := by
        rw [hi2]
        show u32_add st.i 1 = k + 1 + 1
        rw [hk]
        exact u32_add_eq _ _ (by omega)
      rw [hi3]
      obtain ⟨st3, hl, q1, q2, q3, q4, q5, q6⟩ :=
        ih ({ st2 with i := k + 1 + 1 } : CascadeState α) (by show 1 ≤ k + 1 + 1; omega)
          (by show k + 1 + 1 ≤ inst.decLevel; omega)
          (by show inst.decLevel - (k + 1 + 1) ≤ fuel; omega)
          (by show ScratchShape _ st2.xDecResult; rw [hx2]; exact ⟨Ar, Dr, hAr, hDr, lAr, lDr⟩)
          (by show st2.xDecResult.size = planSize inst.filtersLength N (k + 1 + 1)
              rw [hx2]; exact hrsz)
          (by show st2.copyCounter = planSum inst.filtersLength N (k + 1 + 1)
              rw [hc2, hps]
              show st.copyCounter + r.size = _
              rw [hcc, hrsz])
          (by show st2.buffer.length = B; rw [hb2]; exact hbl)
          (by show st2.out.coeffs.length = _; rw [ho2]; exact hol)
      exact ⟨st3, hl, q1, q2, q3, q4, q5, q6⟩
    · rw [if_neg hlt]
      have e : st.i = inst.decLevel := by omega
      rw [e] at hsz hcc
      exact ⟨st, rfl, e, hsh, hsz, hcc, hbl, hol⟩

theorem decOutputSize_eq_planSize (N L : Nat) (hL : 2 ≤ L) (hLu : L < 4294967296)
    (hN : 1 ≤ N) (hNu : N < 4294967296) : decOutputSize N L = planSize L N 1 :=
  checkStep_eq L N hL hLu hN hNu

/-- Under zero padding, with an even `L ≥ 2`, a signal of `N ≥ max 1 (L - 2)` samples,
`1 ≤ D ≤ 10` and an internal buffer that holds the planner's total, the last branch of
`arm_dwt_f32` returns `DWT_STATUS_SUCCESS` after `D` decompositions. -/
theorem cascade_succeeds [Zero α] [Add α] [Mul α] (stack : α)
    (inst : arm_dwt_instance_f32 α) (sig : List α) (N : Nat) (buffer : List α)
    (out : arm_dwt_out_f32) (lo hi : List α)
    (hlo : inst.pLowFilter = some lo) (hhi : inst.pHighFilter = some hi)
    (hbuf : inst.pInternalBuffer = some buffer)
    (hL2 : 2 ≤ inst.filtersLength) (heven : inst.filtersLength % 2 = 0)
    (hlol : inst.filtersLength ≤ lo.length) (hhil : inst.filtersLength ≤ hi.length)
    (hflag : inst.extrapolationFlag = ARM_DWT_EM_ZERO_PADDING)
    (hN : 1 ≤ N) (hLN : inst.filtersLength ≤ N + 2) (hsig : N ≤ sig.length)
    (hfit : N + 2 * inst.filtersLength - 2 < 4294967296)
    (hD1 : 1 ≤ inst.decLevel) (hD : inst.decLevel ≤ ARM_DWT_MAX_DEC_LEVEL)
    (hroom : planTotal inst.filtersLength N inst.decLevel ≤ buffer.length)
    (hB : buffer.length < 4294967296)
    (hout : out.coeffs.length = ARM_DWT_MAX_DEC_LEVEL + 1) :
    ∃ st, cascade stack inst sig N buffer out = some (DWT_STATUS_SUCCESS, st) ∧
      st.copyCounter = planTotal inst.filtersLength N inst.decLevel ∧
      st.buffer.length = buffer.length := by
  have hD10 : inst.decLevel ≤ 10 := hD
  have hS := decOutputSize_eq_planSize N inst.filtersLength hL2 (by omega) hN (by omega)
  obtain ⟨f1, f2, f3, f4, f5⟩ := planSize_facts inst.filtersLength N hL2 heven hN hLN 0
  have hp0 : planSize inst.filtersLength N 0 = N := rfl
  have hps1 : planSum inst.filtersLength N 1 = planSize inst.filtersLength N 1 := by
    show 0 + planSize inst.filtersLength N 1 = _
    omega
  have htot1 := planTotal_mono inst.filtersLength N hL2 hD1
  obtain ⟨r, hr, hrsz, hrsh⟩ := arm_dwt_1dec_f32_step stack sig N
    (planSize inst.filtersLength N 1)
    ({ size := 0, pDCoeffs := some (List.replicate (planSize inst.filtersLength N 1) stack),
       pACoeffs := some (List.replicate (planSize inst.filtersLength N 1) stack) } :
      arm_dwt_1dec_out_f32 α) inst lo hi buffer hlo hhi hbuf hL2
    hlol hhil hflag hsig hfit
    ⟨_, _, rfl, rfl, List.length_replicate _ _, List.length_replicate _ _⟩
    (by rw [hp0] at f5; rw [← f5])
  rw [hp0] at f5
  rw [← f5] at hrsz
  obtain ⟨Ar, Dr, hAr, hDr, lAr, lDr⟩ := hrsh
  obtain ⟨st1, hst1, i1, x1, c1, b1, o1⟩ := storeCoeffs_succeeds
    (⟨0, 0, r, buffer, out⟩ : CascadeState α) Dr 0
    (by show r.size ≤ Dr.length; rw [hrsz, lDr])
    (by show 0 + r.size ≤ buffer.length
        rw [hrsz]; unfold planTotal at htot1 hroom; omega)
    hB (by show 0 < out.coeffs.length; rw [hout]; omega)
  obtain ⟨st2, hl, q1, q2, q3, q4, q5, q6⟩ :=
    cascadeLoop_succeeds stack inst N buffer.length lo hi buffer hlo hhi hbuf hL2 heven
      hlol hhil hflag hN hLN hfit hD hroom hB inst.decLevel
      ({ st1 with i := 1 } : CascadeState α) (le_refl _) hD1 (by show _ - 1 ≤ _; omega)
      (by show ScratchShape _ st1.xDecResult; rw [x1]; exact ⟨Ar, Dr, hAr, hDr, lAr, lDr⟩)
      (by show st1.xDecResult.size = _; rw [x1]; exact hrsz)
      (by show st1.copyCounter = _; rw [c1, hps1]; exact (Nat.zero_add _).trans hrsz)
      (by show st1.buffer.length = _; rw [b1])
      (by show st1.out.coeffs.length = _; rw [o1]; exact hout)
  obtain ⟨A2, D2, hA2, hD2, lA2, lD2⟩ := q2
  obtain ⟨st3, hst3, i3, x3, c3, b3, o3⟩ := storeCoeffs_succeeds st2 A2 inst.decLevel
    (by rw [q3, lA2]
        rcases Nat.eq_zero_or_pos (inst.decLevel - 1) with hz | hp
        · have : inst.decLevel = 1 := by omega
          rw [this]
        · obtain ⟨k, hk⟩ : ∃ k, inst.decLevel = k + 1 := ⟨inst.decLevel - 1, by omega⟩
          rw [hk]
          exact (planSize_facts inst.filtersLength N hL2 heven hN hLN k).2.2.2.1)
    (by rw [q3, q4, q5]; exact hroom)
    (by rw [q5]; exact hB)
    (by rw [q6]
        have : ARM_DWT_MAX_DEC_LEVEL = 10 := rfl
        omega)
  refine ⟨{ st3 with out := { st3.out with decLevel := inst.decLevel } }, ?_, ?_, ?_⟩
  · simp only [cascade, hS, hr, hDr, hst1, Option.some_bind, hl, q1, if_true, hA2, hst3]
  · show st3.copyCounter = _
    rw [c3, q3, q4]
    rfl
  · show st3.buffer.length = _
    rw [b3, q5]

/-- Under zero padding, a call of `arm_dwt_f32` with an even `L ≥ 2`, a signal of
`N ≥ max 1 (L - 2)` samples, `1 ≤ D ≤ 10`, filters of `L` taps, an output structure of
`ARM_DWT_MAX_DEC_LEVEL + 1` views and an internal buffer at least as large as its declared
capacity, itself at least the planner's total, returns `DWT_STATUS_SUCCESS`. -/
theorem arm_dwt_f32_succeeds [Zero α] [Add α] [Mul α] (stack : α)
    (inst : arm_dwt_instance_f32 α) (sig : List α) (N : Nat) (buffer : List α)
    (out : arm_dwt_out_f32) (lo hi : List α)
    (hlo : inst.pLowFilter = some lo) (hhi : inst.pHighFilter = some hi)
    (hbuf : inst.pInternalBuffer = some buffer)
    (hL2 : 2 ≤ inst.filtersLength) (heven : inst.filtersLength % 2 = 0)
    (hlol : inst.filtersLength ≤ lo.length) (hhil : inst.filtersLength ≤ hi.length)
    (hflag : inst.extrapolationFlag = ARM_DWT_EM_ZERO_PADDING)
    (hN : 1 ≤ N) (hLN : inst.filtersLength ≤ N + 2) (hsig : N ≤ sig.length)
    (hfit : N + 2 * inst.filtersLength - 2 < 4294967296)
    (hD1 : 1 ≤ inst.decLevel) (hD : inst.decLevel ≤ ARM_DWT_MAX_DEC_LEVEL)
    (hcap : planTotal inst.filtersLength N inst.decLevel ≤ inst.internalBufferSize)
    (hphys : inst.internalBufferSize ≤ buffer.length)
    (hB : buffer.length < 4294967296)
    (hout : out.coeffs.length = ARM_DWT_MAX_DEC_LEVEL + 1) :
    ∃ buf res, arm_dwt_f32 stack (some inst) (some sig) N (some out)
      = some (DWT_STATUS_SUCCESS, some buf, some res) := by
  obtain ⟨st, hst, _, _⟩ := cascade_succeeds stack inst sig N buffer out lo hi hlo hhi hbuf
    hL2 heven hlol hhil hflag hN hLN hsig hfit hD1 hD (by omega) hB hout
  have hchk : arm_dwt_check_f32 (some inst) N = DWT_STATUS_SUCCESS := by
    simp only [arm_dwt_check_f32]
    rw [dwtOutSize_eq_planTotal _ _ N hN (by omega) hL2 (by omega) (by omega), if_pos hcap]
  refine ⟨st.buffer, st.out, ?_⟩
  simp only [arm_dwt_f32, hhi, hlo, hbuf, hchk, ne_eq, not_true_eq_false, if_false, hst,
    Option.map_some']

/-! ### Calls that the capacity check rejects -/

theorem arm_dwt_check_f32_ne_success (inst : arm_dwt_instance_f32 α) (N : Nat) :
    arm_dwt_check_f32 (some inst) N ≠ DWT_STATUS_SUCCESS ↔
      inst.internalBufferSize < dwtOutSize inst.filtersLength inst.decLevel N := by
  simp only [arm_dwt_check_f32]
  split
  · rename_i h
    constructor
    · intro hne; exact absurd rfl hne
    · intro hlt; omega
  · rename_i h
    constructor
    · intro _; omega
    · intro _ hne; cases hne

/-- When the capacity check does not return `DWT_STATUS_SUCCESS`, `arm_dwt_f32` returns
`DWT_STATUS_INVALID_PARAMETER` and gives back the output structure and the internal
buffer as it received them. -/
theorem arm_dwt_f32_of_check_failure [Zero α] [Add α] [Mul α] (stack : α)
    (pDWTInstance : Option (arm_dwt_instance_f32 α)) (pSignal : Option (List α))
    (blockSize : Nat) (pDWTOut : Option arm_dwt_out_f32)
    (h : arm_dwt_check_f32 pDWTInstance blockSize ≠ DWT_STATUS_SUCCESS) :
    arm_dwt_f32 stack pDWTInstance pSignal blockSize pDWTOut
      = some (DWT_STATUS_INVALID_PARAMETER,
          pDWTInstance.bind (fun inst => inst.pInternalBuffer), pDWTOut) := by
  cases pDWTInstance with
  | none => cases pSignal <;> cases pDWTOut <;> rfl
  | some inst =>
    cases pSignal with
    | none => cases pDWTOut <;> rfl
    | some sig =>
      cases pDWTOut with
      | none => rfl
      | some out =>
        simp only [arm_dwt_f32, Option.some_bind]
        cases hH : inst.pHighFilter with
        | none => rfl
        | some hi =>
          cases hLo : inst.pLowFilter with
          | none => rfl
          | some lo =>
            cases hB : inst.pInternalBuffer with
            | none => rfl
            | some buffer =>
              simp only [if_pos h]

/-- C11 as stated fails: with a declared capacity of three samples, one less than the
planner's total of four, `arm_dwt_check_f32` returns `DWT_STATUS_BUFFER_OVERFLOW` but
`arm_dwt_f32` returns `DWT_STATUS_INVALID_PARAMETER`, not `DWT_STATUS_BUFFER_OVERFLOW`. -/
theorem arm_dwt_f32_short_arena_not_overflow_status :
    planTotal shortInstance.filtersLength 4 shortInstance.decLevel
      = shortInstance.internalBufferSize + 1 ∧
    arm_dwt_check_f32 (some shortInstance) 4 = DWT_STATUS_BUFFER_OVERFLOW ∧
    arm_dwt_f32 (7 : Int) (some shortInstance) (some [1, 2, 3, 4]) 4 (some blankOut)
      = some (DWT_STATUS_INVALID_PARAMETER, some [7, 7, 7, 7, 7, 7, 7, 7], some blankOut) ∧
    ¬ ∃ buf res,
      arm_dwt_f32 (7 : Int) (some shortInstance) (some [1, 2, 3, 4]) 4 (some blankOut)
        = some (DWT_STATUS_BUFFER_OVERFLOW, buf, res) := by
  have h : arm_dwt_f32 (7 : Int) (some shortInstance) (some [1, 2, 3, 4]) 4 (some blankOut)
      = some (DWT_STATUS_INVALID_PARAMETER, some [7, 7, 7, 7, 7, 7, 7, 7], some blankOut) := by
    decide
  refine ⟨by decide, by decide, h, ?_⟩
  rintro ⟨buf, res, h2⟩
  rw [h] at h2
  simp only [Option.some.injEq, Prod.mk.injEq] at h2
  exact absurd h2.1 (by decide)

/-- C11, amended: for a non-null instance whose planner total, the `dwtOutSize` that
`arm_dwt_check_f32` computes, exceeds the declared capacity `internalBufferSize`,
`arm_dwt_check_f32` returns `DWT_STATUS_BUFFER_OVERFLOW` and `arm_dwt_f32` returns
`DWT_STATUS_INVALID_PARAMETER`, whatever the signal and the output structure. -/
theorem arm_dwt_f32_capacity_exceeded [Zero α] [Add α] [Mul α] (stack : α)
    (inst : arm_dwt_instance_f32 α) (pSignal : Option (List α)) (blockSize : Nat)
    (pDWTOut : Option arm_dwt_out_f32)
    (h : inst.internalBufferSize < dwtOutSize inst.filtersLength inst.decLevel blockSize) :
    arm_dwt_check_f32 (some inst) blockSize = DWT_STATUS_BUFFER_OVERFLOW ∧
    ∃ buf res, arm_dwt_f32 stack (some inst) pSignal blockSize pDWTOut
      = some (DWT_STATUS_INVALID_PARAMETER, buf, res) := by
  constructor
  · simp only [arm_dwt_check_f32]
    rw [if_neg (by omega)]
  · exact ⟨_, _, arm_dwt_f32_of_check_failure stack (some inst) pSignal blockSize pDWTOut
      ((arm_dwt_check_f32_ne_success inst blockSize).mpr h)⟩

/-- Witness for C11 (amended) -/
theorem arm_dwt_f32_capacity_exceeded_witness :
    shortInstance.internalBufferSize
      < dwtOutSize shortInstance.filtersLength shortInstance.decLevel 4 ∧
    arm_dwt_check_f32 (some shortInstance) 4 = DWT_STATUS_BUFFER_OVERFLOW ∧
    ∃ buf res, arm_dwt_f32 (7 : Int) (some shortInstance) (some [1, 2, 3, 4]) 4 (some blankOut)
      = some (DWT_STATUS_INVALID_PARAMETER, buf, res) :=
  ⟨by decide,
    arm_dwt_f32_capacity_exceeded (7 : Int) shortInstance (some [1, 2, 3, 4]) 4 (some blankOut)
      (by decide)⟩

/-- C12: when `arm_dwt_check_f32` does not return `DWT_STATUS_SUCCESS` (for a non-null
instance: when the planner total `dwtOutSize` is larger than `internalBufferSize`),
`arm_dwt_f32` returns a status other than `DWT_STATUS_SUCCESS` and leaves the internal
buffer and the output structure, all `coeffs` entries and `decLevel`, as they were. -/
theorem arm_dwt_f32_rejected_call_writes_nothing [Zero α] [Add α] [Mul α] (stack : α)
    (pDWTInstance : Option (arm_dwt_instance_f32 α)) (pSignal : Option (List α))
    (blockSize : Nat) (pDWTOut : Option arm_dwt_out_f32)
    (h : arm_dwt_check_f32 pDWTInstance blockSize ≠ DWT_STATUS_SUCCESS) :
    (∀ inst, pDWTInstance = some inst →
      inst.internalBufferSize < dwtOutSize inst.filtersLength inst.decLevel blockSize) ∧
    ∃ status, status ≠ DWT_STATUS_SUCCESS ∧
      arm_dwt_f32 stack pDWTInstance pSignal blockSize pDWTOut
        = some (status, pDWTInstance.bind (fun inst => inst.pInternalBuffer), pDWTOut) := by
  constructor
  · intro inst hi
    subst hi
    exact (arm_dwt_check_f32_ne_success inst blockSize).mp h
  · exact ⟨DWT_STATUS_INVALID_PARAMETER, by decide,
      arm_dwt_f32_of_check_failure stack pDWTInstance pSignal blockSize pDWTOut h⟩

/-- Witness for C12 -/
theorem arm_dwt_f32_rejected_call_writes_nothing_witness :
    arm_dwt_check_f32 (some shortInstance) 4 ≠ DWT_STATUS_SUCCESS ∧
    ∃ status, status ≠ DWT_STATUS_SUCCESS ∧
      arm_dwt_f32 (7 : Int) (some shortInstance) (some [1, 2, 3, 4]) 4 (some blankOut)
        = some (status, (some shortInstance).bind (fun inst => inst.pInternalBuffer),
            some blankOut) :=
  ⟨by decide,
    (arm_dwt_f32_rejected_call_writes_nothing (7 : Int) (some shortInstance)
      (some [1, 2, 3, 4]) 4 (some blankOut) (by decide)).2⟩

/-! ### Statuses of `arm_dwt_1dec_f32` -/

/-- With a required input absent, `arm_dwt_1dec_f32` returns
`DWT_STATUS_INVALID_PARAMETER` and leaves the output structure as it is. -/
theorem arm_dwt_1dec_f32_absent [Zero α] [Add α] [Mul α] (stack : α)
    (pSignal : Option (List α)) (blockSize : Nat)
    (pDWTOut : Option (arm_dwt_1dec_out_f32 α))
    (pDWTInstance : Option (arm_dwt_instance_f32 α))
    (h : inputsPresent pSignal pDWTOut pDWTInstance = false) :
    arm_dwt_1dec_f32 stack pSignal blockSize pDWTOut pDWTInstance
      = some (DWT_STATUS_INVALID_PARAMETER, pDWTOut) := by
  cases pSignal with
  | none => rfl
  | some sig =>
    cases pDWTOut with
    | none => rfl
    | some out =>
      cases pDWTInstance with
      | none => rfl
      | some inst =>
        simp only [arm_dwt_1dec_f32]
        cases hH : inst.pHighFilter with
        | none => rfl
        | some hi =>
          cases hLo : inst.pLowFilter with
          | none => rfl
          | some lo =>
            cases hB : inst.pInternalBuffer with
            | none => rfl
            | some buffer =>
              cases hA : out.pACoeffs with
              | none => rfl
              | some dstA =>
                cases hD : out.pDCoeffs with
                | none => rfl
                | some dstD =>
                  simp [inputsPresent, hH, hLo, hB, hA, hD] at h

/-- With every required input present, a call of `arm_dwt_1dec_f32` that returns has
the status `DWT_STATUS_SUCCESS`: there is no other test in the function. -/
theorem arm_dwt_1dec_f32_present [Zero α] [Add α] [Mul α] (stack : α)
    (pSignal : Option (List α)) (blockSize : Nat)
    (pDWTOut : Option (arm_dwt_1dec_out_f32 α))
    (pDWTInstance : Option (arm_dwt_instance_f32 α))
    (h : inputsPresent pSignal pDWTOut pDWTInstance = true)
    (status : arm_dwt_status) (o : Option (arm_dwt_1dec_out_f32 α))
    (hr : arm_dwt_1dec_f32 stack pSignal blockSize pDWTOut pDWTInstance = some (status, o)) :
    status = DWT_STATUS_SUCCESS ∧ ∃ r, o = some r := by
  cases pSignal with
  | none => simp [inputsPresent] at h
  | some sig =>
    cases pDWTOut with
    | none => simp [inputsPresent] at h
    | some out =>
      cases pDWTInstance with
      | none => simp [inputsPresent] at h
      | some inst =>
        simp only [inputsPresent, Bool.and_eq_true, Option.isSome_iff_exists] at h
        obtain ⟨⟨⟨⟨⟨hi, hH⟩, ⟨lo, hLo⟩⟩, ⟨buffer, hB⟩⟩, ⟨dstA, hA⟩⟩, ⟨dstD, hD⟩⟩ := h
        simp only [arm_dwt_1dec_f32, hH, hLo, hB, hA, hD] at hr
        obtain ⟨_, _, hr⟩ := Option.bind_eq_some.mp hr
        obtain ⟨fLo, h1, hr⟩ := Option.bind_eq_some.mp hr
        obtain ⟨fHi, h2, hr⟩ := Option.bind_eq_some.mp hr
        obtain ⟨E, h3, hr⟩ := Option.bind_eq_some.mp hr
        obtain ⟨cA, h4, hr⟩ := Option.bind_eq_some.mp hr
        obtain ⟨cD, h5, hr⟩ := Option.bind_eq_some.mp hr
        obtain ⟨dstA2, h6, hr⟩ := Option.bind_eq_some.mp hr
        obtain ⟨dstD2, h7, hr⟩ := Option.bind_eq_some.mp hr
        simp only [Option.some.injEq, Prod.mk.injEq] at hr
        exact ⟨hr.1.symm, _, hr.2.symm⟩

/-- C16 as stated fails for `filtersLength = 0`: with every pointer non-null the call
passes both guards and is not rejected.  The declaration `preSignal[ filtersLength - 2 ]`
then asks for `4294967294` cells and the call has no defined result, under either
extension policy; it does not return `DWT_STATUS_INVALID_PARAMETER`. -/
theorem arm_dwt_1dec_f32_zero_taps_not_rejected :
    (noTapsInstance ARM_DWT_EM_ZERO_PADDING).filtersLength = 0 ∧
    inputsPresent (some ([1, 2, 3] : List Int))
        (some { size := 0, pDCoeffs := some [7, 7], pACoeffs := some [7, 7] })
        (some (noTapsInstance ARM_DWT_EM_ZERO_PADDING)) = true ∧
    u32_sub (noTapsInstance ARM_DWT_EM_ZERO_PADDING).filtersLength 2 = 4294967294 ∧
    arm_dwt_1dec_f32 (9 : Int) (some [1, 2, 3]) 3
        (some { size := 0, pDCoeffs := some [7, 7], pACoeffs := some [7, 7] })
        (some (noTapsInstance ARM_DWT_EM_ZERO_PADDING))
      = none ∧
    arm_dwt_1dec_f32 (9 : Int) (some [1, 2, 3]) 3
        (some { size := 0, pDCoeffs := some [7, 7], pACoeffs := some [7, 7] })
        (some (noTapsInstance ARM_DWT_EM_SYMMETRIC))
      = none ∧
    arm_dwt_1dec_f32 (9 : Int) (some [1, 2, 3]) 3
        (some { size := 0, pDCoeffs := some [7, 7], pACoeffs := some [7, 7] })
        (some (noTapsInstance ARM_DWT_EM_ZERO_PADDING))
      ≠ some (DWT_STATUS_INVALID_PARAMETER,
          some { size := 0, pDCoeffs := some [7, 7], pACoeffs := some [7, 7] }) :=
  ⟨by decide, by decide, by decide, by decide, by decide, by decide⟩

/-- With every required input present and fewer than two taps, the call reaches the
declaration of `preSignal`, whose size wraps around, and has no defined result. -/
theorem arm_dwt_1dec_f32_few_taps [Zero α] [Add α] [Mul α] (stack : α)
    (pSignal : Option (List α)) (blockSize : Nat)
    (pDWTOut : Option (arm_dwt_1dec_out_f32 α)) (inst : arm_dwt_instance_f32 α)
    (h : inputsPresent pSignal pDWTOut (some inst) = true) (hL : inst.filtersLength < 2) :
    arm_dwt_1dec_f32 stack pSignal blockSize pDWTOut (some inst) = none := by
  cases pSignal with
  | none => simp [inputsPresent] at h
  | some sig =>
    cases pDWTOut with
    | none => simp [inputsPresent] at h
    | some out =>
      simp only [inputsPresent, Bool.and_eq_true, Option.isSome_iff_exists] at h
      obtain ⟨⟨⟨⟨⟨hi, hH⟩, ⟨lo, hLo⟩⟩, ⟨buffer, hB⟩⟩, ⟨dstA, hA⟩⟩, ⟨dstD, hD⟩⟩ := h
      have hp : preSignalCells inst.filtersLength = none := by
        unfold preSignalCells
        rw [if_neg (by omega)]
      simp only [arm_dwt_1dec_f32, hH, hLo, hB, hA, hD, hp, Option.none_bind]

/-- C16, amended: `arm_dwt_1dec_f32` returns `DWT_STATUS_INVALID_PARAMETER` whenever a
required input is absent (signal, output structure, instance, either filter, the internal
buffer or either coefficient array is null), and then leaves the output structure as it
is; when every required input is present it never returns that status, whatever
`filtersLength` is: a call that returns has the status `DWT_STATUS_SUCCESS`, and with
`filtersLength = 0` (or 1) the call has no defined result. -/
theorem arm_dwt_1dec_f32_invalid_parameter_iff [Zero α] [Add α] [Mul α] (stack : α)
    (pSignal : Option (List α)) (blockSize : Nat)
    (pDWTOut : Option (arm_dwt_1dec_out_f32 α))
    (pDWTInstance : Option (arm_dwt_instance_f32 α)) :
    (inputsPresent pSignal pDWTOut pDWTInstance = false →
      arm_dwt_1dec_f32 stack pSignal blockSize pDWTOut pDWTInstance
        = some (DWT_STATUS_INVALID_PARAMETER, pDWTOut)) ∧
    (inputsPresent pSignal pDWTOut pDWTInstance = true →
      ∀ status o,
        arm_dwt_1dec_f32 stack pSignal blockSize pDWTOut pDWTInstance = some (status, o) →
        status = DWT_STATUS_SUCCESS) ∧
    (inputsPresent pSignal pDWTOut pDWTInstance = true →
      ∀ inst, pDWTInstance = some inst → inst.filtersLength < 2 →
        arm_dwt_1dec_f32 stack pSignal blockSize pDWTOut pDWTInstance = none) :=
  ⟨arm_dwt_1dec_f32_absent stack pSignal blockSize pDWTOut pDWTInstance,
    fun h status o hr =>
      (arm_dwt_1dec_f32_present stack pSignal blockSize pDWTOut pDWTInstance h status o hr).1,
    fun h inst hi hL => by
      subst hi
      exact arm_dwt_1dec_f32_few_taps stack pSignal blockSize pDWTOut inst h hL⟩

/-- Witness for C16 (amended) -/
theorem arm_dwt_1dec_f32_invalid_parameter_iff_witness :
    arm_dwt_1dec_f32 (7 : Int) (some [1, 2, 3, 4]) 4
        (some { size := 0, pDCoeffs := none, pACoeffs := some [7, 7, 7] })
        (some sumDiffInstance)
      = some (DWT_STATUS_INVALID_PARAMETER,
          some { size := 0, pDCoeffs := none, pACoeffs := some [7, 7, 7] }) ∧
    (∀ status o,
      arm_dwt_1dec_f32 (7 : Int) (some [1, 2, 3, 4]) 4
          (some { size := 0, pDCoeffs := some [7, 7, 7], pACoeffs := some [7, 7, 7] })
          (some sumDiffInstance) = some (status, o) →
      status = DWT_STATUS_SUCCESS) ∧
    arm_dwt_1dec_f32 (7 : Int) (some [1, 2, 3, 4]) 4
        (some { size := 0, pDCoeffs := some [7, 7, 7], pACoeffs := some [7, 7, 7] })
        (some sumDiffInstance)
      = some (DWT_STATUS_SUCCESS,
          some { size := 2, pDCoeffs := some [1, 1, 7], pACoeffs := some [3, 7, 7] }) ∧
    arm_dwt_1dec_f32 (7 : Int) (some [1, 2, 3]) 3
        (some { size := 0, pDCoeffs := some [7, 7], pACoeffs := some [7, 7] })
        (some (noTapsInstance ARM_DWT_EM_ZERO_PADDING))
      = none :=
  ⟨(arm_dwt_1dec_f32_invalid_parameter_iff (7 : Int) (some [1, 2, 3, 4]) 4
      (some { size := 0, pDCoeffs := none, pACoeffs := some [7, 7, 7] })
      (some sumDiffInstance)).1 (by decide),
    (arm_dwt_1dec_f32_invalid_parameter_iff (7 : Int) (some [1, 2, 3, 4]) 4
      (some { size := 0, pDCoeffs := some [7, 7, 7], pACoeffs := some [7, 7, 7] })
      (some sumDiffInstance)).2.1 (by decide),
    by decide,
    (arm_dwt_1dec_f32_invalid_parameter_iff (7 : Int) (some [1, 2, 3]) 3
      (some { size := 0, pDCoeffs := some [7, 7], pACoeffs := some [7, 7] })
      (some (noTapsInstance ARM_DWT_EM_ZERO_PADDING))).2.2 (by decide)
      (noTapsInstance ARM_DWT_EM_ZERO_PADDING) rfl (by decide)⟩

/-! ### A level count of 0 -/

theorem dwtOutSize_zero_levels (L N : Nat) : dwtOutSize L 0 N = N % 4294967296 := by
  simp [dwtOutSize, checkLoop, u32_add]

/-- With `decLevel = 0` and no null pointer in the instance, the last branch of
`arm_dwt_f32` returns `DWT_STATUS_ERROR` after the first decomposition has been stored. -/
theorem cascade_zero_levels [Zero α] [Add α] [Mul α] (stack : α)
    (inst : arm_dwt_instance_f32 α) (sig : List α) (N : Nat) (buffer : List α)
    (out : arm_dwt_out_f32) (hD : inst.decLevel = 0)
    (hH : inst.pHighFilter.isSome = true) (hLo : inst.pLowFilter.isSome = true)
    (hB : inst.pInternalBuffer.isSome = true)
    (status : arm_dwt_status) (st : CascadeState α)
    (h : cascade stack inst sig N buffer out = some (status, st)) :
    status = DWT_STATUS_ERROR ∧
    ∃ r, levelRecord stack inst sig N 0 = some r ∧
      st.buffer = detailOf r ++ buffer.drop r.size ∧
      st.out = { out with coeffs := out.coeffs.set 0 ⟨0, r.size⟩ } := by
  have hpres : inputsPresent (some sig)
      (some (scratchRecord stack N inst.filtersLength)) (some inst) = true := by
    simp [inputsPresent, hH, hLo, hB, scratchRecord]
  have hcases := arm_dwt_1dec_f32_present stack (some sig) N
    (some (scratchRecord stack N inst.filtersLength)) (some inst) hpres
  have hlev : levelRecord stack inst sig N 0
      = successRecord (arm_dwt_1dec_f32 stack (some sig) N
          (some (scratchRecord stack N inst.filtersLength)) (some inst)) := rfl
  unfold cascade at h
  simp only [] at h
  change (match arm_dwt_1dec_f32 stack (some sig) N
      (some (scratchRecord stack N inst.filtersLength)) (some inst) with
    | none => none
    | some (DWT_STATUS_SUCCESS, some r) => _
    | some _ => _) = _ at h
  cases hx : arm_dwt_1dec_f32 stack (some sig) N
      (some (scratchRecord stack N inst.filtersLength)) (some inst) with
  | none => rw [hx] at h; simp at h
  | some x =>
    obtain ⟨s1, o⟩ := x
    obtain ⟨hs1, r, ho⟩ := hcases s1 o hx
    subst hs1 ho
    rw [hx] at h hlev
    simp only [] at h
    obtain ⟨st1, hst1, h⟩ := Option.bind_eq_some.mp h
    obtain ⟨s, buf, hsrc, hcopy, hidx, hst1eq⟩ := storeCoeffs_some _ st1 _ _ hst1
    rw [hD, cascadeLoop, Option.some_bind] at h
    simp only [show ((1 : Nat) = 0) = False from by simp, if_false, Option.some.injEq,
      Prod.mk.injEq] at h
    obtain ⟨h1, h2⟩ := h
    obtain ⟨_, _, hbuf⟩ := arm_copy_f32_some _ _ _ _ _ hcopy
    refine ⟨h1.symm, r, hlev, ?_, ?_⟩
    · rw [← h2, hst1eq]
      show buf = _
      rw [hbuf]
      simp only [detailOf, hsrc, Option.getD_some, List.take_zero, List.nil_append,
        Nat.zero_add]
    · rw [← h2, hst1eq]

/-- C13 as stated fails.  With `decLevel = 0` and a signal of four samples the call
returns `DWT_STATUS_ERROR`, not `DWT_STATUS_INVALID_PARAMETER`, after the two detail
coefficients of the first decomposition have been written at the start of the internal
buffer and recorded in `coeffs[0]`.  With `decLevel = 11` the capacity check passes and
the call has no defined result: it stores a view in `coeffs[11]`, outside the array. -/
theorem arm_dwt_f32_level_count_not_validated :
    noLevelInstance.decLevel = 0 ∧
    arm_dwt_f32 (7 : Int) (some noLevelInstance) (some [1, 2, 3, 4]) 4 (some blankOut)
      = some (DWT_STATUS_ERROR, some [1, 1, 7, 7, 7, 7, 7, 7],
          some { coeffs := blankOut.coeffs.set 0 ⟨0, 2⟩, decLevel := 0 }) ∧
    arm_dwt_f32 (7 : Int) (some noLevelInstance) (some [1, 2, 3, 4]) 4 (some blankOut)
      ≠ some (DWT_STATUS_INVALID_PARAMETER, some [7, 7, 7, 7, 7, 7, 7, 7], some blankOut) ∧
    ARM_DWT_MAX_DEC_LEVEL < elevenLevelInstance.decLevel ∧
    arm_dwt_check_f32 (some elevenLevelInstance) 4 = DWT_STATUS_SUCCESS ∧
    arm_dwt_f32 (7 : Int) (some elevenLevelInstance) (some [1, 2, 3, 4]) 4 (some blankOut)
      = none :=
  ⟨by decide, by decide, by decide, by decide, by decide, by decide⟩

/-- C13, amended, for a level count of 0 (a level count above `ARM_DWT_MAX_DEC_LEVEL` is
not compared with the bound).  When `decLevel = 0`, a call with well-formed inputs under
zero padding whose capacity check passes returns `DWT_STATUS_ERROR`; and every call that
returns either returns `DWT_STATUS_INVALID_PARAMETER` with the internal buffer and the
output structure untouched (a filter is null or the capacity check failed), or returns
`DWT_STATUS_ERROR` after the detail coefficients of the first decomposition have been
written at the start of the internal buffer and recorded in `coeffs[0]`, the output
`decLevel` being left as it was. -/
theorem arm_dwt_f32_zero_levels [Zero α] [Add α] [Mul α] (stack : α)
    (inst : arm_dwt_instance_f32 α) (sig : List α) (N : Nat) (out : arm_dwt_out_f32)
    (buffer : List α) (hD : inst.decLevel = 0) (hb : inst.pInternalBuffer = some buffer) :
    (∀ lo hi, inst.pLowFilter = some lo → inst.pHighFilter = some hi →
      inst.filtersLength ≤ lo.length → inst.filtersLength ≤ hi.length →
      2 ≤ inst.filtersLength → inst.filtersLength % 2 = 0 →
      inst.extrapolationFlag = ARM_DWT_EM_ZERO_PADDING →
      1 ≤ N → inst.filtersLength ≤ N + 2 → N ≤ sig.length →
      N + 2 * inst.filtersLength - 2 < 4294967296 →
      N ≤ inst.internalBufferSize → (N + inst.filtersLength - 1) / 2 ≤ buffer.length →
      buffer.length < 4294967296 → 0 < out.coeffs.length →
      ∃ buf res, arm_dwt_f32 stack (some inst) (some sig) N (some out)
        = some (DWT_STATUS_ERROR, buf, res)) ∧
    ∀ status buf res,
      arm_dwt_f32 stack (some inst) (some sig) N (some out) = some (status, buf, res) →
      (status = DWT_STATUS_INVALID_PARAMETER ∧ buf = some buffer ∧ res = some out ∧
        (inst.pHighFilter = none ∨ inst.pLowFilter = none ∨
          arm_dwt_check_f32 (some inst) N ≠ DWT_STATUS_SUCCESS)) ∨
      (status = DWT_STATUS_ERROR ∧
        arm_dwt_check_f32 (some inst) N = DWT_STATUS_SUCCESS ∧
        ∃ r, levelRecord stack inst sig N 0 = some r ∧
          buf = some (detailOf r ++ buffer.drop r.size) ∧
          res = some { out with coeffs := out.coeffs.set 0 ⟨0, r.size⟩ }) := by
  constructor
  · intro lo hi hlo hhi hlol hhil hL2 heven hflag hN hLN hsig hfit hcap hroom hbl hidx
    have hS := decOutputSize_eq_planSize N inst.filtersLength hL2 (by omega) hN (by omega)
    obtain ⟨f1, f2, f3, f4, f5⟩ := planSize_facts inst.filtersLength N hL2 heven hN hLN 0
    have hp0 : planSize inst.filtersLength N 0 = N := rfl
    rw [hp0] at f5
    obtain ⟨r, hr, hrsz, hrsh⟩ := arm_dwt_1dec_f32_step stack sig N
      (planSize inst.filtersLength N 1)
      ({ size := 0, pDCoeffs := some (List.replicate (planSize inst.filtersLength N 1) stack),
         pACoeffs := some (List.replicate (planSize inst.filtersLength N 1) stack) } :
        arm_dwt_1dec_out_f32 α) inst lo hi buffer hlo hhi hb hL2
      hlol hhil hflag hsig hfit
      ⟨_, _, rfl, rfl, List.length_replicate _ _, List.length_replicate _ _⟩
      (by rw [← f5])
    obtain ⟨Ar, Dr, hAr, hDr, lAr, lDr⟩ := hrsh
    obtain ⟨st1, hst1, i1, x1, c1, b1, o1⟩ := storeCoeffs_succeeds
      (⟨0, 0, r, buffer, out⟩ : CascadeState α) Dr 0
      (by show r.size ≤ Dr.length; rw [hrsz, lDr, ← f5])
      (by show 0 + r.size ≤ buffer.length; rw [hrsz]; omega)
      hbl hidx
    have hchk : arm_dwt_check_f32 (some inst) N = DWT_STATUS_SUCCESS := by
      simp only [arm_dwt_check_f32]
      rw [hD, dwtOutSize_zero_levels, Nat.mod_eq_of_lt (by omega), if_pos hcap]
    have h10 : ¬ ((1 : Nat) = 0) := by decide
    refine ⟨some st1.buffer, some st1.out, ?_⟩
    simp only [arm_dwt_f32, hhi, hlo, hb, hchk, ne_eq, not_true_eq_false, if_false,
      cascade, hS, hr, hDr, hst1, Option.some_bind, hD, cascadeLoop, if_neg h10,
      Option.map_some']
  · intro status buf res h
    simp only [arm_dwt_f32, hb] at h
    cases hH : inst.pHighFilter with
    | none =>
      rw [hH] at h
      simp only [Option.some.injEq, Prod.mk.injEq] at h
      exact Or.inl ⟨h.1.symm, h.2.1.symm, h.2.2.symm, Or.inl rfl⟩
    | some hi =>
      cases hLo : inst.pLowFilter with
      | none =>
        rw [hH, hLo] at h
        simp only [Option.some.injEq, Prod.mk.injEq] at h
        exact Or.inl ⟨h.1.symm, h.2.1.symm, h.2.2.symm, Or.inr (Or.inl rfl)⟩
      | some lo =>
        rw [hH, hLo] at h
        simp only [] at h
        by_cases hchk : arm_dwt_check_f32 (some inst) N = DWT_STATUS_SUCCESS
        · rw [if_neg (by simpa using hchk)] at h
          obtain ⟨x, hx, h⟩ := Option.map_eq_some'.mp h
          obtain ⟨s1, st⟩ := x
          simp only [Prod.mk.injEq] at h
          obtain ⟨e1, e2, e3⟩ := h
          obtain ⟨hs, r, hr, hbuf, hout⟩ := cascade_zero_levels stack inst sig N buffer out hD
            (by rw [hH]; rfl) (by rw [hLo]; rfl) (by rw [hb]; rfl) s1 st hx
          exact Or.inr ⟨by rw [← e1, hs], hchk, r, hr, by rw [← e2, hbuf], by rw [← e3, hout]⟩
        · rw [if_pos hchk] at h
          simp only [Option.some.injEq, Prod.mk.injEq] at h
          exact Or.inl ⟨h.1.symm, h.2.1.symm, h.2.2.symm, Or.inr (Or.inr hchk)⟩

/-- Witness for C13 (amended) -/
theorem arm_dwt_f32_zero_levels_witness :
    (∃ buf res,
      arm_dwt_f32 (7 : Int) (some noLevelInstance) (some [1, 2, 3, 4]) 4 (some blankOut)
        = some (DWT_STATUS_ERROR, buf, res)) ∧
    arm_dwt_f32 (7 : Int) (some noLevelInstance) (some [1, 2, 3, 4]) 4 (some blankOut)
      = some (DWT_STATUS_ERROR, some [1, 1, 7, 7, 7, 7, 7, 7],
          some { coeffs := blankOut.coeffs.set 0 ⟨0, 2⟩, decLevel := 0 }) :=
  ⟨(arm_dwt_f32_zero_levels (7 : Int) noLevelInstance [1, 2, 3, 4] 4 blankOut
      [7, 7, 7, 7, 7, 7, 7, 7] rfl rfl).1 [1, 1] [1, -1] rfl rfl (by decide) (by decide)
      (by decide) (by decide) rfl (by decide) (by decide) (by decide) (by decide) (by decide)
      (by decide) (by decide) (by decide),
    by decide⟩

/-! ### Signal indices read by the symmetric extension -/

/-- The symmetric branch builds the extended signal only if every index it reads,
`filtersLength - 3 - i` for the left pad and `blockSize - 1 - i` for the right pad, is
inside the signal. -/
theorem extendSignal_symmetric_reads [Zero α] (stack : α) (L N : Nat) (sig E : List α)
    (h : extendSignal stack ARM_DWT_EM_SYMMETRIC L sig N = some E) :
    (∀ i, i < u32_sub L 2 → preSignalIndex L i < sig.length) ∧
    (∀ i, i < L → postSignalIndex N i < sig.length) := by
  unfold extendSignal at h
  have hne : ¬ (ARM_DWT_EM_SYMMETRIC = ARM_DWT_EM_ZERO_PADDING) := by decide
  simp only [if_neg hne, if_true] at h
  obtain ⟨pre, hpre, h⟩ := Option.bind_eq_some.mp h
  obtain ⟨post, hpost, h⟩ := Option.bind_eq_some.mp h
  obtain ⟨_, ipre⟩ := readIndices_range sig _ _ pre hpre
  obtain ⟨_, ipost⟩ := readIndices_range sig _ _ post hpost
  exact ⟨fun i hi => (ipre i hi).1, fun i hi => (ipost i hi).1⟩

theorem postSignalIndex_wraps (N : Nat) : postSignalIndex N N = 4294967295 := by
  unfold postSignalIndex u32_sub
  split <;> split <;> omega

/-- A signal shorter than the filters cannot be extended symmetrically: the right pad
reads `pSignal[ blockSize - 1 - i ]` for `i = blockSize`, an index that wraps around. -/
theorem extendSignal_symmetric_short [Zero α] (stack : α) (L N : Nat) (sig : List α)
    (hNL : N < L) (hsig : sig.length < 4294967295) :
    extendSignal stack ARM_DWT_EM_SYMMETRIC L sig N = none := by
  cases h : extendSignal stack ARM_DWT_EM_SYMMETRIC L sig N with
  | none => rfl
  | some E =>
    have h2 := (extendSignal_symmetric_reads stack L N sig E h).2 N hNL
    rw [postSignalIndex_wraps N] at h2
    omega

/-- C14 as stated fails: with `L = 4` and `N = 2` (so `N ≥ 1` and `N ≥ L - 2`) the
right pad reads the index `N - 1 - i` for `i = 2`, which wraps around to `4294967295`, and
the extension has no defined result. -/
theorem symmetric_right_pad_reads_out_of_range :
    (1 ≤ 2 ∧ 4 - 2 ≤ 2) ∧
    postSignalIndex 2 2 = 4294967295 ∧
    ¬ (∀ i, i < 4 → postSignalIndex 2 i < 2) ∧
    extendSignal (0 : Int) ARM_DWT_EM_SYMMETRIC 4 [10, 20] 2 = none :=
  ⟨by decide, by decide, by decide, by decide⟩

/-- C14, amended: under symmetric padding, for `L ≥ 2` and `N ≥ 1` with `N ≥ L - 2`,
every index `L - 3 - i` read for the left pad (`i < L - 2`) lies in `[0, N)`, and the
indices `N - 1 - i` read for the right pad (`i < L`) all lie in `[0, N)` exactly when
`N ≥ L`; for a signal of exactly `N` samples the extension is built exactly when `N ≥ L`
(given that its length `N + 2L - 2` is a `uint32_t` value). -/
theorem symmetric_pad_indices_in_range [Zero α] (stack : α) (L N : Nat) (hL2 : 2 ≤ L)
    (hLu : L < 4294967296) (hN1 : 1 ≤ N) (hNu : N < 4294967296) (hLN2 : L - 2 ≤ N) :
    (∀ i, i < L - 2 → preSignalIndex L i < N) ∧
    ((∀ i, i < L → postSignalIndex N i < N) ↔ L ≤ N) ∧
    (∀ (sig : List α), sig.length = N → N + 2 * L - 2 < 4294967296 →
      ((∃ E, extendSignal stack ARM_DWT_EM_SYMMETRIC L sig N = some E) ↔ L ≤ N)) := by
  refine ⟨?_, ?_, ?_⟩
  · intro i hi
    unfold preSignalIndex
    rw [u32_sub_eq L 3 hLu (by omega), u32_sub_eq (L - 3) i (by omega) (by omega)]
    omega
  · constructor
    · intro h
      by_contra hlt
      have h2 := h N (by omega)
      rw [postSignalIndex_wraps N] at h2
      omega
    · intro hLN i hi
      unfold postSignalIndex
      rw [u32_sub_eq N 1 hNu hN1, u32_sub_eq (N - 1) i (by omega) (by omega)]
      omega
  · intro sig hlen hfit
    constructor
    · rintro ⟨E, hE⟩
      by_contra hlt
      rw [extendSignal_symmetric_short stack L N sig (by omega) (by omega)] at hE
      cases hE
    · intro hLN
      exact extendSignal_symmetric_isSome stack L N sig hL2 hfit hLN (by omega)

/-- Witness for C14 (amended) -/
theorem symmetric_pad_indices_in_range_witness :
    (∀ i, i < 4 - 2 → preSignalIndex 4 i < 5) ∧
    ((∀ i, i < 4 → postSignalIndex 5 i < 5) ↔ 4 ≤ 5) ∧
    (∀ (sig : List Int), sig.length = 5 → 5 + 2 * 4 - 2 < 4294967296 →
      ((∃ E, extendSignal (0 : Int) ARM_DWT_EM_SYMMETRIC 4 sig 5 = some E) ↔ 4 ≤ 5)) :=
  symmetric_pad_indices_in_range (0 : Int) 4 5 (by decide) (by decide) (by decide)
    (by decide) (by decide)

/-- Under symmetric padding a call of `arm_dwt_1dec_f32` on a signal shorter than the
filters, with every required input present, has no defined result. -/
theorem arm_dwt_1dec_f32_symmetric_short [Zero α] [Add α] [Mul α] (stack : α)
    (sig : List α) (N : Nat) (pDWTOut : Option (arm_dwt_1dec_out_f32 α))
    (inst : arm_dwt_instance_f32 α)
    (hflag : inst.extrapolationFlag = ARM_DWT_EM_SYMMETRIC) (hN : N < inst.filtersLength)
    (hp : inputsPresent (some sig) pDWTOut (some inst) = true)
    (hlen : sig.length < 4294967295) :
    arm_dwt_1dec_f32 stack (some sig) N pDWTOut (some inst) = none := by
  cases pDWTOut with
  | none => simp [inputsPresent] at hp
  | some out =>
    simp only [inputsPresent, Bool.and_eq_true, Option.isSome_iff_exists] at hp
    obtain ⟨⟨⟨⟨⟨hi, hH⟩, ⟨lo, hLo⟩⟩, ⟨buffer, hB⟩⟩, ⟨dstA, hA⟩⟩, ⟨dstD, hD⟩⟩ := hp
    have hext : extendSignal stack inst.extrapolationFlag inst.filtersLength sig N = none := by
      rw [hflag]
      exact extendSignal_symmetric_short stack _ N sig hN hlen
    simp only [arm_dwt_1dec_f32, hH, hLo, hB, hA, hD, hext]
    cases preSignalCells inst.filtersLength with
    | none => rfl
    | some cells =>
      cases flipFilter lo inst.filtersLength with
      | none => rfl
      | some fLo =>
        cases flipFilter hi inst.filtersLength with
        | none => rfl
        | some fHi => rfl

/-- Under symmetric padding a call of `arm_dwt_f32` on a signal shorter than the filters
that passes the null-pointer tests and the capacity check has no defined result. -/
theorem arm_dwt_f32_symmetric_short [Zero α] [Add α] [Mul α] (stack : α)
    (inst : arm_dwt_instance_f32 α) (sig : List α) (N : Nat) (out : arm_dwt_out_f32)
    (hflag : inst.extrapolationFlag = ARM_DWT_EM_SYMMETRIC) (hN : N < inst.filtersLength)
    (hH : inst.pHighFilter.isSome = true) (hLo : inst.pLowFilter.isSome = true)
    (hB : inst.pInternalBuffer.isSome = true)
    (hchk : arm_dwt_check_f32 (some inst) N = DWT_STATUS_SUCCESS)
    (hlen : sig.length < 4294967295) :
    arm_dwt_f32 stack (some inst) (some sig) N (some out) = none := by
  have h1 := arm_dwt_1dec_f32_symmetric_short stack sig N
    (some (scratchRecord stack N inst.filtersLength)) inst hflag hN
    (by simp [inputsPresent, hH, hLo, hB, scratchRecord]) hlen
  obtain ⟨hi, hH⟩ := Option.isSome_iff_exists.mp hH
  obtain ⟨lo, hLo⟩ := Option.isSome_iff_exists.mp hLo
  obtain ⟨buffer, hB⟩ := Option.isSome_iff_exists.mp hB
  have hc : cascade stack inst sig N buffer out = none := by
    unfold cascade
    simp only []
    change (match arm_dwt_1dec_f32 stack (some sig) N
        (some (scratchRecord stack N inst.filtersLength)) (some inst) with
      | none => none
      | some (DWT_STATUS_SUCCESS, some r) => _
      | some _ => _) = _
    rw [h1]
  simp only [arm_dwt_f32, hH, hLo, hB, hchk, ne_eq, not_true_eq_false, if_false, hc,
    Option.map_none']

/-- C15 as stated fails: under symmetric padding with `L = 4` and a signal of one sample
(`N = 1 < L - 2`), every pointer being non-null, the call does not return
`DWT_STATUS_INVALID_PARAMETER`: the first left-pad read is `pSignal[ 1 ]`, outside the
signal, and the call has no defined result. -/
theorem arm_dwt_1dec_f32_short_signal_reads_out_of_range :
    symmetricInstance.extrapolationFlag = ARM_DWT_EM_SYMMETRIC ∧
    1 < symmetricInstance.filtersLength - 2 ∧
    preSignalIndex symmetricInstance.filtersLength 0 = 1 ∧
    ([10] : List Int)[1]? = none ∧
    arm_dwt_1dec_f32 (0 : Int) (some [10]) 1
        (some { size := 0, pDCoeffs := some [7, 7], pACoeffs := some [7, 7] })
        (some symmetricInstance)
      = none ∧
    arm_dwt_1dec_f32 (0 : Int) (some [10]) 1
        (some { size := 0, pDCoeffs := some [7, 7], pACoeffs := some [7, 7] })
        (some symmetricInstance)
      ≠ some (DWT_STATUS_INVALID_PARAMETER,
          some { size := 0, pDCoeffs := some [7, 7], pACoeffs := some [7, 7] }) :=
  ⟨by decide, by decide, by decide, by decide, by decide, by decide⟩

/-- C15, amended: under symmetric padding, for `L ≥ 3` and `N < L - 2`,
`arm_dwt_1dec_f32` does not test the signal length.  It returns
`DWT_STATUS_INVALID_PARAMETER` when a required input is absent; with every required input
present it never returns a status other than `DWT_STATUS_SUCCESS`, the first index read
for the left pad, `L - 3`, is not below `N`, and on a signal array of fewer than
`2 ^ 32 - 1` cells the call has no defined result (a read is outside the array); the same
holds of a call of `arm_dwt_f32` that passes its null-pointer tests and capacity check. -/
theorem arm_dwt_1dec_f32_short_signal_not_rejected [Zero α] [Add α] [Mul α] (stack : α)
    (pSignal : Option (List α)) (N : Nat) (pDWTOut : Option (arm_dwt_1dec_out_f32 α))
    (inst : arm_dwt_instance_f32 α)
    (hflag : inst.extrapolationFlag = ARM_DWT_EM_SYMMETRIC)
    (hL3 : 3 ≤ inst.filtersLength) (hLu : inst.filtersLength < 4294967296)
    (hN : N < inst.filtersLength - 2) :
    (inputsPresent pSignal pDWTOut (some inst) = false →
      arm_dwt_1dec_f32 stack pSignal N pDWTOut (some inst)
        = some (DWT_STATUS_INVALID_PARAMETER, pDWTOut)) ∧
    (inputsPresent pSignal pDWTOut (some inst) = true →
      N ≤ preSignalIndex inst.filtersLength 0 ∧
      (∀ status o, arm_dwt_1dec_f32 stack pSignal N pDWTOut (some inst) = some (status, o) →
        status = DWT_STATUS_SUCCESS) ∧
      (∀ sig, pSignal = some sig → sig.length < 4294967295 →
        arm_dwt_1dec_f32 stack pSignal N pDWTOut (some inst) = none)) ∧
    (∀ sig out, inst.pHighFilter.isSome = true → inst.pLowFilter.isSome = true →
      inst.pInternalBuffer.isSome = true →
      arm_dwt_check_f32 (some inst) N = DWT_STATUS_SUCCESS → sig.length < 4294967295 →
      arm_dwt_f32 stack (some inst) (some sig) N (some out) = none) := by
  refine ⟨arm_dwt_1dec_f32_absent stack pSignal N pDWTOut (some inst),
    fun hp => ⟨?_, ?_, ?_⟩,
    fun sig out hH hLo hB hchk hlen =>
      arm_dwt_f32_symmetric_short stack inst sig N out hflag (by omega) hH hLo hB hchk hlen⟩
  · unfold preSignalIndex
    rw [u32_sub_eq _ 3 hLu hL3, u32_sub_eq _ 0 (by omega) (by omega)]
    omega
  · intro status o hr
    exact (arm_dwt_1dec_f32_present stack pSignal N pDWTOut (some inst) hp status o hr).1
  · intro sig hs hlen
    subst hs
    exact arm_dwt_1dec_f32_symmetric_short stack sig N pDWTOut inst hflag (by omega) hp hlen

/-- Witness for C15 (amended) -/
theorem arm_dwt_1dec_f32_short_signal_not_rejected_witness :
    arm_dwt_1dec_f32 (0 : Int) none 1
        (some { size := 0, pDCoeffs := some [7, 7], pACoeffs := some [7, 7] })
        (some symmetricInstance)
      = some (DWT_STATUS_INVALID_PARAMETER,
          some { size := 0, pDCoeffs := some [7, 7], pACoeffs := some [7, 7] }) ∧
    1 ≤ preSignalIndex symmetricInstance.filtersLength 0 ∧
    arm_dwt_1dec_f32 (0 : Int) (some [10]) 1
        (some { size := 0, pDCoeffs := some [7, 7], pACoeffs := some [7, 7] })
        (some symmetricInstance)
      = none :=
  ⟨(arm_dwt_1dec_f32_short_signal_not_rejected (0 : Int) none 1
      (some { size := 0, pDCoeffs := some [7, 7], pACoeffs := some [7, 7] })
      symmetricInstance rfl (by decide) (by decide) (by decide)).1 (by decide),
    ((arm_dwt_1dec_f32_short_signal_not_rejected (0 : Int) (some [10]) 1
      (some { size := 0, pDCoeffs := some [7, 7], pACoeffs := some [7, 7] })
      symmetricInstance rfl (by decide) (by decide) (by decide)).2.1 (by decide)).1,
    ((arm_dwt_1dec_f32_short_signal_not_rejected (0 : Int) (some [10]) 1
      (some { size := 0, pDCoeffs := some [7, 7], pACoeffs := some [7, 7] })
      symmetricInstance rfl (by decide) (by decide) (by decide)).2.1 (by decide)).2.2
      [10] rfl (by decide)⟩

/-! ### An unrecognised extension policy -/

/-- The `default` branch of the `switch`: nothing is copied into `extendedSignal`. -/
theorem extendSignal_unrecognised [Zero α] (stack : α) (flag L N : Nat) (sig : List α)
    (h0 : flag ≠ ARM_DWT_EM_ZERO_PADDING) (h1 : flag ≠ ARM_DWT_EM_SYMMETRIC) :
    extendSignal stack flag L sig N
      = some (List.replicate (extendedSignalSize N L) stack) := by
  unfold extendSignal
  simp only [if_neg h0, if_neg h1]

/-! ### Runs that succeed under any extension policy -/

/-- Once the extended signal is built, with its `N + 2L - 2` cells, the rest of
`arm_dwt_1dec_f32` runs to `DWT_STATUS_SUCCESS` when the filters have `L` taps and the
output arrays at least `outSize` cells. -/
theorem arm_dwt_1dec_f32_succeeds_of_extension [Zero α] [Add α] [Mul α] (stack : α)
    (sig : List α) (N : Nat) (out : arm_dwt_1dec_out_f32 α) (inst : arm_dwt_instance_f32 α)
    (lo hi buffer dstA dstD E : List α)
    (hlo : inst.pLowFilter = some lo) (hhi : inst.pHighFilter = some hi)
    (hbuf : inst.pInternalBuffer = some buffer)
    (hA : out.pACoeffs = some dstA) (hDc : out.pDCoeffs = some dstD)
    (hL2 : 2 ≤ inst.filtersLength)
    (hlol : inst.filtersLength ≤ lo.length) (hhil : inst.filtersLength ≤ hi.length)
    (h3 : extendSignal stack inst.extrapolationFlag inst.filtersLength sig N = some E)
    (hElen : E.length = N + 2 * inst.filtersLength - 2)
    (hfit : N + 2 * inst.filtersLength - 2 < 4294967296)
    (hdA : (N + inst.filtersLength - 1) / 2 ≤ dstA.length)
    (hdD : (N + inst.filtersLength - 1) / 2 ≤ dstD.length) :
    ∃ r, arm_dwt_1dec_f32 stack (some sig) N (some out) (some inst)
      = some (DWT_STATUS_SUCCESS, some r) := by
  have hLu : inst.filtersLength < 4294967296 := by omega
  obtain ⟨fLo, h1⟩ := flipFilter_isSome lo inst.filtersLength hLu hlol
  obtain ⟨fHi, h2⟩ := flipFilter_isSome hi inst.filtersLength hLu hhil
  have hsz := outSize_eq N inst.filtersLength (by omega) (by omega)
  have hlt := outSize_lt N inst.filtersLength
  have hidx : ∀ i, i < outSize N inst.filtersLength → 2 * i + inst.filtersLength ≤ E.length := by
    intro i hi
    rw [hsz] at hi
    rw [hElen]
    omega
  obtain ⟨cA, h4⟩ := computeCoeffs_isSome E fLo inst.filtersLength _ hlt
    (by rw [(flipFilter_some lo fLo _ hLu h1).1]) hidx
  obtain ⟨cD, h5⟩ := computeCoeffs_isSome E fHi inst.filtersLength _ hlt
    (by rw [(flipFilter_some hi fHi _ hLu h2).1]) hidx
  have lA := (computeCoeffs_some E fLo cA _ _ h4).1
  have lD := (computeCoeffs_some E fHi cD _ _ h5).1
  have h6 : ∃ d, arm_copy_f32 cA dstA 0 (outSize N inst.filtersLength) = some d := by
    unfold arm_copy_f32
    rw [if_pos ⟨by omega, by omega⟩]
    exact ⟨_, rfl⟩
  have h7 : ∃ d, arm_copy_f32 cD dstD 0 (outSize N inst.filtersLength) = some d := by
    unfold arm_copy_f32
    rw [if_pos ⟨by omega, by omega⟩]
    exact ⟨_, rfl⟩
  obtain ⟨dA, h6⟩ := h6
  obtain ⟨dD, h7⟩ := h7
  refine ⟨{ size := outSize N inst.filtersLength, pDCoeffs := some dD, pACoeffs := some dA }, ?_⟩
  simp only [arm_dwt_1dec_f32, hhi, hlo, hbuf, hA, hDc,
    preSignalCells_eq inst.filtersLength hL2 hLu, h1, h2, h3, h4, h5, h6, h7,
    Option.some_bind]

/-- One decomposition on well-shaped scratch arrays succeeds and leaves well-shaped
arrays, under any extension policy; the symmetric one needs a signal of at least `L`
samples. -/
theorem arm_dwt_1dec_f32_step_any [Zero α] [Add α] [Mul α] (stack : α) (sig : List α)
    (n S : Nat) (out : arm_dwt_1dec_out_f32 α) (inst : arm_dwt_instance_f32 α)
    (lo hi buffer : List α)
    (hlo : inst.pLowFilter = some lo) (hhi : inst.pHighFilter = some hi)
    (hbuf : inst.pInternalBuffer = some buffer)
    (hL2 : 2 ≤ inst.filtersLength)
    (hlol : inst.filtersLength ≤ lo.length) (hhil : inst.filtersLength ≤ hi.length)
    (hflag : inst.extrapolationFlag = ARM_DWT_EM_SYMMETRIC → inst.filtersLength ≤ n)
    (hsig : n ≤ sig.length) (hfit : n + 2 * inst.filtersLength - 2 < 4294967296)
    (hsh : ScratchShape S out) (hS : (n + inst.filtersLength - 1) / 2 ≤ S) :
    ∃ r, arm_dwt_1dec_f32 stack (some sig) n (some out) (some inst)
        = some (DWT_STATUS_SUCCESS, some r) ∧
      r.size = (n + inst.filtersLength - 1) / 2 ∧ ScratchShape S r := by
  obtain ⟨A, D, hA, hD, lA, lD⟩ := hsh
  have hex : ∃ r, arm_dwt_1dec_f32 stack (some sig) n (some out) (some inst)
      = some (DWT_STATUS_SUCCESS, some r) := by
    by_cases h0 : inst.extrapolationFlag = ARM_DWT_EM_ZERO_PADDING
    · exact arm_dwt_1dec_f32_succeeds stack sig n out inst lo hi buffer A D
        hlo hhi hbuf hA hD hL2 hlol hhil (Or.inl h0) hsig hfit (by omega) (by omega)
    · by_cases h1 : inst.extrapolationFlag = ARM_DWT_EM_SYMMETRIC
      · exact arm_dwt_1dec_f32_succeeds stack sig n out inst lo hi buffer A D
          hlo hhi hbuf hA hD hL2 hlol hhil (Or.inr ⟨h1, hflag h1⟩) hsig hfit
          (by omega) (by omega)
      · exact arm_dwt_1dec_f32_succeeds_of_extension stack sig n out inst lo hi buffer A D _
          hlo hhi hbuf hA hD hL2 hlol hhil
          (extendSignal_unrecognised stack _ _ n sig h0 h1)
          (by rw [List.length_replicate, extendedSignalSize_eq n _ hL2 hfit])
          hfit (by omega) (by omega)
  obtain ⟨r, hr⟩ := hex
  refine ⟨r, hr, ?_, ?_⟩
  · rw [arm_dwt_1dec_f32_size stack sig n out r inst hr]
    exact outSize_eq n inst.filtersLength (by omega) (by omega)
  · obtain ⟨_, _, dstA, dstD, _, _, _, cA, cD, dstA2, dstD2, _, _, e3, e4, _, _, _, _, _,
      h6, h7, hrr⟩ := arm_dwt_1dec_f32_inv stack sig n out r inst hr
    rw [hA] at e3
    rw [hD] at e4
    obtain rfl : A = dstA := Option.some.inj e3
    obtain rfl : D = dstD := Option.some.inj e4
    refine ⟨dstA2, dstD2, by rw [hrr], by rw [hrr], ?_, ?_⟩
    · rw [arm_copy_f32_length _ _ _ _ _ h6, lA]
    · rw [arm_copy_f32_length _ _ _ _ _ h7, lD]

/-- Under any extension policy (every level having an input of at least `L` samples if
it is the symmetric one), with an even `L` and room for the planner's total in the internal
buffer, the loop of `arm_dwt_f32` runs every remaining level and ends with `i = decLevel`. -/
theorem cascadeLoop_succeeds_any [Zero α] [Add α] [Mul α] (stack : α)
    (inst : arm_dwt_instance_f32 α) (N B : Nat) (lo hi buffer0 : List α)
    (hlo : inst.pLowFilter = some lo) (hhi : inst.pHighFilter = some hi)
    (hbuf0 : inst.pInternalBuffer = some buffer0)
    (hL2 : 2 ≤ inst.filtersLength) (heven : inst.filtersLength % 2 = 0)
    (hlol : inst.filtersLength ≤ lo.length) (hhil : inst.filtersLength ≤ hi.length)
    (hlev : inst.extrapolationFlag = ARM_DWT_EM_SYMMETRIC →
      ∀ k, k < inst.decLevel → inst.filtersLength ≤ planSize inst.filtersLength N k)
    (hN : 1 ≤ N) (hLN : inst.filtersLength ≤ N + 2)
    (hfit : N + 2 * inst.filtersLength - 2 < 4294967296)
    (hD : inst.decLevel ≤ ARM_DWT_MAX_DEC_LEVEL)
    (hroom : planTotal inst.filtersLength N inst.decLevel ≤ B) (hB : B < 4294967296) :
    ∀ fuel (st : CascadeState α), 1 ≤ st.i → st.i ≤ inst.decLevel →
      inst.decLevel - st.i ≤ fuel →
      ScratchShape (planSize inst.filtersLength N 1) st.xDecResult →
      st.xDecResult.size = planSize inst.filtersLength N st.i →
      st.copyCounter = planSum inst.filtersLength N st.i →
      st.buffer.length = B → st.out.coeffs.length = ARM_DWT_MAX_DEC_LEVEL + 1 →
      ∃ st2, cascadeLoop stack inst fuel st = some st2 ∧ st2.i = inst.decLevel ∧
        ScratchShape (planSize inst.filtersLength N 1) st2.xDecResult ∧
        st2.xDecResult.size = planSize inst.filtersLength N inst.decLevel ∧
        st2.copyCounter = planSum inst.filtersLength N inst.decLevel ∧
        st2.buffer.length = B ∧ st2.out.coeffs.length = ARM_DWT_MAX_DEC_LEVEL + 1 := by
  have hD10 : inst.decLevel ≤ 10 := hD
  intro fuel
  induction fuel with
  | zero =>
    intro st h1 h2 h3 hsh hsz hcc hbl hol
    have e : st.i = inst.decLevel := by omega
    rw [e] at hsz hcc
    exact ⟨st, rfl, e, hsh, hsz, hcc, hbl, hol⟩
  | succ fuel ih =>
    intro st h1 h2 h3 hsh hsz hcc hbl hol
    rw [cascadeLoop_succ]
    by_cases hlt : st.i < inst.decLevel
    · rw [if_pos hlt]
      obtain ⟨k, hk⟩ : ∃ k, st.i = k + 1 := ⟨st.i - 1, by omega⟩
      rw [hk] at hsz hcc
      obtain ⟨f1, f2, f3, f4, f5⟩ := planSize_facts inst.filtersLength N hL2 heven hN hLN k
      obtain ⟨g1, g2, g3, g4, g5⟩ :=
        planSize_facts inst.filtersLength N hL2 heven hN hLN (k + 1)
      have htot := planTotal_mono inst.filtersLength N hL2
        (show k + 1 + 1 ≤ inst.decLevel by omega)
      have hps : planSum inst.filtersLength N (k + 1 + 1)
          = planSum inst.filtersLength N (k + 1) + planSize inst.filtersLength N (k + 1 + 1) :=
        rfl
      unfold planTotal at htot hroom
      obtain ⟨A, D, hA, hDc, lA, lD⟩ := hsh
      obtain ⟨r, hr, hrsz, hrsh⟩ := arm_dwt_1dec_f32_step_any stack A st.xDecResult.size
        (planSize inst.filtersLength N 1) st.xDecResult inst lo hi buffer0 hlo hhi hbuf0 hL2
        hlol hhil (fun hs => by rw [hsz]; exact hlev hs (k + 1) (by omega))
        (by rw [hsz, lA]; exact f4) (by rw [hsz]; omega)
        ⟨A, D, hA, hDc, lA, lD⟩ (by rw [hsz, ← g5]; exact g4)
      rw [hsz, ← g5] at hrsz
      rw [hA, hr]
      simp only []
      obtain ⟨Ar, Dr, hAr, hDr, lAr, lDr⟩ := hrsh
      obtain ⟨st2, hst, hi2, hx2, hc2, hb2, ho2⟩ := storeCoeffs_succeeds
        ({ st with xDecResult := r } : CascadeState α) Dr st.i
        (by show r.size ≤ Dr.length; rw [hrsz, lDr]; exact g4)
        (by show st.copyCounter + r.size ≤ st.buffer.length; rw [hcc, hrsz, hbl]; omega)
        (by show st.buffer.length < 4294967296; omega)
        (by show st.i < st.out.coeffs.length; rw [hol]
            have : ARM_DWT_MAX_DEC_LEVEL = 10 := rfl
            omega)
      rw [hDr, hst, Option.some_bind]
      have hi3 : u32_add st2.i 1 = k + 1 + 1 := by
        rw [hi2]
        show u32_add st.i 1 = k + 1 + 1
        rw [hk]
        exact u32_add_eq _ _ (by omega)
      rw [hi3]
      obtain ⟨st3, hl, q1, q2, q3, q4, q5, q6⟩ :=
        ih ({ st2 with i := k + 1 + 1 } : CascadeState α) (by show 1 ≤ k + 1 + 1; omega)
          (by show k + 1 + 1 ≤ inst.decLevel; omega)
          (by show inst.decLevel - (k + 1 + 1) ≤ fuel; omega)
          (by show ScratchShape _ st2.xDecResult; rw [hx2]; exact ⟨Ar, Dr, hAr, hDr, lAr, lDr⟩)
          (by show st2.xDecResult.size = planSize inst.filtersLength N (k + 1 + 1)
              rw [hx2]; exact hrsz)
          (by show st2.copyCounter = planSum inst.filtersLength N (k + 1 + 1)
              rw [hc2, hps]
              show st.copyCounter + r.size = _
              rw [hcc, hrsz])
          (by show st2.buffer.length = B; rw [hb2]; exact hbl)
          (by show st2.out.coeffs.length = _; rw [ho2]; exact hol)
      exact ⟨st3, hl, q1, q2, q3, q4, q5, q6⟩
    · rw [if_neg hlt]
      have e : st.i = inst.decLevel := by omega
      rw [e] at hsz hcc
      exact ⟨st, rfl, e, hsh, hsz, hcc, hbl, hol⟩

/-- Under any extension policy (every level having an input of at least `L` samples if
it is the symmetric one), with an even `L ≥ 2`, a signal of `N ≥ max 1 (L - 2)` samples,
`1 ≤ D ≤ 10` and an internal buffer that holds the planner's total, the last branch of
`arm_dwt_f32` returns `DWT_STATUS_SUCCESS` after `D` decompositions. -/
theorem cascade_succeeds_any [Zero α] [Add α] [Mul α] (stack : α)
    (inst : arm_dwt_instance_f32 α) (sig : List α) (N : Nat) (buffer : List α)
    (out : arm_dwt_out_f32) (lo hi : List α)
    (hlo : inst.pLowFilter = some lo) (hhi : inst.pHighFilter = some hi)
    (hbuf : inst.pInternalBuffer = some buffer)
    (hL2 : 2 ≤ inst.filtersLength) (heven : inst.filtersLength % 2 = 0)
    (hlol : inst.filtersLength ≤ lo.length) (hhil : inst.filtersLength ≤ hi.length)
    (hlev : inst.extrapolationFlag = ARM_DWT_EM_SYMMETRIC →
      ∀ k, k < inst.decLevel → inst.filtersLength ≤ planSize inst.filtersLength N k)
    (hN : 1 ≤ N) (hLN : inst.filtersLength ≤ N + 2) (hsig : N ≤ sig.length)
    (hfit : N + 2 * inst.filtersLength - 2 < 4294967296)
    (hD1 : 1 ≤ inst.decLevel) (hD : inst.decLevel ≤ ARM_DWT_MAX_DEC_LEVEL)
    (hroom : planTotal inst.filtersLength N inst.decLevel ≤ buffer.length)
    (hB : buffer.length < 4294967296)
    (hout : out.coeffs.length = ARM_DWT_MAX_DEC_LEVEL + 1) :
    ∃ st, cascade stack inst sig N buffer out = some (DWT_STATUS_SUCCESS, st) ∧
      st.copyCounter = planTotal inst.filtersLength N inst.decLevel ∧
      st.buffer.length = buffer.length := by
  have hD10 : inst.decLevel ≤ 10 := hD
  have hS := decOutputSize_eq_planSize N inst.filtersLength hL2 (by omega) hN (by omega)
  obtain ⟨f1, f2, f3, f4, f5⟩ := planSize_facts inst.filtersLength N hL2 heven hN hLN 0
  have hp0 : planSize inst.filtersLength N 0 = N := rfl
  have hps1 : planSum inst.filtersLength N 1 = planSize inst.filtersLength N 1 := by
    show 0 + planSize inst.filtersLength N 1 = _
    omega
  have htot1 := planTotal_mono inst.filtersLength N hL2 hD1
  obtain ⟨r, hr, hrsz, hrsh⟩ := arm_dwt_1dec_f32_step_any stack sig N
    (planSize inst.filtersLength N 1)
    ({ size := 0, pDCoeffs := some (List.replicate (planSize inst.filtersLength N 1) stack),
       pACoeffs := some (List.replicate (planSize inst.filtersLength N 1) stack) } :
      arm_dwt_1dec_out_f32 α) inst lo hi buffer hlo hhi hbuf hL2
    hlol hhil (fun hs => hlev hs 0 (by omega)) hsig hfit
    ⟨_, _, rfl, rfl, List.length_replicate _ _, List.length_replicate _ _⟩
    (by rw [hp0] at f5; rw [← f5])
  rw [hp0] at f5
  rw [← f5] at hrsz
  obtain ⟨Ar, Dr, hAr, hDr, lAr, lDr⟩ := hrsh
  obtain ⟨st1, hst1, i1, x1, c1, b1, o1⟩ := storeCoeffs_succeeds
    (⟨0, 0, r, buffer, out⟩ : CascadeState α) Dr 0
    (by show r.size ≤ Dr.length; rw [hrsz, lDr])
    (by show 0 + r.size ≤ buffer.length
        rw [hrsz]; unfold planTotal at htot1 hroom; omega)
    hB (by show 0 < out.coeffs.length; rw [hout]; omega)
  obtain ⟨st2, hl, q1, q2, q3, q4, q5, q6⟩ :=
    cascadeLoop_succeeds_any stack inst N buffer.length lo hi buffer hlo hhi hbuf hL2 heven
      hlol hhil hlev hN hLN hfit hD hroom hB inst.decLevel
      ({ st1 with i := 1 } : CascadeState α) (le_refl _) hD1 (by show _ - 1 ≤ _; omega)
      (by show ScratchShape _ st1.xDecResult; rw [x1]; exact ⟨Ar, Dr, hAr, hDr, lAr, lDr⟩)
      (by show st1.xDecResult.size = _; rw [x1]; exact hrsz)
      (by show st1.copyCounter = _; rw [c1, hps1]; exact (Nat.zero_add _).trans hrsz)
      (by show st1.buffer.length = _; rw [b1])
      (by show st1.out.coeffs.length = _; rw [o1]; exact hout)
  obtain ⟨A2, D2, hA2, hD2, lA2, lD2⟩ := q2
  obtain ⟨st3, hst3, i3, x3, c3, b3, o3⟩ := storeCoeffs_succeeds st2 A2 inst.decLevel
    (by rw [q3, lA2]
        rcases Nat.eq_zero_or_pos (inst.decLevel - 1) with hz | hp
        · have : inst.decLevel = 1 := by omega
          rw [this]
        · obtain ⟨k, hk⟩ : ∃ k, inst.decLevel = k + 1 := ⟨inst.decLevel - 1, by omega⟩
          rw [hk]
          exact (planSize_facts inst.filtersLength N hL2 heven hN hLN k).2.2.2.1)
    (by rw [q3, q4, q5]; exact hroom)
    (by rw [q5]; exact hB)
    (by rw [q6]
        have : ARM_DWT_MAX_DEC_LEVEL = 10 := rfl
        omega)
  refine ⟨{ st3 with out := { st3.out with decLevel := inst.decLevel } }, ?_, ?_, ?_⟩
  · simp only [cascade, hS, hr, hDr, hst1, Option.some_bind, hl, q1, if_true, hA2, hst3]
  · show st3.copyCounter = _
    rw [c3, q3, q4]
    rfl
  · show st3.buffer.length = _
    rw [b3, q5]

/-- Under any extension policy (every level having an input of at least `L` samples if
it is the symmetric one), a call of `arm_dwt_f32` with an even `L ≥ 2`, a signal of
`N ≥ max 1 (L - 2)` samples, `1 ≤ D ≤ 10`, filters of `L` taps, an output structure of
`ARM_DWT_MAX_DEC_LEVEL + 1` views and an internal buffer at least as large as its declared
capacity, itself at least the planner's total, returns `DWT_STATUS_SUCCESS`. -/
theorem arm_dwt_f32_succeeds_any [Zero α] [Add α] [Mul α] (stack : α)
    (inst : arm_dwt_instance_f32 α) (sig : List α) (N : Nat) (buffer : List α)
    (out : arm_dwt_out_f32) (lo hi : List α)
    (hlo : inst.pLowFilter = some lo) (hhi : inst.pHighFilter = some hi)
    (hbuf : inst.pInternalBuffer = some buffer)
    (hL2 : 2 ≤ inst.filtersLength) (heven : inst.filtersLength % 2 = 0)
    (hlol : inst.filtersLength ≤ lo.length) (hhil : inst.filtersLength ≤ hi.length)
    (hlev : inst.extrapolationFlag = ARM_DWT_EM_SYMMETRIC →
      ∀ k, k < inst.decLevel → inst.filtersLength ≤ planSize inst.filtersLength N k)
    (hN : 1 ≤ N) (hLN : inst.filtersLength ≤ N + 2) (hsig : N ≤ sig.length)
    (hfit : N + 2 * inst.filtersLength - 2 < 4294967296)
    (hD1 : 1 ≤ inst.decLevel) (hD : inst.decLevel ≤ ARM_DWT_MAX_DEC_LEVEL)
    (hcap : planTotal inst.filtersLength N inst.decLevel ≤ inst.internalBufferSize)
    (hphys : inst.internalBufferSize ≤ buffer.length)
    (hB : buffer.length < 4294967296)
    (hout : out.coeffs.length = ARM_DWT_MAX_DEC_LEVEL + 1) :
    ∃ buf res, arm_dwt_f32 stack (some inst) (some sig) N (some out)
      = some (DWT_STATUS_SUCCESS, some buf, some res) := by
  obtain ⟨st, hst, _, _⟩ := cascade_succeeds_any stack inst sig N buffer out lo hi hlo hhi hbuf
    hL2 heven hlol hhil hlev hN hLN hsig hfit hD1 hD (by omega) hB hout
  have hchk : arm_dwt_check_f32 (some inst) N = DWT_STATUS_SUCCESS := by
    simp only [arm_dwt_check_f32]
    rw [dwtOutSize_eq_planTotal _ _ N hN (by omega) hL2 (by omega) (by omega), if_pos hcap]
  refine ⟨st.buffer, st.out, ?_⟩
  simp only [arm_dwt_f32, hhi, hlo, hbuf, hchk, ne_eq, not_true_eq_false, if_false, hst,
    Option.map_some']

/-! ### Statuses returned for an unrecognised extension policy -/

theorem arm_dwt_1dec_f32_never_error [Zero α] [Add α] [Mul α] (stack : α)
    (pSignal : Option (List α)) (blockSize : Nat)
    (pDWTOut : Option (arm_dwt_1dec_out_f32 α))
    (pDWTInstance : Option (arm_dwt_instance_f32 α))
    (status : arm_dwt_status) (o : Option (arm_dwt_1dec_out_f32 α))
    (hr : arm_dwt_1dec_f32 stack pSignal blockSize pDWTOut pDWTInstance = some (status, o)) :
    status ≠ DWT_STATUS_ERROR := by
  cases hp : inputsPresent pSignal pDWTOut pDWTInstance with
  | false =>
    rw [arm_dwt_1dec_f32_absent stack pSignal blockSize pDWTOut pDWTInstance hp] at hr
    simp only [Option.some.injEq, Prod.mk.injEq] at hr
    rw [← hr.1]
    decide
  | true =>
    rw [(arm_dwt_1dec_f32_present stack pSignal blockSize pDWTOut pDWTInstance hp status o hr).1]
    decide

/-- C17 as stated fails: with `extrapolationFlag = 2` and every other input valid,
`arm_dwt_1dec_f32` and `arm_dwt_f32` return `DWT_STATUS_SUCCESS`, not `DWT_STATUS_ERROR`;
the coefficients are computed from the unset cells of `extendedSignal` (here all 9). -/
theorem unrecognised_policy_returns_success :
    strayPolicyInstance.extrapolationFlag ≠ ARM_DWT_EM_ZERO_PADDING ∧
    strayPolicyInstance.extrapolationFlag ≠ ARM_DWT_EM_SYMMETRIC ∧
    arm_dwt_1dec_f32 (9 : Int) (some [1, 2, 3, 4]) 4
        (some { size := 0, pDCoeffs := some [7, 7, 7], pACoeffs := some [7, 7, 7] })
        (some strayPolicyInstance)
      = some (DWT_STATUS_SUCCESS,
          some { size := 2, pDCoeffs := some [0, 0, 7], pACoeffs := some [18, 18, 7] }) ∧
    arm_dwt_f32 (9 : Int) (some strayPolicyInstance) (some [1, 2, 3, 4]) 4 (some blankOut)
      = some (DWT_STATUS_SUCCESS, some [0, 0, 0, 18, 7, 7, 7, 7], some sumDiffOut) ∧
    (arm_dwt_1dec_f32 (9 : Int) (some [1, 2, 3, 4]) 4
        (some { size := 0, pDCoeffs := some [7, 7, 7], pACoeffs := some [7, 7, 7] })
        (some strayPolicyInstance)).map (fun r => r.1) ≠ some DWT_STATUS_ERROR ∧
    (arm_dwt_f32 (9 : Int) (some strayPolicyInstance) (some [1, 2, 3, 4]) 4
        (some blankOut)).map (fun r => r.1) ≠ some DWT_STATUS_ERROR :=
  ⟨by decide, by decide, by decide, by decide, by decide, by decide⟩

/-- C17, amended: for an instance whose `extrapolationFlag` is neither
`ARM_DWT_EM_ZERO_PADDING` nor `ARM_DWT_EM_SYMMETRIC`, the `switch` copies nothing into
`extendedSignal`, `arm_dwt_1dec_f32` never returns `DWT_STATUS_ERROR`, and with valid other
inputs `arm_dwt_1dec_f32` and `arm_dwt_f32` return `DWT_STATUS_SUCCESS`. -/
theorem unrecognised_policy_not_reported [Zero α] [Add α] [Mul α] (stack : α)
    (inst : arm_dwt_instance_f32 α) (sig : List α) (N : Nat)
    (h0 : inst.extrapolationFlag ≠ ARM_DWT_EM_ZERO_PADDING)
    (h1 : inst.extrapolationFlag ≠ ARM_DWT_EM_SYMMETRIC) :
    extendSignal stack inst.extrapolationFlag inst.filtersLength sig N
      = some (List.replicate (extendedSignalSize N inst.filtersLength) stack) ∧
    (∀ pSignal pDWTOut status o,
      arm_dwt_1dec_f32 stack pSignal N pDWTOut (some inst) = some (status, o) →
      status ≠ DWT_STATUS_ERROR) ∧
    (∀ out lo hi buffer dstA dstD,
      inst.pLowFilter = some lo → inst.pHighFilter = some hi →
      inst.pInternalBuffer = some buffer →
      out.pACoeffs = some dstA → out.pDCoeffs = some dstD →
      2 ≤ inst.filtersLength →
      inst.filtersLength ≤ lo.length → inst.filtersLength ≤ hi.length →
      N + 2 * inst.filtersLength - 2 < 4294967296 →
      (N + inst.filtersLength - 1) / 2 ≤ dstA.length →
      (N + inst.filtersLength - 1) / 2 ≤ dstD.length →
      ∃ r, arm_dwt_1dec_f32 stack (some sig) N (some out) (some inst)
        = some (DWT_STATUS_SUCCESS, some r)) ∧
    (∀ out lo hi buffer,
      inst.pLowFilter = some lo → inst.pHighFilter = some hi →
      inst.pInternalBuffer = some buffer →
      2 ≤ inst.filtersLength → inst.filtersLength % 2 = 0 →
      inst.filtersLength ≤ lo.length → inst.filtersLength ≤ hi.length →
      1 ≤ N → inst.filtersLength ≤ N + 2 → N ≤ sig.length →
      N + 2 * inst.filtersLength - 2 < 4294967296 →
      1 ≤ inst.decLevel → inst.decLevel ≤ ARM_DWT_MAX_DEC_LEVEL →
      planTotal inst.filtersLength N inst.decLevel ≤ inst.internalBufferSize →
      inst.internalBufferSize ≤ buffer.length → buffer.length < 4294967296 →
      out.coeffs.length = ARM_DWT_MAX_DEC_LEVEL + 1 →
      ∃ buf res, arm_dwt_f32 stack (some inst) (some sig) N (some out)
        = some (DWT_STATUS_SUCCESS, some buf, some res)) := by
  refine ⟨extendSignal_unrecognised stack _ _ N sig h0 h1, ?_, ?_, ?_⟩
  · intro pSignal pDWTOut status o hr
    exact arm_dwt_1dec_f32_never_error stack pSignal N pDWTOut (some inst) status o hr
  · intro out lo hi buffer dstA dstD hlo hhi hbuf hA hDc hL2 hlol hhil hfit hdA hdD
    exact arm_dwt_1dec_f32_succeeds_of_extension stack sig N out inst lo hi buffer dstA dstD _
      hlo hhi hbuf hA hDc hL2 hlol hhil (extendSignal_unrecognised stack _ _ N sig h0 h1)
      (by rw [List.length_replicate, extendedSignalSize_eq N _ hL2 hfit]) hfit hdA hdD
  · intro out lo hi buffer hlo hhi hbuf hL2 heven hlol hhil hN hLN hsig hfit hD1 hD hcap
      hphys hB hout
    exact arm_dwt_f32_succeeds_any stack inst sig N buffer out lo hi hlo hhi hbuf hL2 heven
      hlol hhil (fun hs => absurd hs h1) hN hLN hsig hfit hD1 hD hcap hphys hB hout

/-- Witness for C17 (amended) -/
theorem unrecognised_policy_not_reported_witness :
    extendSignal (9 : Int) 2 2 [1, 2, 3, 4] 4 = some [9, 9, 9, 9, 9, 9] ∧
    (∃ r, arm_dwt_1dec_f32 (9 : Int) (some [1, 2, 3, 4]) 4
        (some { size := 0, pDCoeffs := some [7, 7, 7], pACoeffs := some [7, 7, 7] })
        (some strayPolicyInstance)
      = some (DWT_STATUS_SUCCESS, some r)) ∧
    (∃ buf res,
      arm_dwt_f32 (9 : Int) (some strayPolicyInstance) (some [1, 2, 3, 4]) 4 (some blankOut)
        = some (DWT_STATUS_SUCCESS, some buf, some res)) :=
  ⟨(unrecognised_policy_not_reported (9 : Int) strayPolicyInstance [1, 2, 3, 4] 4
      (by decide) (by decide)).1,
    (unrecognised_policy_not_reported (9 : Int) strayPolicyInstance [1, 2, 3, 4] 4
      (by decide) (by decide)).2.2.1
      { size := 0, pDCoeffs := some [7, 7, 7], pACoeffs := some [7, 7, 7] }
      [1, 1] [1, -1] [7, 7, 7, 7, 7, 7, 7, 7] [7, 7, 7] [7, 7, 7] rfl rfl rfl rfl rfl
      (by decide) (by decide) (by decide) (by decide) (by decide) (by decide),
    (unrecognised_policy_not_reported (9 : Int) strayPolicyInstance [1, 2, 3, 4] 4
      (by decide) (by decide)).2.2.2
      blankOut [1, 1] [1, -1] [7, 7, 7, 7, 7, 7, 7, 7] rfl rfl rfl
      (by decide) (by decide) (by decide) (by decide) (by decide) (by decide) (by decide)
      (by decide) (by decide) (by decide) (by decide) (by decide) (by decide) rfl⟩

/-! ### An all-zero signal under zero padding -/

theorem take_eq_replicate (l : List α) (n : Nat) (a : α)
    (h : ∀ i, i < n → l[i]? = some a) : l.take n = List.replicate n a := by
  apply List.ext_getElem?
  intro i
  rw [List.getElem?_take, List.getElem?_replicate]
  by_cases hi : i < n
  · rw [if_pos hi, if_pos hi, h i hi]
  · rw [if_neg hi, if_neg hi]

theorem getD_of_all_zero [Zero α] (l : List α) (h : ∀ x, x ∈ l → x = 0) (j : Nat) :
    l.getD j 0 = 0 := by
  rw [List.getD_eq_getElem?_getD]
  cases hj : l[j]? with
  | none => rfl
  | some x => exact h x (List.getElem?_mem hj)

theorem ZeroRecord_views [Zero α] (r : arm_dwt_1dec_out_f32 α) (h : ZeroRecord r) :
    approxOf r = List.replicate r.size 0 ∧ detailOf r = List.replicate r.size 0 :=
  ⟨take_eq_replicate _ _ _ (fun j hj => (h j hj).1),
    take_eq_replicate _ _ _ (fun j hj => (h j hj).2)⟩

/-- Under zero padding, one decomposition of a signal whose first `N` samples are `0`
writes `0` in the first `size` cells of both output arrays. -/
theorem arm_dwt_1dec_f32_zero_signal [Semiring α] (stack : α) (sig : List α) (N : Nat)
    (out r : arm_dwt_1dec_out_f32 α) (inst : arm_dwt_instance_f32 α)
    (hflag : inst.extrapolationFlag = ARM_DWT_EM_ZERO_PADDING)
    (hL2 : 2 ≤ inst.filtersLength) (hLu : inst.filtersLength < 4294967296)
    (hz : ∀ j, j < N → sig[j]? = some 0)
    (h : arm_dwt_1dec_f32 stack (some sig) N (some out) (some inst)
      = some (DWT_STATUS_SUCCESS, some r)) :
    ZeroRecord r := by
  obtain ⟨hi, lo, dstA, dstD, fLo, fHi, E, cA, cD, dstA2, dstD2,
      _, _, _, _, h1, h2, h3, h4, h5, h6, h7, hr⟩ :=
    arm_dwt_1dec_f32_inv stack sig N out r inst h
  rw [hflag] at h3
  obtain ⟨_, _, hE⟩ := extendSignal_zero stack _ N sig E hL2 hLu h3
  rw [take_eq_replicate sig N 0 hz] at hE
  have hall : ∀ x, x ∈ E → x = 0 := by
    intro x hx
    rw [hE] at hx
    simp only [List.mem_append, List.mem_replicate] at hx
    rcases hx with (hx | hx) | hx <;> exact hx.2
  have hlt := outSize_lt N inst.filtersLength
  have hsum : ∀ (f : List α) (i : Nat),
      (∑ k ∈ Finset.range inst.filtersLength,
        E.getD (2 * i + k) 0 * f.getD (inst.filtersLength - 1 - k) 0) = 0 := by
    intro f i
    apply Finset.sum_eq_zero
    intro k _
    rw [getD_of_all_zero E hall, zero_mul]
  intro j hj
  rw [hr] at hj ⊢
  simp only [Option.getD_some]
  simp only at hj
  constructor
  · rw [copied_coeff E lo fLo cA dstA dstA2 _ _ (by omega) hLu hlt h1 h4 h6 j hj, hsum]
  · rw [copied_coeff E hi fHi cD dstD dstD2 _ _ (by omega) hLu hlt h2 h5 h7 j hj, hsum]

/-- Under zero padding, every decomposition of the cascade of an all-zero signal gives
all-zero approximation and detail coefficients. -/
theorem levelRecord_zero_signal [Semiring α] (stack : α) (inst : arm_dwt_instance_f32 α)
    (sig : List α) (N : Nat)
    (hflag : inst.extrapolationFlag = ARM_DWT_EM_ZERO_PADDING)
    (hL2 : 2 ≤ inst.filtersLength) (hLu : inst.filtersLength < 4294967296)
    (hz : ∀ j, j < N → sig[j]? = some 0) :
    ∀ k r, levelRecord stack inst sig N k = some r → ZeroRecord r := by
  intro k
  induction k with
  | zero =>
    intro r h
    rw [levelRecord, successRecord_eq_some] at h
    exact arm_dwt_1dec_f32_zero_signal stack sig N _ r inst hflag hL2 hLu hz h
  | succ k ih =>
    intro r h
    rw [levelRecord] at h
    obtain ⟨r2, h2, h3⟩ := Option.bind_eq_some.mp h
    rw [successRecord_eq_some] at h3
    have hz2 := ih r2 h2
    cases hA : r2.pACoeffs with
    | none =>
      rw [hA] at h3
      simp [arm_dwt_1dec_f32] at h3
    | some A =>
      rw [hA] at h3
      refine arm_dwt_1dec_f32_zero_signal stack A r2.size _ r inst hflag hL2 hLu ?_ h3
      intro j hj
      have := (hz2 j hj).1
      rw [hA] at this
      exact this

/-- C18: under zero padding, for a signal whose `N` samples are all `0`, filters of
length `L ≥ 2` and exact arithmetic, every view recorded by a call of `arm_dwt_f32` that
returns `DWT_STATUS_SUCCESS` (`coeffs[0 .. D-1]`, the detail coefficients of each level,
and `coeffs[D]`, the last approximation coefficients) holds only `0`, and so do both
outputs of every `arm_dwt_1dec_f32` step; such a call exists for an even `L`, `N ≥ 1`,
`N ≥ L - 2`, `1 ≤ D ≤ 10` and a sufficient capacity. -/
theorem arm_dwt_f32_zero_signal [Semiring α] (stack : α) (inst : arm_dwt_instance_f32 α)
    (sig : List α) (N : Nat) (out : arm_dwt_out_f32) (buffer : List α)
    (hflag : inst.extrapolationFlag = ARM_DWT_EM_ZERO_PADDING)
    (hL2 : 2 ≤ inst.filtersLength) (hLu : inst.filtersLength < 4294967296)
    (hb : inst.pInternalBuffer = some buffer) (hbl : buffer.length < 4294967296)
    (hout : out.coeffs.length = ARM_DWT_MAX_DEC_LEVEL + 1)
    (hz : ∀ j, j < N → sig[j]? = some 0) :
    (∀ lo hi, inst.pLowFilter = some lo → inst.pHighFilter = some hi →
      inst.filtersLength ≤ lo.length → inst.filtersLength ≤ hi.length →
      inst.filtersLength % 2 = 0 → 1 ≤ N → inst.filtersLength ≤ N + 2 →
      N + 2 * inst.filtersLength - 2 < 4294967296 →
      1 ≤ inst.decLevel → inst.decLevel ≤ ARM_DWT_MAX_DEC_LEVEL →
      planTotal inst.filtersLength N inst.decLevel ≤ inst.internalBufferSize →
      inst.internalBufferSize ≤ buffer.length →
      ∃ buf res, arm_dwt_f32 stack (some inst) (some sig) N (some out)
        = some (DWT_STATUS_SUCCESS, some buf, some res)) ∧
    ∀ buf res, arm_dwt_f32 stack (some inst) (some sig) N (some out)
        = some (DWT_STATUS_SUCCESS, some buf, some res) →
      (∀ k, k ≤ inst.decLevel →
        ∃ c, res.coeffs[k]? = some c ∧ viewOf buf c = List.replicate c.size 0) ∧
      (∀ k, k < inst.decLevel →
        ∃ r, levelRecord stack inst sig N k = some r ∧
          approxOf r = List.replicate r.size 0 ∧ detailOf r = List.replicate r.size 0) := by
  constructor
  · intro lo hi hlo hhi hlol hhil heven hN hLN hfit hD1 hD hcap hphys
    have hsig : N ≤ sig.length := by
      have h1 := hz (N - 1) (by omega)
      have h2 := (List.getElem?_eq_some.mp h1).1
      omega
    exact arm_dwt_f32_succeeds stack inst sig N buffer out lo hi hlo hhi hb hL2 heven hlol hhil
      hflag hN hLN hsig hfit hD1 hD hcap hphys hbl hout
  · intro buf res h
    obtain ⟨buffer2, st, e1, _, hrun, hbuf, hres⟩ :=
      arm_dwt_f32_success stack inst sig N out buf res h
    rw [hb] at e1
    obtain rfl : buffer = buffer2 := Option.some.inj e1
    have hol : out.coeffs.length < 4294967296 := by rw [hout]; decide
    obtain ⟨hD, _, _, _, _, hviews, r, hr, hc, hv, _, _⟩ :=
      cascade_layout stack inst sig N buffer out st hbl hol hrun
    have hzero := levelRecord_zero_signal stack inst sig N hflag hL2 hLu hz
    subst hbuf hres
    constructor
    · intro k hk
      rcases Nat.lt_or_ge k inst.decLevel with hlt | hge
      · obtain ⟨r2, hr2, hc2, hv2⟩ := hviews k hlt
        exact ⟨_, hc2, by rw [hv2]; exact (ZeroRecord_views r2 (hzero k r2 hr2)).2⟩
      · have hk2 : k = inst.decLevel := by omega
        subst hk2
        exact ⟨_, hc, by rw [hv]; exact (ZeroRecord_views r (hzero _ r hr)).1⟩
    · intro k hk
      obtain ⟨r2, hr2, _, _⟩ := hviews k hk
      exact ⟨r2, hr2, ZeroRecord_views r2 (hzero k r2 hr2)⟩

/-- Witness for C18 -/
theorem arm_dwt_f32_zero_signal_witness :
    arm_dwt_f32 (7 : Int) (some sumDiffInstance) (some [0, 0, 0, 0]) 4 (some blankOut)
      = some (DWT_STATUS_SUCCESS, some [0, 0, 0, 0, 7, 7, 7, 7], some sumDiffOut) ∧
    (∀ k, k ≤ sumDiffInstance.decLevel →
      ∃ c, sumDiffOut.coeffs[k]? = some c ∧
        viewOf [0, 0, 0, 0, 7, 7, 7, 7] c = List.replicate c.size (0 : Int)) ∧
    (∀ k, k < sumDiffInstance.decLevel →
      ∃ r, levelRecord (7 : Int) sumDiffInstance [0, 0, 0, 0] 4 k = some r ∧
        approxOf r = List.replicate r.size 0 ∧ detailOf r = List.replicate r.size 0) :=
  ⟨by decide,
    (arm_dwt_f32_zero_signal (7 : Int) sumDiffInstance [0, 0, 0, 0] 4 blankOut
      [7, 7, 7, 7, 7, 7, 7, 7] rfl (by decide) (by decide) rfl (by decide) rfl
      (by decide)).2 [0, 0, 0, 0, 7, 7, 7, 7] sumDiffOut (by decide)⟩

/-! ### Sizes of the levels and the scratch arrays -/

theorem outSize_eq_of_le (N L : Nat) (hL : 1 ≤ L) (hNu : N < 4294967296)
    (hLu : L < 4294967296) (h : N + L ≤ 4294967296) : outSize N L = (N + L - 1) / 2 := by
  unfold outSize u32_sub u32_add
  split <;> omega

/-- The level sizes of the specification for `N ≥ L - 2`: from the first level on they
do not increase, stay at least `L - 2` and at most `floor((N + L - 1) / 2)`, and they are
at most `N`. -/
theorem cascadeSize_facts (L N : Nat) (hL2 : 2 ≤ L) (hLN : L - 2 ≤ N) :
    ∀ k, L - 2 ≤ cascadeSize L N k ∧ cascadeSize L N k ≤ N ∧
      cascadeSize L N (k + 1) ≤ (N + L - 1) / 2 ∧
      (1 ≤ k → cascadeSize L N (k + 1) ≤ cascadeSize L N k) := by
  intro k
  induction k with
  | zero =>
    refine ⟨hLN, le_refl _, le_refl _, fun h => absurd h (by decide)⟩
  | succ k ih =>
    obtain ⟨h1, h2, h3, _⟩ := ih
    have e1 : cascadeSize L N (k + 1) = (cascadeSize L N k + L - 1) / 2 := rfl
    have e2 : cascadeSize L N (k + 1 + 1) = (cascadeSize L N (k + 1) + L - 1) / 2 := rfl
    generalize cascadeSize L N (k + 1 + 1) = u at *
    generalize cascadeSize L N (k + 1) = s at *
    generalize cascadeSize L N k = t at *
    refine ⟨by omega, by omega, by omega, fun _ => by omega⟩

theorem sizeAfter_lt (L N : Nat) (k : Nat) : sizeAfter L N (k + 1) < 2147483648 :=
  outSize_lt _ _

theorem sizeAfter_eq_cascadeSize (L N : Nat) (hL2 : 2 ≤ L) (hLu : L < 4294967296)
    (hNu : N < 4294967296) (hLN : L - 2 ≤ N) (hfit : N + L ≤ 4294967296) :
    ∀ k, sizeAfter L N k = cascadeSize L N k := by
  intro k
  induction k with
  | zero => rfl
  | succ k ih =>
    have hb := (cascadeSize_facts L N hL2 hLN k).2.1
    rw [sizeAfter, ih, outSize_eq_of_le _ L (by omega) (by omega) hLu (by omega)]
    rfl

/-- Size of the output of each decomposition of a run: the value `sizeAfter`. -/
theorem levelRecord_sizeAfter [Zero α] [Add α] [Mul α] (stack : α)
    (inst : arm_dwt_instance_f32 α) (sig : List α) (N : Nat) :
    ∀ k r, levelRecord stack inst sig N k = some r →
      r.size = sizeAfter inst.filtersLength N (k + 1) := by
  intro k
  induction k with
  | zero =>
    intro r h
    rw [levelRecord] at h
    rw [successRecord_size stack _ _ _ r inst h]
    rfl
  | succ k ih =>
    intro r h
    rw [levelRecord] at h
    obtain ⟨r2, h2, h3⟩ := Option.bind_eq_some.mp h
    rw [successRecord_size stack _ _ _ r inst h3, ih r2 h2]
    rfl

/-- C19: for an even `L ≥ 2` and `N ≥ max 1 (L - 2)`, the level lengths
`s_1 = floor((N + L - 1) / 2)`, `s_{k+1} = floor((s_k + L - 1) / 2)` are non-increasing,
stay at least `L - 2` and are at most `decOutputSize = 1 + floor((N - 1) / 2) + (L / 2 - 1)`;
the sizes that the cascade computes (`sizeAfter`, equal to the `s_k` when `N + L` does not
exceed `2 ^ 32`) never exceed `decOutputSize`, so the output of every decomposition of a
run fits in the scratch arrays `outCA` and `outCD`. -/
theorem cascade_sizes_fit_scratch [Zero α] [Add α] [Mul α] (L N : Nat)
    (hL2 : 2 ≤ L) (heven : L % 2 = 0) (hLu : L < 4294967296)
    (hN1 : 1 ≤ N) (hNu : N < 4294967296) (hLN : L - 2 ≤ N) :
    (∀ k, 1 ≤ k →
      cascadeSize L N (k + 1) ≤ cascadeSize L N k ∧ L - 2 ≤ cascadeSize L N k ∧
      cascadeSize L N k ≤ 1 + (N - 1) / 2 + (L / 2 - 1)) ∧
    decOutputSize N L = 1 + (N - 1) / 2 + (L / 2 - 1) ∧
    (∀ k, 1 ≤ k → sizeAfter L N k ≤ decOutputSize N L) ∧
    (N + L ≤ 4294967296 → ∀ k, sizeAfter L N k = cascadeSize L N k) ∧
    (∀ (stack : α) (inst : arm_dwt_instance_f32 α) (sig : List α) (k : Nat)
        (r : arm_dwt_1dec_out_f32 α), inst.filtersLength = L →
      levelRecord stack inst sig N k = some r → r.size ≤ decOutputSize N L) := by
  have hdec : decOutputSize N L = 1 + (N - 1) / 2 + (L / 2 - 1) := by
    rw [decOutputSize_eq_planSize N L hL2 hLu hN1 hNu, planSize_one]
    omega
  have hmath : ∀ k, 1 ≤ k →
      cascadeSize L N (k + 1) ≤ cascadeSize L N k ∧ L - 2 ≤ cascadeSize L N k ∧
      cascadeSize L N k ≤ 1 + (N - 1) / 2 + (L / 2 - 1) := by
    intro k hk
    obtain ⟨j, rfl⟩ : ∃ j, k = j + 1 := ⟨k - 1, by omega⟩
    obtain ⟨a1, _, _, a4⟩ := cascadeSize_facts L N hL2 hLN (j + 1)
    obtain ⟨_, _, b3, _⟩ := cascadeSize_facts L N hL2 hLN j
    refine ⟨a4 hk, a1, ?_⟩
    generalize cascadeSize L N (j + 1) = s at *
    omega
  have hcode : ∀ k, 1 ≤ k → sizeAfter L N k ≤ decOutputSize N L := by
    intro k hk
    rw [hdec]
    by_cases hfit : N + L ≤ 4294967296
    · rw [sizeAfter_eq_cascadeSize L N hL2 hLu hNu hLN hfit k]
      exact (hmath k hk).2.2
    · obtain ⟨j, rfl⟩ : ∃ j, k = j + 1 := ⟨k - 1, by omega⟩
      have := sizeAfter_lt L N j
      omega
  refine ⟨hmath, hdec, hcode, fun hfit => sizeAfter_eq_cascadeSize L N hL2 hLu hNu hLN hfit, ?_⟩
  intro stack inst sig k r hL hr
  rw [levelRecord_sizeAfter stack inst sig N k r hr, hL]
  exact hcode (k + 1) (by omega)

/-- Witness for C19 -/
theorem cascade_sizes_fit_scratch_witness :
    ((List.range 5).map (cascadeSize 4 9) = [9, 6, 4, 3, 3] ∧ decOutputSize 9 4 = 6) ∧
    (∀ k, 1 ≤ k →
      cascadeSize 4 9 (k + 1) ≤ cascadeSize 4 9 k ∧ 4 - 2 ≤ cascadeSize 4 9 k ∧
      cascadeSize 4 9 k ≤ 1 + (9 - 1) / 2 + (4 / 2 - 1)) ∧
    decOutputSize 9 4 = 1 + (9 - 1) / 2 + (4 / 2 - 1) ∧
    (∀ k, 1 ≤ k → sizeAfter 4 9 k ≤ decOutputSize 9 4) ∧
    (9 + 4 ≤ 4294967296 → ∀ k, sizeAfter 4 9 k = cascadeSize 4 9 k) ∧
    (∀ (stack : Int) (inst : arm_dwt_instance_f32 Int) (sig : List Int) (k : Nat)
        (r : arm_dwt_1dec_out_f32 Int), inst.filtersLength = 4 →
      levelRecord stack inst sig 9 k = some r → r.size ≤ decOutputSize 9 4) :=
  ⟨by decide,
    cascade_sizes_fit_scratch 4 9 (by decide) (by decide) (by decide) (by decide) (by decide)
      (by decide)⟩

/-! ### Input lengths of the levels under symmetric padding -/

theorem two_pow_sub_succ {j m : Nat} (h : j < m) : 2 ^ (m - j) = 2 * 2 ^ (m - (j + 1)) := by
  have e : m - j = (m - (j + 1)) + 1 := by omega
  rw [e, Nat.pow_succ]
  omega

/-- Exact bounds on the level sizes of the specification: for `j ≤ m`, the size after
`j` levels is at least `L - 1 + 2 ^ (m - j)` when `N ≥ L - 1 + 2 ^ m`, and below it
otherwise. -/
theorem cascadeSize_pow_bounds (L N m : Nat) (hL2 : 2 ≤ L) :
    ∀ j, j ≤ m →
      (L - 1 + 2 ^ m ≤ N → L - 1 + 2 ^ (m - j) ≤ cascadeSize L N j) ∧
      (N < L - 1 + 2 ^ m → cascadeSize L N j < L - 1 + 2 ^ (m - j)) := by
  intro j
  induction j with
  | zero => intro _; exact ⟨fun h => h, fun h => h⟩
  | succ j ih =>
    intro hj
    obtain ⟨h1, h2⟩ := ih (by omega)
    have e := two_pow_sub_succ (show j < m by omega)
    have hp : 1 ≤ 2 ^ (m - (j + 1)) := Nat.one_le_two_pow
    have ec : cascadeSize L N (j + 1) = (cascadeSize L N j + L - 1) / 2 := rfl
    rw [e] at h1 h2
    generalize 2 ^ (m - (j + 1)) = p at *
    generalize 2 ^ m = q at *
    generalize cascadeSize L N (j + 1) = u at *
    generalize cascadeSize L N j = t at *
    constructor
    · intro h
      have := h1 h
      omega
    · intro h
      have := h2 h
      omega

/-- Every level of a cascade of `D` levels has an input of at least `L` samples exactly
when `N ≥ L - 1 + 2 ^ (D - 1)`. -/
theorem cascadeSize_ge_filtersLength_iff (L N D : Nat) (hL2 : 2 ≤ L) (hD : 1 ≤ D) :
    (∀ j, j < D → L ≤ cascadeSize L N j) ↔ L - 1 + 2 ^ (D - 1) ≤ N := by
  constructor
  · intro h
    by_contra hlt
    have h1 := (cascadeSize_pow_bounds L N (D - 1) hL2 (D - 1) (le_refl _)).2 (by omega)
    have h2 := h (D - 1) (by omega)
    rw [Nat.sub_self, Nat.pow_zero] at h1
    omega
  · intro h j hj
    have h1 := (cascadeSize_pow_bounds L N (D - 1) hL2 j (by omega)).1 h
    have hp : 1 ≤ 2 ^ (D - 1 - j) := Nat.one_le_two_pow
    omega

theorem postSignalIndex_lt (N i : Nat) (hNu : N < 4294967296) (hi : i < N) :
    postSignalIndex N i < N := by
  unfold postSignalIndex
  rw [u32_sub_eq N 1 hNu (by omega), u32_sub_eq (N - 1) i (by omega) (by omega)]
  omega

/-- C20 as stated fails: under symmetric padding with `L = 2`, `N = 2 ≥ L` and `D = 2`,
the second level receives the `floor((2 + 2 - 1) / 2) = 1` coefficient of the first, fewer
than `L`; its right pad reads the index `1 - 1 - 1`, which wraps around to `4294967295`,
and the call has no defined result. -/
theorem symmetric_second_level_too_short :
    (symmetricPairInstance 2).extrapolationFlag = ARM_DWT_EM_SYMMETRIC ∧
    (symmetricPairInstance 2).filtersLength = 2 ∧
    (symmetricPairInstance 2).decLevel = 2 ∧
    sizeAfter 2 2 1 = 1 ∧
    ¬ (∀ j, j < 2 → 2 ≤ sizeAfter 2 2 j) ∧
    postSignalIndex (sizeAfter 2 2 1) 1 = 4294967295 ∧
    arm_dwt_f32 (9 : Int) (some (symmetricPairInstance 2)) (some [1, 2]) 2 (some blankOut)
      = none :=
  ⟨by decide, by decide, by decide, by decide, by decide, by decide, by decide⟩

/-- C20, amended: under symmetric padding, for `L ≥ 2`, `N ≥ L` and `D ≥ 1` (with
`N + L` at most `2 ^ 32`), the input length of every level of the cascade (`N` for the
first level, the previous output size afterwards) is at least `L` exactly when
`N ≥ L - 1 + 2 ^ (D - 1)`; under that condition every right-pad index `N_level - 1 - i`,
`i < L`, read at every level is in range, and a call of `arm_dwt_f32` with an even `L`,
`D ≤ 10` and sufficient capacity returns `DWT_STATUS_SUCCESS`. -/
theorem symmetric_cascade_inputs_long_enough [Zero α] [Add α] [Mul α] (L N D : Nat)
    (hL2 : 2 ≤ L) (hLu : L < 4294967296) (hNu : N < 4294967296) (hLN : L ≤ N)
    (hD1 : 1 ≤ D) (hfit : N + L ≤ 4294967296) :
    ((∀ j, j < D → L ≤ sizeAfter L N j) ↔ L - 1 + 2 ^ (D - 1) ≤ N) ∧
    (L - 1 + 2 ^ (D - 1) ≤ N →
      ∀ j, j < D → ∀ i, i < L →
        postSignalIndex (sizeAfter L N j) i < sizeAfter L N j) ∧
    (L - 1 + 2 ^ (D - 1) ≤ N →
      ∀ (stack : α) (inst : arm_dwt_instance_f32 α) (sig buffer lo hi : List α)
        (out : arm_dwt_out_f32),
      inst.filtersLength = L → inst.decLevel = D →
      inst.extrapolationFlag = ARM_DWT_EM_SYMMETRIC →
      inst.pLowFilter = some lo → inst.pHighFilter = some hi →
      inst.pInternalBuffer = some buffer →
      L % 2 = 0 → L ≤ lo.length → L ≤ hi.length → N ≤ sig.length →
      N + 2 * L - 2 < 4294967296 → D ≤ ARM_DWT_MAX_DEC_LEVEL →
      planTotal L N D ≤ inst.internalBufferSize → inst.internalBufferSize ≤ buffer.length →
      buffer.length < 4294967296 → out.coeffs.length = ARM_DWT_MAX_DEC_LEVEL + 1 →
      ∃ buf res, arm_dwt_f32 stack (some inst) (some sig) N (some out)
        = some (DWT_STATUS_SUCCESS, some buf, some res)) := by
  have hsz := sizeAfter_eq_cascadeSize L N hL2 hLu hNu (by omega) hfit
  have hiff : (∀ j, j < D → L ≤ sizeAfter L N j) ↔ L - 1 + 2 ^ (D - 1) ≤ N := by
    rw [← cascadeSize_ge_filtersLength_iff L N D hL2 hD1]
    constructor
    · intro h j hj; rw [← hsz j]; exact h j hj
    · intro h j hj; rw [hsz j]; exact h j hj
  refine ⟨hiff, ?_, ?_⟩
  · intro hN j hj i hi
    have h1 := hiff.mpr hN j hj
    have h2 : sizeAfter L N j ≤ N := by
      rw [hsz j]
      exact (cascadeSize_facts L N hL2 (by omega) j).2.1
    exact postSignalIndex_lt _ i (by omega) (by omega)
  · intro hN stack inst sig buffer lo hi out eL eD hflag hlo hhi hbuf heven hlol hhil hsig
      hfit2 hD10 hcap hphys hB hout
    subst eL eD
    refine arm_dwt_f32_succeeds_any stack inst sig N buffer out lo hi hlo hhi hbuf hL2 heven
      hlol hhil ?_ (by omega) (by omega) hsig hfit2 hD1 hD10 hcap hphys hB hout
    intro _ k hk
    rw [(planSize_eq_cascadeSize inst.filtersLength N hL2 heven (by omega) k).1, ← hsz k]
    exact hiff.mpr hN k hk

/-- Witness for C20 (amended) -/
theorem symmetric_cascade_inputs_long_enough_witness :
    ((List.range 3).map (sizeAfter 2 5) = [5, 3, 2] ∧ 2 - 1 + 2 ^ (3 - 1) ≤ 5) ∧
    (∀ j, j < 3 → ∀ i, i < 2 → postSignalIndex (sizeAfter 2 5 j) i < sizeAfter 2 5 j) ∧
    (∃ buf res,
      arm_dwt_f32 (9 : Int) (some (symmetricPairInstance 3)) (some [1, 2, 3, 4, 5]) 5
          (some blankOut)
        = some (DWT_STATUS_SUCCESS, some buf, some res)) :=
  ⟨by decide,
    (@symmetric_cascade_inputs_long_enough Int _ _ _ 2 5 3 (by decide) (by decide)
      (by decide) (by decide) (by decide) (by decide)).2.1 (by decide),
    (@symmetric_cascade_inputs_long_enough Int _ _ _ 2 5 3 (by decide) (by decide)
      (by decide) (by decide) (by decide) (by decide)).2.2 (by decide) (9 : Int)
      (symmetricPairInstance 3) [1, 2, 3, 4, 5] [7, 7, 7, 7, 7, 7, 7, 7] [1, 1] [1, -1]
      blankOut rfl rfl rfl rfl rfl rfl (by decide) (by decide) (by decide) (by decide)
      (by decide) (by decide) (by decide) (by decide) (by decide) rfl⟩

end Proofs

end ArmDwt
